import Mathlib

/-! # hitbox: a verification development

Shallow embedding of `hitbox.go` (package `hitbox`, a client of the hitbox.tv API).

Go strings and `[]byte` values are byte sequences and are embedded as `List UInt8`.
A Go call that can end in a run-time panic returns `Exec`; a Go `error` result is an
`Option GoError` (`none` is the nil error).

The functions of the Go standard library that the package calls (`time.Parse`,
`encoding/json`, `net/url`, `net/http`) are embedded from the Go 1.21 sources, cut down to
the arguments the package passes (the layout constant of `time.Parse`, the struct types
handed to the JSON decoder).
-/

namespace Hitbox

/-! ## Bytes, errors and panics -/

/-- A Go `[]byte` or `string`. -/
abbrev Bytes := List UInt8

/-- The bytes of a text (its UTF-8 encoding), as Go compiles a string literal. -/
def str (s : String) : Bytes := s.data.flatMap String.utf8EncodeChar

/-- Go `error` values, by the place that makes them. -/
inductive GoError where
  /-- `*time.ParseError`, from `time.Parse`. -/
  | timeParse (detail : String)
  /-- `*json.SyntaxError`, `io.EOF` or `io.ErrUnexpectedEOF`, from the JSON scanner. -/
  | jsonSyntax (detail : String)
  /-- `*json.UnmarshalTypeError` and the errors on the `,string` option. -/
  | jsonType (detail : String)
  /-- `errors.New(text)`, as built in `Client.do`; `text` is the message, in bytes. -/
  | status (text : Bytes)
  /-- An error of the HTTP transport (`http.Client.Do`). -/
  | transport (detail : String)
  /-- An error of `url.Parse` or `http.NewRequest`. -/
  | url (detail : String)
  deriving DecidableEq, Repr

/-- The errors that come out of `json.Decoder.Decode`. -/
def GoError.isDecodeError : GoError → Bool
  | .timeParse _ => true
  | .jsonSyntax _ => true
  | .jsonType _ => true
  | _ => false

deriving instance DecidableEq for Except

/-- Outcome of a Go call: it returns, or it ends in a run-time panic. -/
inductive Exec (α : Type) where
  | ok (a : α)
  | panic (msg : String)
  deriving DecidableEq, Repr

/-- Sequencing of Go calls: a panic propagates. -/
def Exec.bind {α β : Type} (x : Exec α) (f : α → Exec β) : Exec β :=
  match x with
  | .ok a => f a
  | .panic m => .panic m

instance : Monad Exec where
  pure := Exec.ok
  bind := Exec.bind

/-- Whether the call returned. -/
def Exec.returns {α : Type} : Exec α → Bool
  | .ok _ => true
  | .panic _ => false

/-- The Go slice expression `s[lo:hi]` on a slice whose capacity is its length:
panics unless `0 ≤ lo ≤ hi ≤ len(s)`. -/
def sliceExpr (s : Bytes) (lo hi : Int) : Exec Bytes :=
  if 0 ≤ lo ∧ lo ≤ hi ∧ hi ≤ (s.length : Int) then
    .ok ((s.drop lo.toNat).take (hi.toNat - lo.toNat))
  else
    .panic "runtime error: slice bounds out of range"

/-! ## `time.Parse` with the layout `2006-01-02 15:04:05` -/

/-- A `*time.Location`; `time.Parse` gives UTC when the text has no zone. -/
inductive Location where
  | UTC
  | Local
  deriving DecidableEq, Repr

/-- A `time.Time`, by its civil fields (what `Date`, `Clock`, `Nanosecond` and
`Location` return). -/
structure Time where
  year : Int
  month : Nat
  day : Nat
  hour : Nat
  minute : Nat
  second : Nat
  nsec : Nat
  loc : Location
  deriving DecidableEq, Repr

/-- The zero `time.Time{}`: January 1, year 1, 00:00:00 UTC. -/
def Time.zero : Time := ⟨1, 1, 1, 0, 0, 0, 0, .UTC⟩

/-- `isDigit(s, i)` of package time. -/
def isDigit (s : Bytes) (i : Nat) : Bool :=
  match s.get? i with
  | none => false
  | some c => decide (48 ≤ c.toNat ∧ c.toNat ≤ 57)

/-- `getnum(s, fixed)` of package time: a one- or two-digit number; two digits are
required when `fixed`. -/
def getnum (s : Bytes) (fixed : Bool) : Option (Nat × Bytes) :=
  if !isDigit s 0 then none
  else if !isDigit s 1 then
    if fixed then none
    else
      match s with
      | c :: rest => some (c.toNat - 48, rest)
      | [] => none
  else
    match s with
    | c :: d :: rest => some ((c.toNat - 48) * 10 + (d.toNat - 48), rest)
    | _ => none

/-- `leadingInt(s)` of package time, from the accumulator `x`: the leading decimal
digits of `s` and the rest; fails over `1<<63`. -/
def leadingInt (x : Nat) : Bytes → Option (Nat × Bytes)
  | [] => some (x, [])
  | c :: rest =>
    if c.toNat < 48 ∨ c.toNat > 57 then some (x, c :: rest)
    else if x > 2 ^ 63 / 10 then none
    else
      let x1 := x * 10 + c.toNat - 48
      if x1 > 2 ^ 63 then none else leadingInt x1 rest

/-- The second half of `atoi`: the digits after the sign; nothing may follow them. -/
def atoiDigits (neg : Bool) (t : Bytes) : Option Int :=
  match leadingInt 0 t with
  | some (q, []) => some (if neg then -(q : Int) else (q : Int))
  | _ => none

/-- `atoi(s)` of package time: an optional sign, then digits and nothing else. -/
def atoi : Bytes → Option Int
  | [] => atoiDigits false []
  | c :: rest =>
    if c = 45 ∨ c = 43 then atoiDigits (decide (c = 45)) rest
    else atoiDigits false (c :: rest)

/-- `cutspace(s)` of package time: drop the leading spaces. -/
def cutspace : Bytes → Bytes
  | [] => []
  | c :: rest => if c = 32 then cutspace rest else c :: rest

/-- `skip(value, prefix)` of package time: `value` without the literal `pfx`; a space
of `pfx` stands for any run of spaces, the empty one at the end of `value` included. -/
def skip (value : Bytes) : Bytes → Option Bytes
  | [] => some value
  | p :: ps =>
    if p = 32 then
      match value with
      | v :: _ => if v ≠ 32 then none else skipSp (cutspace value) ps
      | [] => skipSp [] ps
    else
      match value with
      | v :: vs => if v ≠ p then none else skip vs ps
      | [] => none
where
  /-- Continue after a space of the prefix: the further leading spaces of the prefix
  are cut too (`prefix = cutspace(prefix)`). -/
  skipSp (value : Bytes) : Bytes → Option Bytes
    | [] => some value
    | p :: ps => if p = 32 then skipSp value ps else
        match value with
        | v :: vs => if v ≠ p then none else skip vs ps
        | [] => none

/-- `isLeap(year)` of package time. -/
def isLeap (year : Int) : Bool :=
  year % 4 == 0 && (year % 100 != 0 || year % 400 == 0)

/-- `daysIn(m, year)` of package time. -/
def daysIn (m : Nat) (year : Int) : Nat :=
  if m = 2 then (if isLeap year then 29 else 28)
  else 30 + ((m + m / 8) % 2)

/-- `commaOrPeriod(b)` of package time. -/
def commaOrPeriod (b : UInt8) : Bool := b = 46 || b = 44

/-- Whether a byte is a decimal digit, the test of `isDigit`. -/
def isDigitByte (c : UInt8) : Bool := decide (48 ≤ c.toNat ∧ c.toNat ≤ 57)

/-- The loop `for ; n < len(value) && isDigit(value, n); n++ {}`: the index `n` moved
past the run of digits that starts there. -/
def digitRun (value : Bytes) (n : Nat) : Nat :=
  n + ((value.drop n).takeWhile isDigitByte).length

/-- `parseNanoseconds(value, nbytes)` of package time. -/
def parseNanoseconds (value : Bytes) (nbytes : Nat) : Option Nat :=
  match value with
  | [] => none
  | c :: _ =>
    if !commaOrPeriod c then none
    else
      let nb := if nbytes > 10 then 10 else nbytes
      let v := if nbytes > 10 then value.take 10 else value
      match atoi ((v.drop 1).take (nb - 1)) with
      | none => none
      | some ns =>
        if ns < 0 then none
        else some (ns.toNat * 10 ^ (10 - nb))

/-- The special case of `Parse` after the seconds: a comma or period followed by a digit
starts a fractional second although the layout has none; it is read with all its digits.
Gives the nanoseconds and the text left. -/
def fracSecond (value : Bytes) : Option (Nat × Bytes) :=
  match value with
  | c :: _ :: _ =>
    if commaOrPeriod c && isDigit value 1 then
      let n := digitRun value 2
      match parseNanoseconds value n with
      | none => none
      | some ns => some (ns, value.drop n)
    else some (0, value)
  | _ => some (0, value)

/-- `time.Parse("2006-01-02 15:04:05", value)`: the chunks of the layout in order, each
followed by the checks `Parse` makes on it; then no text may be left, the day must exist
in its month, and the time is built in UTC. -/
def timeParse (value : Bytes) : Except GoError Time :=
  -- stdLongYear "2006"
  if value.length < 4 ∨ !isDigit value 0 then .error (.timeParse "year") else
  match atoi (value.take 4) with
  | none => .error (.timeParse "year")
  | some year =>
  -- "-", stdZeroMonth "01"
  match skip (value.drop 4) [45] with
  | none => .error (.timeParse "-")
  | some v1 =>
  match getnum v1 true with
  | none => .error (.timeParse "month")
  | some (month, v2) =>
  if month ≤ 0 ∨ 12 < month then .error (.timeParse "month out of range") else
  -- "-", stdZeroDay "02"
  match skip v2 [45] with
  | none => .error (.timeParse "-")
  | some v3 =>
  match getnum v3 true with
  | none => .error (.timeParse "day")
  | some (day, v4) =>
  -- " ", stdHour "15"
  match skip v4 [32] with
  | none => .error (.timeParse "space")
  | some v5 =>
  match getnum v5 false with
  | none => .error (.timeParse "hour")
  | some (hour, v6) =>
  if 24 ≤ hour then .error (.timeParse "hour out of range") else
  -- ":", stdZeroMinute "04"
  match skip v6 [58] with
  | none => .error (.timeParse ":")
  | some v7 =>
  match getnum v7 true with
  | none => .error (.timeParse "minute")
  | some (minute, v8) =>
  if 60 ≤ minute then .error (.timeParse "minute out of range") else
  -- ":", stdZeroSecond "05"
  match skip v8 [58] with
  | none => .error (.timeParse ":")
  | some v9 =>
  match getnum v9 true with
  | none => .error (.timeParse "second")
  | some (sec, v10) =>
  if 60 ≤ sec then .error (.timeParse "second out of range") else
  -- a fractional second in the text though the layout has none
  match fracSecond v10 with
  | none => .error (.timeParse "fractional second")
  | some (nsec, v11) =>
  -- end of the layout
  if v11.length ≠ 0 then .error (.timeParse "extra text") else
  if day < 1 ∨ day > daysIn month year then .error (.timeParse "day out of range") else
  .ok ⟨year, month, day, hour, minute, sec, nsec, .UTC⟩

/-! ## The wire format `yyyy-mm-dd hh:mm:ss` -/

/-- The ASCII digit of `n % 10`. -/
def digitByte (n : Nat) : UInt8 := UInt8.ofNat (48 + n % 10)

/-- A number written with two decimal digits. -/
def pad2 (n : Nat) : Bytes := [digitByte (n / 10), digitByte n]

/-- A number written with four decimal digits. -/
def pad4 (n : Nat) : Bytes :=
  [digitByte (n / 1000), digitByte (n / 100), digitByte (n / 10), digitByte n]

/-- The text `yyyy-mm-dd hh:mm:ss` of a date and time of day. -/
def wireText (y mo d h mi s : Nat) : Bytes :=
  pad4 y ++ [45] ++ pad2 mo ++ [45] ++ pad2 d ++ [32] ++ pad2 h ++ [58] ++ pad2 mi ++ [58] ++ pad2 s

/-- A valid calendar date with a four-digit year and a valid time of day. -/
def validDateTime (y mo d h mi s : Nat) : Prop :=
  y ≤ 9999 ∧ 1 ≤ mo ∧ mo ≤ 12 ∧ 1 ≤ d ∧ d ≤ daysIn mo y ∧ h ≤ 23 ∧ mi ≤ 59 ∧ s ≤ 59

instance (y mo d h mi s : Nat) : Decidable (validDateTime y mo d h mi s) := by
  unfold validDateTime; infer_instance

/-! ## Timestamp -/

/-- Go `type Timestamp struct { time.Time }`. -/
structure Timestamp where
  Time : Time
  deriving DecidableEq, Repr

/-- `func (t *Timestamp) UnmarshalJSON(data []byte) (err error)`: the value of `*t`
after the call and the error returned. -/
def Timestamp.UnmarshalJSON (_t : Timestamp) (data : Bytes) :
    Exec (Timestamp × Option GoError) :=
  match sliceExpr data 1 ((data.length : Int) - 1) with
  | .panic m => .panic m
  | .ok s =>
    match timeParse s with
    | .ok tm => .ok (⟨tm⟩, none)
    | .error e => .ok (⟨Time.zero⟩, some e)

/-- The texts that `time.Parse` reads with the layout `2006-01-02 15:04:05`: the wire
format, where the date and the time may be separated by more than one space, the hour
may have a single digit, and a fractional second (a period or comma, then digits) may
follow the seconds. -/
def AcceptedText (text : Bytes) : Prop :=
  ∃ (y mo d h mi s k : Nat) (hour frac : Bytes),
    validDateTime y mo d h mi s ∧
    (hour = pad2 h ∨ (h ≤ 9 ∧ hour = [digitByte h])) ∧
    (frac = [] ∨ ∃ c ds, (c = 46 ∨ c = 44) ∧ ds ≠ [] ∧ (∀ x ∈ ds, isDigitByte x = true) ∧
      frac = c :: ds) ∧
    text = pad4 y ++ [45] ++ pad2 mo ++ [45] ++ pad2 d ++ List.replicate (k + 1) 32 ++ hour
      ++ [58] ++ pad2 mi ++ [58] ++ pad2 s ++ frac

/-! ## `unicode/utf8`, `unicode/utf16` and `strconv`, as far as `encoding/json` calls them -/

/-- `utf8.RuneError`, also `unicode.ReplacementChar`. -/
def runeError : Nat := 0xFFFD

/-- Whether a byte is a UTF-8 continuation byte (`locb ≤ b ≤ hicb`). -/
def isCont (b : UInt8) : Bool := decide (0x80 ≤ b.toNat ∧ b.toNat ≤ 0xBF)

/-- The entry of the table `first` of package utf8 for a lead byte of a multi-byte
sequence: the size of the sequence and the range accepted for its second byte. -/
def firstInfo (p0 : Nat) : Option (Nat × Nat × Nat) :=
  if 0xC2 ≤ p0 ∧ p0 ≤ 0xDF then some (2, 0x80, 0xBF)
  else if p0 = 0xE0 then some (3, 0xA0, 0xBF)
  else if 0xE1 ≤ p0 ∧ p0 ≤ 0xEC then some (3, 0x80, 0xBF)
  else if p0 = 0xED then some (3, 0x80, 0x9F)
  else if 0xEE ≤ p0 ∧ p0 ≤ 0xEF then some (3, 0x80, 0xBF)
  else if p0 = 0xF0 then some (4, 0x90, 0xBF)
  else if 0xF1 ≤ p0 ∧ p0 ≤ 0xF3 then some (4, 0x80, 0xBF)
  else if p0 = 0xF4 then some (4, 0x80, 0x8F)
  else none

/-- `utf8.DecodeRune(p)`: the first rune of `p` and its width in bytes; `(RuneError, 1)`
for an invalid encoding and `(RuneError, 0)` for the empty slice. -/
def decodeRune (p : Bytes) : Nat × Nat :=
  match p with
  | [] => (runeError, 0)
  | p0 :: rest =>
    if p0.toNat < 0x80 then (p0.toNat, 1)
    else
      match firstInfo p0.toNat with
      | none => (runeError, 1)
      | some (sz, lo, hi) =>
        if p.length < sz then (runeError, 1)
        else
          match rest with
          | [] => (runeError, 1)
          | b1 :: rest1 =>
            if b1.toNat < lo ∨ hi < b1.toNat then (runeError, 1)
            else if sz ≤ 2 then ((p0.toNat % 32) * 64 + b1.toNat % 64, 2)
            else
              match rest1 with
              | [] => (runeError, 1)
              | b2 :: rest2 =>
                if !isCont b2 then (runeError, 1)
                else if sz ≤ 3 then
                  ((p0.toNat % 16) * 4096 + (b1.toNat % 64) * 64 + b2.toNat % 64, 3)
                else
                  match rest2 with
                  | [] => (runeError, 1)
                  | b3 :: _ =>
                    if !isCont b3 then (runeError, 1)
                    else
                      ((p0.toNat % 8) * 262144 + (b1.toNat % 64) * 4096
                        + (b2.toNat % 64) * 64 + b3.toNat % 64, 4)

/-- `utf8.EncodeRune` (the bytes written): a surrogate or a value over `MaxRune` is
written as `RuneError`. -/
def encodeRune (r : Nat) : Bytes :=
  if r ≤ 0x7F then [UInt8.ofNat r]
  else if r ≤ 0x7FF then [UInt8.ofNat (0xC0 + r / 64), UInt8.ofNat (0x80 + r % 64)]
  else if r > 0x10FFFF ∨ (0xD800 ≤ r ∧ r ≤ 0xDFFF) then [0xEF, 0xBF, 0xBD]
  else if r ≤ 0xFFFF then
    [UInt8.ofNat (0xE0 + r / 4096), UInt8.ofNat (0x80 + r / 64 % 64), UInt8.ofNat (0x80 + r % 64)]
  else
    [UInt8.ofNat (0xF0 + r / 262144), UInt8.ofNat (0x80 + r / 4096 % 64),
      UInt8.ofNat (0x80 + r / 64 % 64), UInt8.ofNat (0x80 + r % 64)]

/-- The Go conversion `string(i)` of an integer: the UTF-8 encoding of the code point
`i`, and `"�"` when `i` is not a valid code point. -/
def stringOfInt (i : Int) : Bytes :=
  if i < 0 then encodeRune runeError else encodeRune i.toNat

/-- Value of a hexadecimal digit, as in `getu4`. -/
def hexVal (c : UInt8) : Option Nat :=
  let x := c.toNat
  if 48 ≤ x ∧ x ≤ 57 then some (x - 48)
  else if 97 ≤ x ∧ x ≤ 102 then some (x - 97 + 10)
  else if 65 ≤ x ∧ x ≤ 70 then some (x - 65 + 10)
  else none

/-- `getu4(s)` of package json: the rune of a leading `\uXXXX`; `none` stands for `-1`. -/
def getu4 (s : Bytes) : Option Nat :=
  match s with
  | 92 :: 117 :: a :: b :: c :: d :: _ =>
    match hexVal a, hexVal b, hexVal c, hexVal d with
    | some x, some y, some z, some w => some (((x * 16 + y) * 16 + z) * 16 + w)
    | _, _, _, _ => none
  | _ => none

/-- `utf16.IsSurrogate(r)`. -/
def isSurrogate (r : Nat) : Bool := decide (0xD800 ≤ r ∧ r < 0xE000)

/-- `utf16.DecodeRune(r1, r2)`; `r2` is `none` for `-1`. -/
def utf16DecodeRune (r1 : Nat) (r2 : Option Nat) : Nat :=
  match r2 with
  | some r2 =>
    if 0xD800 ≤ r1 ∧ r1 < 0xDC00 ∧ 0xDC00 ≤ r2 ∧ r2 < 0xE000 then
      (r1 - 0xD800) * 1024 + (r2 - 0xDC00) + 0x10000
    else runeError
  | none => runeError

/-- The second loop of `unquoteBytes`, on the text between the quotes; each round
takes at least one byte, so the rounds are bounded by the length. -/
def unquoteLoop : Nat → Bytes → Option Bytes
  | 0, _ => none
  | fuel + 1, s =>
    match s with
    | [] => some []
    | c :: rest =>
      if c = 92 then
        match rest with
        | [] => none
        | e :: rest1 =>
          if e = 34 ∨ e = 92 ∨ e = 47 ∨ e = 39 then (unquoteLoop fuel rest1).map (e :: ·)
          else if e = 98 then (unquoteLoop fuel rest1).map (8 :: ·)
          else if e = 102 then (unquoteLoop fuel rest1).map (12 :: ·)
          else if e = 110 then (unquoteLoop fuel rest1).map (10 :: ·)
          else if e = 114 then (unquoteLoop fuel rest1).map (13 :: ·)
          else if e = 116 then (unquoteLoop fuel rest1).map (9 :: ·)
          else if e = 117 then
            match getu4 s with
            | none => none
            | some rr =>
              let after := s.drop 6
              if isSurrogate rr then
                let dec := utf16DecodeRune rr (getu4 after)
                if dec ≠ runeError then
                  (unquoteLoop fuel (after.drop 6)).map (encodeRune dec ++ ·)
                else (unquoteLoop fuel after).map (encodeRune runeError ++ ·)
              else (unquoteLoop fuel after).map (encodeRune rr ++ ·)
          else none
      else if c = 34 ∨ c.toNat < 32 then none
      else if c.toNat < 0x80 then (unquoteLoop fuel rest).map (c :: ·)
      else
        let (rr, size) := decodeRune s
        (unquoteLoop fuel (s.drop size)).map (encodeRune rr ++ ·)

/-- `unquoteBytes(s)` of package json: the text of a quoted JSON string literal. -/
def unquoteBytes (s : Bytes) : Option Bytes :=
  match s with
  | 34 :: rest =>
    if rest.getLast? = some 34 then unquoteLoop rest.length rest.dropLast
    else none
  | _ => none

/-- `strconv.ParseUint(s, 10, 64)` without the range check: the value of a non-empty
run of decimal digits. -/
def parseDigits : Nat → Bytes → Option Nat
  | acc, [] => some acc
  | acc, c :: rest =>
    if isDigitByte c then parseDigits (acc * 10 + (c.toNat - 48)) rest else none

/-- `strconv.ParseInt(s, 10, 64)`; `none` for a syntax or range error. -/
def parseInt (s : Bytes) : Option Int :=
  match s with
  | [] => none
  | c :: rest =>
    let neg := decide (c = 45)
    let digits := if c = 43 ∨ c = 45 then rest else s
    if digits = [] then none
    else
      match parseDigits 0 digits with
      | none => none
      | some un =>
        if !neg ∧ un ≥ 2 ^ 63 then none
        else if neg ∧ un > 2 ^ 63 then none
        else some (if neg then -(un : Int) else (un : Int))

/-! ## The JSON scanner (`encoding/json/scanner.go`) -/

/-- The step functions of the scanner (`s.step`). -/
inductive ScanStep where
  | beginValue | beginValueOrEmpty | beginStringOrEmpty | beginString
  | endValue | endTop
  | inString | inStringEsc | inStringEscU | inStringEscU1 | inStringEscU12 | inStringEscU123
  | neg | num1 | num0 | dot | dot0 | e | eSign | e0
  | t | tr | tru | f | fa | fal | fals | n | nu | nul
  | error
  deriving DecidableEq, Repr

/-- The opcodes the step functions return. -/
inductive ScanOp where
  | scanContinue | scanBeginLiteral | scanBeginObject | scanObjectKey | scanObjectValue
  | scanEndObject | scanBeginArray | scanArrayValue | scanEndArray | scanSkipSpace
  | scanEnd | scanError
  deriving DecidableEq, Repr

/-- The entries of the stack `s.parseState`. -/
inductive ParseState where
  | parseObjectKey | parseObjectValue | parseArrayValue
  deriving DecidableEq, Repr

/-- The `scanner` struct; the innermost parse state is the head of `parseState`. -/
structure Scanner where
  step : ScanStep
  endTop : Bool
  parseState : List ParseState
  err : Option String
  deriving DecidableEq, Repr

/-- `scanner.reset()`. -/
def Scanner.reset : Scanner := ⟨.beginValue, false, [], none⟩

/-- `maxNestingDepth` of package json. -/
def maxNestingDepth : Nat := 10000

/-- `isSpace(c)` of package json. -/
def isSpace (c : UInt8) : Bool := c = 32 || c = 9 || c = 13 || c = 10

/-- `scanner.error(c, context)`. -/
def Scanner.error (s : Scanner) (context : String) : Scanner × ScanOp :=
  ({ s with step := .error, err := some context }, .scanError)

/-- `scanner.pushParseState(c, newParseState, successState)`. -/
def Scanner.pushParseState (s : Scanner) (p : ParseState) (success : ScanOp) :
    Scanner × ScanOp :=
  let s1 := { s with parseState := p :: s.parseState }
  if s1.parseState.length ≤ maxNestingDepth then (s1, success)
  else s1.error "exceeded max depth"

/-- `scanner.popParseState()`. -/
def Scanner.popParseState (s : Scanner) : Scanner :=
  let rest := s.parseState.tail
  if rest.length = 0 then { s with parseState := rest, step := .endTop, endTop := true }
  else { s with parseState := rest, step := .endValue }

/-- `stateEndTop(s, c)`. -/
def stateEndTop (s : Scanner) (c : UInt8) : Scanner × ScanOp :=
  if !isSpace c then ((s.error "after top-level value").1, .scanEnd) else (s, .scanEnd)

/-- `stateEndValue(s, c)`. -/
def stateEndValue (s : Scanner) (c : UInt8) : Scanner × ScanOp :=
  match s.parseState with
  | [] => stateEndTop { s with step := .endTop, endTop := true } c
  | ps :: rest =>
    if isSpace c then ({ s with step := .endValue }, .scanSkipSpace)
    else
      match ps with
      | .parseObjectKey =>
        if c = 58 then
          ({ s with parseState := .parseObjectValue :: rest, step := .beginValue }, .scanObjectKey)
        else s.error "after object key"
      | .parseObjectValue =>
        if c = 44 then
          ({ s with parseState := .parseObjectKey :: rest, step := .beginString },
            .scanObjectValue)
        else if c = 125 then (s.popParseState, .scanEndObject)
        else s.error "after object key:value pair"
      | .parseArrayValue =>
        if c = 44 then ({ s with step := .beginValue }, .scanArrayValue)
        else if c = 93 then (s.popParseState, .scanEndArray)
        else s.error "after array element"

/-- `stateBeginValue(s, c)`. -/
def stateBeginValue (s : Scanner) (c : UInt8) : Scanner × ScanOp :=
  if isSpace c then (s, .scanSkipSpace)
  else if c = 123 then
    { s with step := .beginStringOrEmpty }.pushParseState .parseObjectKey .scanBeginObject
  else if c = 91 then
    { s with step := .beginValueOrEmpty }.pushParseState .parseArrayValue .scanBeginArray
  else if c = 34 then ({ s with step := .inString }, .scanBeginLiteral)
  else if c = 45 then ({ s with step := .neg }, .scanBeginLiteral)
  else if c = 48 then ({ s with step := .num0 }, .scanBeginLiteral)
  else if c = 116 then ({ s with step := .t }, .scanBeginLiteral)
  else if c = 102 then ({ s with step := .f }, .scanBeginLiteral)
  else if c = 110 then ({ s with step := .n }, .scanBeginLiteral)
  else if 49 ≤ c.toNat ∧ c.toNat ≤ 57 then ({ s with step := .num1 }, .scanBeginLiteral)
  else s.error "looking for beginning of value"

/-- `stateBeginString(s, c)`. -/
def stateBeginString (s : Scanner) (c : UInt8) : Scanner × ScanOp :=
  if isSpace c then (s, .scanSkipSpace)
  else if c = 34 then ({ s with step := .inString }, .scanBeginLiteral)
  else s.error "looking for beginning of object key string"

/-- Whether a byte is a hexadecimal digit, the test of `stateInStringEscU`. -/
def isHex (c : UInt8) : Bool :=
  decide ((48 ≤ c.toNat ∧ c.toNat ≤ 57) ∨ (97 ≤ c.toNat ∧ c.toNat ≤ 102)
    ∨ (65 ≤ c.toNat ∧ c.toNat ≤ 70))

/-- A step that expects one byte: `stateT` ... `stateNul`. -/
def expectByte (s : Scanner) (c want : UInt8) (next : ScanStep) (context : String) :
    Scanner × ScanOp :=
  if c = want then ({ s with step := next }, .scanContinue) else s.error context

/-- `stateE0(s, c)`. -/
def stateE0 (s : Scanner) (c : UInt8) : Scanner × ScanOp :=
  if isDigitByte c then (s, .scanContinue) else stateEndValue s c

/-- `stateESign(s, c)`. -/
def stateESign (s : Scanner) (c : UInt8) : Scanner × ScanOp :=
  if isDigitByte c then ({ s with step := .e0 }, .scanContinue)
  else s.error "in exponent of numeric literal"

/-- `state0(s, c)`. -/
def state0 (s : Scanner) (c : UInt8) : Scanner × ScanOp :=
  if c = 46 then ({ s with step := .dot }, .scanContinue)
  else if c = 101 ∨ c = 69 then ({ s with step := .e }, .scanContinue)
  else stateEndValue s c

/-- The call `s.step(s, c)`: the step function the scanner is in, applied to the next
byte. -/
def Scanner.next (s : Scanner) (c : UInt8) : Scanner × ScanOp :=
  match s.step with
  | .beginValue => stateBeginValue s c
  | .beginValueOrEmpty =>
    if isSpace c then (s, .scanSkipSpace)
    else if c = 93 then stateEndValue s c
    else stateBeginValue s c
  | .beginStringOrEmpty =>
    if isSpace c then (s, .scanSkipSpace)
    else if c = 125 then
      stateEndValue { s with parseState := .parseObjectValue :: s.parseState.tail } c
    else stateBeginString s c
  | .beginString => stateBeginString s c
  | .endValue => stateEndValue s c
  | .endTop => stateEndTop s c
  | .inString =>
    if c = 34 then ({ s with step := .endValue }, .scanContinue)
    else if c = 92 then ({ s with step := .inStringEsc }, .scanContinue)
    else if c.toNat < 32 then s.error "in string literal"
    else (s, .scanContinue)
  | .inStringEsc =>
    if c = 98 ∨ c = 102 ∨ c = 110 ∨ c = 114 ∨ c = 116 ∨ c = 92 ∨ c = 47 ∨ c = 34 then
      ({ s with step := .inString }, .scanContinue)
    else if c = 117 then ({ s with step := .inStringEscU }, .scanContinue)
    else s.error "in string escape code"
  | .inStringEscU =>
    if isHex c then ({ s with step := .inStringEscU1 }, .scanContinue)
    else s.error "in \\u hexadecimal character escape"
  | .inStringEscU1 =>
    if isHex c then ({ s with step := .inStringEscU12 }, .scanContinue)
    else s.error "in \\u hexadecimal character escape"
  | .inStringEscU12 =>
    if isHex c then ({ s with step := .inStringEscU123 }, .scanContinue)
    else s.error "in \\u hexadecimal character escape"
  | .inStringEscU123 =>
    if isHex c then ({ s with step := .inString }, .scanContinue)
    else s.error "in \\u hexadecimal character escape"
  | .neg =>
    if c = 48 then ({ s with step := .num0 }, .scanContinue)
    else if 49 ≤ c.toNat ∧ c.toNat ≤ 57 then ({ s with step := .num1 }, .scanContinue)
    else s.error "in numeric literal"
  | .num1 =>
    if isDigitByte c then ({ s with step := .num1 }, .scanContinue) else state0 s c
  | .num0 => state0 s c
  | .dot =>
    if isDigitByte c then ({ s with step := .dot0 }, .scanContinue)
    else s.error "after decimal point in numeric literal"
  | .dot0 =>
    if isDigitByte c then (s, .scanContinue)
    else if c = 101 ∨ c = 69 then ({ s with step := .e }, .scanContinue)
    else stateEndValue s c
  | .e =>
    if c = 43 ∨ c = 45 then ({ s with step := .eSign }, .scanContinue) else stateESign s c
  | .eSign => stateESign s c
  | .e0 => stateE0 s c
  | .t => expectByte s c 114 .tr "in literal true (expecting 'r')"
  | .tr => expectByte s c 117 .tru "in literal true (expecting 'u')"
  | .tru => expectByte s c 101 .endValue "in literal true (expecting 'e')"
  | .f => expectByte s c 97 .fa "in literal false (expecting 'a')"
  | .fa => expectByte s c 108 .fal "in literal false (expecting 'l')"
  | .fal => expectByte s c 115 .fals "in literal false (expecting 's')"
  | .fals => expectByte s c 101 .endValue "in literal false (expecting 'e')"
  | .n => expectByte s c 117 .nu "in literal null (expecting 'u')"
  | .nu => expectByte s c 108 .nul "in literal null (expecting 'l')"
  | .nul => expectByte s c 108 .endValue "in literal null (expecting 'l')"
  | .error => (s, .scanError)

/-- Outcome of `Decoder.readValue`. -/
inductive ReadValue where
  /-- The next `n` bytes hold one JSON value. -/
  | value (n : Nat)
  /-- A `*SyntaxError` raised at the byte with index `at_`. -/
  | syntaxError (at_ : Nat) (msg : String)
  /-- The stream ended inside a value (`io.ErrUnexpectedEOF`) or before one (`io.EOF`). -/
  | eof (unexpected : Bool)
  deriving DecidableEq, Repr

/-- The scan loop of `Decoder.readValue` over the bytes still to come, `i` bytes in. -/
def readLoop (s : Scanner) (i : Nat) : Bytes → Option ReadValue
  | [] => none
  | c :: rest =>
    match s.next c with
    | (_, .scanEnd) => some (.value i)
    | (s1, .scanEndObject) =>
      if (stateEndValue s1 32).2 = .scanEnd then some (.value (i + 1))
      else readLoop (stateEndValue s1 32).1 (i + 1) rest
    | (s1, .scanEndArray) =>
      if (stateEndValue s1 32).2 = .scanEnd then some (.value (i + 1))
      else readLoop (stateEndValue s1 32).1 (i + 1) rest
    | (s1, .scanError) => some (.syntaxError i (s1.err.getD ""))
    | (s1, _) => readLoop s1 (i + 1) rest

/-- The scanner after the scan loop has gone through all of `data` without a result. -/
def scanAll (s : Scanner) : Bytes → Scanner
  | [] => s
  | c :: rest =>
    match s.next c with
    | (s1, .scanEndObject) => scanAll (stateEndValue s1 32).1 rest
    | (s1, .scanEndArray) => scanAll (stateEndValue s1 32).1 rest
    | (s1, _) => scanAll s1 rest

/-- `nonSpace(b)` of package json. -/
def nonSpace (b : Bytes) : Bool := b.any (fun c => !isSpace c)

/-- `Decoder.readValue()` on a fresh decoder whose stream delivers `data` and then
`io.EOF`: the extent of the first JSON value, or the error. -/
def readValue (data : Bytes) : ReadValue :=
  match readLoop Scanner.reset 0 data with
  | some r => r
  | none =>
    if ((scanAll Scanner.reset data).next 32).2 = .scanEnd then .value data.length
    else .eof (nonSpace data)

/-! ## The JSON decoder (`encoding/json/decode.go`): reading the scanned value -/

/-- A JSON value as the decoder walks it, each node with its text `raw` in the input:
the literals (for a string also the text it quotes), an array of values, and an object
with its members in order, each under the text its key quotes. -/
inductive JValue where
  | null (raw : Bytes)
  | bool (raw : Bytes)
  | number (raw : Bytes)
  | string (raw : Bytes) (val : Bytes)
  | arr (raw : Bytes) (elems : List JValue)
  | obj (raw : Bytes) (members : List (Bytes × JValue))
  deriving Repr

/-- The text of a value in the input. -/
def JValue.raw : JValue → Bytes
  | .null r => r
  | .bool r => r
  | .number r => r
  | .string r _ => r
  | .arr r _ => r
  | .obj r _ => r

/-- Drop the leading JSON white space (`scanWhile(scanSkipSpace)`). -/
def skipSpace : Bytes → Bytes
  | [] => []
  | c :: rest => if isSpace c then skipSpace rest else c :: rest

/-- The string case of `rescanLiteral`: the length of a string literal after its opening
quote, up to and with the closing quote; a backslash takes the byte after it along. -/
def stringLen : Bytes → Nat
  | [] => 0
  | c :: rest =>
    if c = 92 then
      match rest with
      | [] => 1
      | _ :: rest1 => 2 + stringLen rest1
    else if c = 34 then 1
    else 1 + stringLen rest

/-- The number case of `rescanLiteral`: the bytes that can stand in a number. -/
def isNumberByte (c : UInt8) : Bool :=
  isDigitByte c || c = 46 || c = 101 || c = 69 || c = 43 || c = 45

/-- The literal at the head of `s`, cut off as `rescanLiteral` does and told apart by
its first byte as `literalStore` does; `none` where the decoder would panic with
`phasePanicMsg` (no literal starts here, or a string does not unquote). -/
def parseLiteral (s : Bytes) : Option (JValue × Bytes) :=
  match s with
  | [] => none
  | c :: rest =>
    if c = 34 then
      let n := 1 + stringLen rest
      match unquoteBytes (s.take n) with
      | none => none
      | some val => some (.string (s.take n) val, s.drop n)
    else if isDigitByte c ∨ c = 45 then
      let n := 1 + (rest.takeWhile isNumberByte).length
      some (.number (s.take n), s.drop n)
    else if c = 116 then some (.bool (s.take 4), s.drop 4)
    else if c = 102 then some (.bool (s.take 5), s.drop 5)
    else if c = 110 then some (.null (s.take 4), s.drop 4)
    else none

mutual
/-- Read one value at the head of `s` (after white space): the value and the text after
it. The decoder reads a text the scanner has checked; `none` is its
`panic(phasePanicMsg)` on anything else. Each call takes at least one byte before the
next, so a fuel of the length of the text is enough. -/
def parseValue : Nat → Bytes → Option (JValue × Bytes)
  | 0, _ => none
  | fuel + 1, s =>
    match skipSpace s with
    | [] => none
    | c :: rest =>
      if c = 123 then
        match parseMembers fuel true (skipSpace rest) with
        | none => none
        | some (ms, after) =>
          some (.obj ((c :: rest).take ((c :: rest).length - after.length)) ms, after)
      else if c = 91 then
        match parseElems fuel true (skipSpace rest) with
        | none => none
        | some (es, after) =>
          some (.arr ((c :: rest).take ((c :: rest).length - after.length)) es, after)
      else parseLiteral (c :: rest)

/-- The members of an object, from after `{` or after a comma (`first` tells which: only
right after `{` may the object close at once), up to and with the closing `}`. -/
def parseMembers : Nat → Bool → Bytes → Option (List (Bytes × JValue) × Bytes)
  | 0, _, _ => none
  | fuel + 1, first, s =>
    match s with
    | [] => none
    | c :: rest =>
      if c = 125 ∧ first then some ([], rest)
      else if c ≠ 34 then none
      else
        match unquoteBytes ((c :: rest).take (1 + stringLen rest)) with
        | none => none
        | some key =>
          match skipSpace ((c :: rest).drop (1 + stringLen rest)) with
          | 58 :: afterColon =>
            match parseValue fuel afterColon with
            | none => none
            | some (v, afterValue) =>
              match skipSpace afterValue with
              | 44 :: more =>
                match parseMembers fuel false (skipSpace more) with
                | none => none
                | some (ms, after) => some ((key, v) :: ms, after)
              | 125 :: after => some ([(key, v)], after)
              | _ => none
          | _ => none

/-- The elements of an array, from after `[` or after a comma, up to and with the
closing `]`. -/
def parseElems : Nat → Bool → Bytes → Option (List JValue × Bytes)
  | 0, _, _ => none
  | fuel + 1, first, s =>
    match s with
    | [] => none
    | c :: rest =>
      if c = 93 ∧ first then some ([], rest)
      else
        match parseValue fuel (c :: rest) with
        | none => none
        | some (v, afterValue) =>
          match skipSpace afterValue with
          | 44 :: more =>
            match parseElems fuel false (skipSpace more) with
            | none => none
            | some (es, after) => some (v :: es, after)
          | 93 :: after => some ([v], after)
          | _ => none
end

/-- The value the decoder walks: the whole text `data` that `readValue` has delimited. -/
def parseTree (data : Bytes) : Option JValue :=
  match parseValue (data.length + 1) data with
  | some (v, _) => some v
  | none => none

/-! ## The types of the package and the decoder at these types -/

/-- Go `type Request struct`. -/
structure Request where
  This : Bytes
  deriving DecidableEq, Repr

/-- Go `type Category struct`; `int64` fields are integers that the decoder keeps in
range. -/
structure Category where
  CategoryID : Int
  CategoryName : Bytes
  CategoryNameShort : Bytes
  CategorySeoKey : Bytes
  CategoryViewers : Int
  CategoryLogoSmall : Bytes
  CategoryLogolarge : Bytes
  CategoryUpdated : Timestamp
  deriving DecidableEq, Repr

/-- A Go slice `[]Category`: whether it is nil, its elements, and the elements of its
backing array beyond its length that an earlier decode has left there. -/
structure CategorySlice where
  isNil : Bool
  elems : List Category
  spare : List Category
  deriving DecidableEq, Repr

/-- Go `type GamesResponse struct`. -/
structure GamesResponse where
  Request : Request
  Categories : CategorySlice
  deriving DecidableEq, Repr

/-- The zero `Request{}`. -/
def Request.zero : Request := { This := [] }

/-- The zero `Category{}`. -/
def Category.zero : Category :=
  { CategoryID := 0, CategoryName := [], CategoryNameShort := [], CategorySeoKey := [],
    CategoryViewers := 0, CategoryLogoSmall := [], CategoryLogolarge := [],
    CategoryUpdated := { Time := Time.zero } }

/-- The zero `GamesResponse{}`, what `new(GamesResponse)` points to. -/
def GamesResponse.zero : GamesResponse :=
  { Request := Request.zero, Categories := { isNil := true, elems := [], spare := [] } }

/-- `decodeState.saveError(err)`: the first error saved is kept. -/
def saveError (saved : Option GoError) (e : GoError) : Option GoError :=
  match saved with
  | none => some e
  | some s => some s

/-- Result of a decoding function, with the value decoded into as the function leaves it:
it went through, with the error saved so far, or it returned an error, which ends the
decoding. -/
inductive Decoded (α : Type) where
  | done (val : α) (saved : Option GoError)
  | abort (val : α) (err : GoError)
  deriving DecidableEq, Repr

/-- The result of a decoding function on a field, as the result on the struct: the value
decoded is where `f` puts it. -/
def Decoded.map {α β : Type} (f : α → β) : Decoded α → Decoded β
  | .done val saved => .done (f val) saved
  | .abort val err => .abort (f val) err

/-- The outcome of a call with `f` applied to what it returns. -/
def Exec.map {α β : Type} (f : α → β) : Exec α → Exec β
  | .ok a => .ok (f a)
  | .panic m => .panic m

/-- The error on a value that does not fit the Go type (`*UnmarshalTypeError`). -/
def typeError (value : String) : GoError := .jsonType ("cannot unmarshal " ++ value)

/-- The error on the option `,string`. -/
def stringTagError : GoError := .jsonType "invalid use of ,string struct tag"

/-- `decodeState.value(v)` for a `string` field: the string of a string literal is
stored, `null` leaves the field as it is, any other value is a type error. -/
def decodeString (cur : Bytes) (v : JValue) (saved : Option GoError) : Decoded Bytes :=
  match v with
  | .string _ val => .done val saved
  | .null _ => .done cur saved
  | .bool _ => .done cur (saveError saved (typeError "bool"))
  | .number _ => .done cur (saveError saved (typeError "number"))
  | .arr _ _ => .done cur (saveError saved (typeError "array"))
  | .obj _ _ => .done cur (saveError saved (typeError "object"))

/-- `decodeState.literalStore(item, v, true)` for `v` an `int64`: `item` is the text
that was inside the quotes. -/
def literalStoreQuotedInt (cur : Int) (item : Bytes) (saved : Option GoError) : Decoded Int :=
  match item with
  | [] => .done cur (saveError saved stringTagError)
  | c :: _ =>
    if c = 110 then
      -- null
      if item ≠ str "null" then .done cur (saveError saved stringTagError)
      else .done cur saved
    else if c = 116 ∨ c = 102 then
      -- true, false
      .done cur (saveError saved stringTagError)
    else if c = 34 then
      -- string
      match unquoteBytes item with
      | none => .abort cur stringTagError
      | some _ => .done cur (saveError saved (typeError "string"))
    else
      -- number
      if c ≠ 45 ∧ !isDigitByte c then .abort cur stringTagError
      else
        match parseInt item with
        | none => .done cur (saveError saved (typeError "number"))
        | some n => .done n saved

/-- The branch `destring` of `decodeState.object` for an `int64` field with the option
`,string`: by `valueQuoted()` a string literal goes to `literalStore` with the text it
quotes, `null` leaves the field as it is, any other value is an error. -/
def decodeQuotedInt (cur : Int) (v : JValue) (saved : Option GoError) : Decoded Int :=
  match v with
  | .string _ val => literalStoreQuotedInt cur val saved
  | .null _ => .done cur saved
  | _ => .done cur (saveError saved stringTagError)

/-- `decodeState.value(v)` for a `Timestamp` field: the decoder finds the `Unmarshaler`
and hands it the text of the value, whatever the value is; its error is returned. -/
def decodeTimestamp (cur : Timestamp) (v : JValue) (saved : Option GoError) :
    Exec (Decoded Timestamp) :=
  match Timestamp.UnmarshalJSON cur v.raw with
  | .panic m => .panic m
  | .ok (t, some e) => .ok (.abort t e)
  | .ok (t, none) => .ok (.done t saved)

/-- The upper-case form of an ASCII letter (`b & caseMask`). -/
def upperOf (b : UInt8) : Nat := if b.toNat / 32 % 2 = 1 then b.toNat - 32 else b.toNat

/-- The test `'A' <= upper && upper <= 'Z'` of package json. -/
def isLetter (b : UInt8) : Bool := decide (65 ≤ upperOf b ∧ upperOf b ≤ 90)

/-- `asciiEqualFold(s, t)` of package json. -/
def asciiEqualFold : Bytes → Bytes → Bool
  | [], [] => true
  | sb :: s, tb :: t =>
    if sb = tb then asciiEqualFold s t
    else if (97 ≤ sb.toNat ∧ sb.toNat ≤ 122) ∨ (65 ≤ sb.toNat ∧ sb.toNat ≤ 90) then
      if upperOf sb ≠ upperOf tb then false else asciiEqualFold s t
    else false
  | _, _ => false

/-- `simpleLetterEqualFold(s, t)` of package json. -/
def simpleLetterEqualFold : Bytes → Bytes → Bool
  | [], [] => true
  | sb :: s, tb :: t => if upperOf sb ≠ upperOf tb then false else simpleLetterEqualFold s t
  | _, _ => false

/-- `equalFoldRight(s, t)` of package json: `t` may also write `k` as the Kelvin sign
(U+212A) and `s` as the long s (U+017F). -/
def equalFoldRight : Bytes → Bytes → Bool
  | [], t => t.length = 0
  | _ :: _, [] => false
  | sb :: s, tb :: t =>
    if tb.toNat < 0x80 then
      if sb ≠ tb then
        if isLetter sb then
          if upperOf sb ≠ upperOf tb then false else equalFoldRight s t
        else false
      else equalFoldRight s t
    else
      -- `sb` is ASCII and `tb` is not: `tb` must start the Kelvin sign or the long s
      if sb = 115 ∨ sb = 83 then
        match tb, t with
        | 0xC5, 0xBF :: t1 => equalFoldRight s t1
        | _, _ => false
      else if sb = 107 ∨ sb = 75 then
        match tb, t with
        | 0xE2, 0x84 :: 0xAA :: t2 => equalFoldRight s t2
        | _, _ => false
      else false

/-- The function `foldFunc(name)` picks for an ASCII field name, applied to the name and
a key. -/
def equalFold (name key : Bytes) : Bool :=
  if name.any (fun b => isLetter b && (upperOf b = 75 || upperOf b = 83)) then
    equalFoldRight name key
  else if name.any (fun b => !isLetter b) then asciiEqualFold name key
  else simpleLetterEqualFold name key

/-- The field of a struct for a key: the field of that very name, or else the first
field in the order of the struct whose name matches the key under `equalFold`. -/
def findField (names : List Bytes) (key : Bytes) : Option Bytes :=
  if names.contains key then some key
  else names.find? (fun n => equalFold n key)

/-- The JSON names of the fields of `Request`. -/
def requestFields : List Bytes := [str "this"]

/-- The JSON names of the fields of `Category`, in the order of the struct. -/
def categoryFields : List Bytes :=
  [str "category_id", str "category_name", str "category_name_short", str "category_seo_key",
    str "category_viewers", str "category_logo_small", str "category_logo_large",
    str "category_updated"]

/-- The JSON names of the fields of `GamesResponse`. -/
def gamesResponseFields : List Bytes := [str "request", str "categories"]

/-- One round of the loop of `decodeState.object` on a `Request`: the member `key: v`
decoded into the struct `cur`. -/
def decodeRequestMember (cur : Request) (key : Bytes) (v : JValue) (saved : Option GoError) :
    Decoded Request :=
  match findField requestFields key with
  | none => .done cur saved
  | some _ =>
    (decodeString cur.This v saved).map fun s => { cur with This := s }

/-- The loop of `decodeState.object` on a `Request`, over the members in order. -/
def decodeRequestMembers (cur : Request) (saved : Option GoError) :
    List (Bytes × JValue) → Decoded Request
  | [] => .done cur saved
  | (key, v) :: rest =>
    match decodeRequestMember cur key v saved with
    | .abort cur1 e => .abort cur1 e
    | .done cur1 sv => decodeRequestMembers cur1 sv rest

/-- `decodeState.value(v)` for the field `Request`: an object goes to
`decodeState.object`, `null` leaves the struct as it is, any other value is a type
error. -/
def decodeRequest (cur : Request) (v : JValue) (saved : Option GoError) : Decoded Request :=
  match v with
  | .obj _ ms => decodeRequestMembers cur saved ms
  | .null _ => .done cur saved
  | .bool _ => .done cur (saveError saved (typeError "bool"))
  | .number _ => .done cur (saveError saved (typeError "number"))
  | .string _ _ => .done cur (saveError saved (typeError "string"))
  | .arr _ _ => .done cur (saveError saved (typeError "array"))

/-- One round of the loop of `decodeState.object` on a `Category`. -/
def decodeCategoryMember (cur : Category) (key : Bytes) (v : JValue) (saved : Option GoError) :
    Exec (Decoded Category) :=
  match findField categoryFields key with
  | none => .ok (.done cur saved)
  | some name =>
    if name = str "category_id" then
      .ok ((decodeQuotedInt cur.CategoryID v saved).map fun n => { cur with CategoryID := n })
    else if name = str "category_name" then
      .ok ((decodeString cur.CategoryName v saved).map fun s => { cur with CategoryName := s })
    else if name = str "category_name_short" then
      .ok ((decodeString cur.CategoryNameShort v saved).map fun s => { cur with CategoryNameShort := s })
    else if name = str "category_seo_key" then
      .ok ((decodeString cur.CategorySeoKey v saved).map fun s => { cur with CategorySeoKey := s })
    else if name = str "category_viewers" then
      .ok ((decodeQuotedInt cur.CategoryViewers v saved).map fun n => { cur with CategoryViewers := n })
    else if name = str "category_logo_small" then
      .ok ((decodeString cur.CategoryLogoSmall v saved).map fun s => { cur with CategoryLogoSmall := s })
    else if name = str "category_logo_large" then
      .ok ((decodeString cur.CategoryLogolarge v saved).map fun s => { cur with CategoryLogolarge := s })
    else
      (decodeTimestamp cur.CategoryUpdated v saved).map
        (Decoded.map fun t => { cur with CategoryUpdated := t })

/-- The loop of `decodeState.object` on a `Category`, over the members in order. -/
def decodeCategoryMembers (cur : Category) (saved : Option GoError) :
    List (Bytes × JValue) → Exec (Decoded Category)
  | [] => .ok (.done cur saved)
  | (key, v) :: rest =>
    match decodeCategoryMember cur key v saved with
    | .panic m => .panic m
    | .ok (.abort cur1 e) => .ok (.abort cur1 e)
    | .ok (.done cur1 sv) => decodeCategoryMembers cur1 sv rest

/-- `decodeState.value(v)` for an element of `Categories`. -/
def decodeCategory (cur : Category) (v : JValue) (saved : Option GoError) :
    Exec (Decoded Category) :=
  match v with
  | .obj _ ms => decodeCategoryMembers cur saved ms
  | .null _ => .ok (.done cur saved)
  | .bool _ => .ok (.done cur (saveError saved (typeError "bool")))
  | .number _ => .ok (.done cur (saveError saved (typeError "number")))
  | .string _ _ => .ok (.done cur (saveError saved (typeError "string")))
  | .arr _ _ => .ok (.done cur (saveError saved (typeError "array")))

/-- The loop of `decodeState.array` on `[]Category`: the elements of the JSON array are
decoded in order, each into the element of the backing array at its index if there is
one, and into a zero `Category` where the slice has to grow. When an element returns an
error the loop ends with the elements decoded so far, that one included. -/
def decodeElems (backing : List Category) (saved : Option GoError) :
    List JValue → Exec (Decoded (List Category))
  | [] => .ok (.done [] saved)
  | v :: rest =>
    match decodeCategory (backing.headD Category.zero) v saved with
    | .panic m => .panic m
    | .ok (.abort c e) => .ok (.abort [c] e)
    | .ok (.done c sv) =>
      match decodeElems backing.tail sv rest with
      | .panic m => .panic m
      | .ok (.abort cs e) => .ok (.abort (c :: cs) e)
      | .ok (.done cs sv1) => .ok (.done (c :: cs) sv1)

/-- `decodeState.value(v)` for the field `Categories`: an array goes to
`decodeState.array`, which leaves a slice of the length of the array (a new empty slice
for the empty array); `null` makes the slice nil; any other value is a type error. -/
def decodeCategories (cur : CategorySlice) (v : JValue) (saved : Option GoError) :
    Exec (Decoded CategorySlice) :=
  match v with
  | .arr _ es =>
    match decodeElems (cur.elems ++ cur.spare) saved es with
    | .panic m => .panic m
    | .ok (.abort cs e) =>
      -- the slice was set to reach the element that failed, and is not cut after it
      let backing := cs ++ (cur.elems ++ cur.spare).drop cs.length
      let len := max cur.elems.length cs.length
      .ok (.abort { isNil := false, elems := backing.take len, spare := backing.drop len } e)
    | .ok (.done cs sv) =>
      if es.length = 0 then .ok (.done { isNil := false, elems := [], spare := [] } sv)
      else
        .ok (.done { isNil := false, elems := cs,
                     spare := (cur.elems ++ cur.spare).drop es.length } sv)
  | .null _ => .ok (.done { isNil := true, elems := [], spare := [] } saved)
  | .bool _ => .ok (.done cur (saveError saved (typeError "bool")))
  | .number _ => .ok (.done cur (saveError saved (typeError "number")))
  | .string _ _ => .ok (.done cur (saveError saved (typeError "string")))
  | .obj _ _ => .ok (.done cur (saveError saved (typeError "object")))

/-- One round of the loop of `decodeState.object` on a `GamesResponse`. -/
def decodeGamesResponseMember (cur : GamesResponse) (key : Bytes) (v : JValue)
    (saved : Option GoError) : Exec (Decoded GamesResponse) :=
  match findField gamesResponseFields key with
  | none => .ok (.done cur saved)
  | some name =>
    if name = str "request" then
      .ok ((decodeRequest cur.Request v saved).map fun r => { cur with Request := r })
    else
      (decodeCategories cur.Categories v saved).map
        (Decoded.map fun cs => { cur with Categories := cs })

/-- The loop of `decodeState.object` on a `GamesResponse`, over the members in order. -/
def decodeGamesResponseMembers (cur : GamesResponse) (saved : Option GoError) :
    List (Bytes × JValue) → Exec (Decoded GamesResponse)
  | [] => .ok (.done cur saved)
  | (key, v) :: rest =>
    match decodeGamesResponseMember cur key v saved with
    | .panic m => .panic m
    | .ok (.abort cur1 e) => .ok (.abort cur1 e)
    | .ok (.done cur1 sv) => decodeGamesResponseMembers cur1 sv rest

/-- `decodeState.value(v)` for the `GamesResponse` that `v` points to. -/
def decodeGamesResponse (cur : GamesResponse) (v : JValue) (saved : Option GoError) :
    Exec (Decoded GamesResponse) :=
  match v with
  | .obj _ ms => decodeGamesResponseMembers cur saved ms
  | .null _ => .ok (.done cur saved)
  | .bool _ => .ok (.done cur (saveError saved (typeError "bool")))
  | .number _ => .ok (.done cur (saveError saved (typeError "number")))
  | .string _ _ => .ok (.done cur (saveError saved (typeError "string")))
  | .arr _ _ => .ok (.done cur (saveError saved (typeError "array")))

/-- `phasePanicMsg` of package json. -/
def phasePanicMsg : String := "JSON decoder out of sync - data changing underfoot?"

/-- `decodeState.unmarshal(v)` for `v` a `*GamesResponse`: the struct after the call and
the error returned, that of `decodeState.value` or else the saved one. -/
def unmarshal (cur : GamesResponse) (data : Bytes) : Exec (GamesResponse × Option GoError) :=
  match parseTree data with
  | none => .panic phasePanicMsg
  | some v =>
    match decodeGamesResponse cur v none with
    | .panic m => .panic m
    | .ok (.abort g e) => .ok (g, some e)
    | .ok (.done g saved) => .ok (g, saved)

/-! ## `net/url` -/

/-- Go `*url.Userinfo` (not nil). -/
structure Userinfo where
  username : Bytes
  password : Bytes
  passwordSet : Bool
  deriving DecidableEq, Repr

/-- Go `url.URL`. -/
structure URL where
  Scheme : Bytes
  Opaque : Bytes
  User : Option Userinfo
  Host : Bytes
  Path : Bytes
  RawPath : Bytes
  OmitHost : Bool
  ForceQuery : Bool
  RawQuery : Bytes
  Fragment : Bytes
  RawFragment : Bytes
  deriving DecidableEq, Repr

/-- The zero `url.URL{}`. -/
def URL.zero : URL :=
  { Scheme := [], Opaque := [], User := none, Host := [], Path := [], RawPath := [],
    OmitHost := false, ForceQuery := false, RawQuery := [], Fragment := [], RawFragment := [] }

/-- The `encoding` modes of package url. -/
inductive Encoding where
  | encodePath | encodePathSegment | encodeHost | encodeZone | encodeUserPassword
  | encodeQueryComponent | encodeFragment
  deriving DecidableEq, Repr

/-- Whether a byte is an ASCII letter or digit. -/
def isAlnum (c : UInt8) : Bool :=
  decide ((97 ≤ c.toNat ∧ c.toNat ≤ 122) ∨ (65 ≤ c.toNat ∧ c.toNat ≤ 90)
    ∨ (48 ≤ c.toNat ∧ c.toNat ≤ 57))

/-- `shouldEscape(c, mode)` of package url. -/
def shouldEscape (c : UInt8) (mode : Encoding) : Bool :=
  if isAlnum c then false
  else if (mode = .encodeHost ∨ mode = .encodeZone) ∧
      (str "!$&'()*+,;=:[]<>\"").contains c then false
  else if (str "-_.~").contains c then false
  else if (str "$&+,/:;=?@").contains c then
    match mode with
    | .encodePath => c = 63
    | .encodePathSegment => c = 47 || c = 59 || c = 44 || c = 63
    | .encodeUserPassword => c = 64 || c = 47 || c = 63 || c = 58
    | .encodeQueryComponent => true
    | .encodeFragment => false
    | _ => true
  else if mode = .encodeFragment ∧ (str "!()*").contains c then false
  else true

/-- The hexadecimal digit of a value under 16 (`upperhex`). -/
def upperhex (n : Nat) : UInt8 := if n < 10 then UInt8.ofNat (48 + n) else UInt8.ofNat (55 + n)

/-- `escape(s, mode)` of package url. -/
def escape (s : Bytes) (mode : Encoding) : Bytes :=
  s.flatMap fun c =>
    if c = 32 ∧ mode = .encodeQueryComponent then [43]
    else if shouldEscape c mode then [37, upperhex (c.toNat / 16), upperhex (c.toNat % 16)]
    else [c]

/-- `ishex(c)` of package url. -/
def ishex (c : UInt8) : Bool := isHex c

/-- `unhex(c)` of package url. -/
def unhex (c : UInt8) : Nat := (hexVal c).getD 0

/-- `unescape(s, mode)` of package url; `none` for an `EscapeError` or an
`InvalidHostError`. -/
def unescape (s : Bytes) (mode : Encoding) : Option Bytes :=
  match s with
  | [] => some []
  | 37 :: rest =>
    match rest with
    | a :: b :: rest2 =>
      if !ishex a ∨ !ishex b then none
      else if mode = .encodeHost ∧ unhex a < 8 ∧ [37, a, b] ≠ str "%25" then none
      else if mode = .encodeZone ∧ [37, a, b] ≠ str "%25" ∧ unhex a * 16 + unhex b ≠ 32 ∧
          shouldEscape (UInt8.ofNat (unhex a * 16 + unhex b)) .encodeHost then none
      else (unescape rest2 mode).map (UInt8.ofNat (unhex a * 16 + unhex b) :: ·)
    | _ => none
  | c :: rest =>
    if c = 43 then
      (unescape rest mode).map ((if mode = .encodeQueryComponent then 32 else 43) :: ·)
    else if (mode = .encodeHost ∨ mode = .encodeZone) ∧ c.toNat < 0x80 ∧
        shouldEscape c .encodeHost then none
    else (unescape rest mode).map (c :: ·)

/-- `validEncoded(s, mode)` of package url. -/
def validEncoded (s : Bytes) (mode : Encoding) : Bool :=
  s.all fun c => (str "!$&'()*+,;=:@[]%").contains c || !shouldEscape c mode

/-- `URL.setPath(p)`; `none` for the error of `unescape`. -/
def URL.setPath (u : URL) (p : Bytes) : Option URL :=
  match unescape p .encodePath with
  | none => none
  | some path =>
    some { u with Path := path, RawPath := if p = escape path .encodePath then [] else p }

/-- `URL.EscapedPath()`. -/
def URL.EscapedPath (u : URL) : Bytes :=
  if u.RawPath ≠ [] ∧ validEncoded u.RawPath .encodePath ∧
      unescape u.RawPath .encodePath = some u.Path then u.RawPath
  else if u.Path = str "*" then str "*"
  else escape u.Path .encodePath

/-- `URL.setFragment(f)`; `none` for the error of `unescape`. -/
def URL.setFragment (u : URL) (f : Bytes) : Option URL :=
  match unescape f .encodeFragment with
  | none => none
  | some frag =>
    some { u with Fragment := frag,
                  RawFragment := if f = escape frag .encodeFragment then [] else f }

/-- `URL.EscapedFragment()`. -/
def URL.EscapedFragment (u : URL) : Bytes :=
  if u.RawFragment ≠ [] ∧ validEncoded u.RawFragment .encodeFragment ∧
      unescape u.RawFragment .encodeFragment = some u.Fragment then u.RawFragment
  else escape u.Fragment .encodeFragment

/-- `strings.Cut(s, sep)` for a separator of one byte: the text before the first `sep`,
the text after it, and whether `sep` occurs. -/
def cut (sep : UInt8) : Bytes → Bytes × Bytes × Bool
  | [] => ([], [], false)
  | c :: rest =>
    if c = sep then ([], rest, true)
    else
      let (a, b, found) := cut sep rest
      (c :: a, b, found)

/-- `strings.LastIndex(s, sep)` for a separator of one byte; `none` for `-1`. -/
def lastIndex (sep : UInt8) (s : Bytes) : Option Nat :=
  match s.reverse.indexOf? sep with
  | none => none
  | some i => some (s.length - 1 - i)

/-- `strings.Index(s, sub)`; `none` for `-1`. -/
def indexOfSub (sub : Bytes) : Bytes → Option Nat
  | [] => if sub = [] then some 0 else none
  | c :: rest =>
    if sub.isPrefixOf (c :: rest) then some 0
    else (indexOfSub sub rest).map (· + 1)

/-- `Userinfo.String()`, on a pointer that may be nil. -/
def userinfoString : Option Userinfo → Bytes
  | none => []
  | some u =>
    escape u.username .encodeUserPassword ++
      (if u.passwordSet then 58 :: escape u.password .encodeUserPassword else [])

/-- `URL.String()`. -/
def URL.String (u : URL) : Bytes :=
  let scheme := if u.Scheme ≠ [] then u.Scheme ++ [58] else []
  let body :=
    if u.Opaque ≠ [] then scheme ++ u.Opaque
    else
      let authority :=
        if u.Scheme ≠ [] ∨ u.Host ≠ [] ∨ u.User.isSome then
          if u.OmitHost ∧ u.Host = [] ∧ u.User.isNone then []
          else
            (if u.Host ≠ [] ∨ u.Path ≠ [] ∨ u.User.isSome then str "//" else []) ++
            (match u.User with
              | some ui => userinfoString (some ui) ++ [64]
              | none => []) ++
            (if u.Host ≠ [] then escape u.Host .encodeHost else [])
        else []
      let path := u.EscapedPath
      let slash : Bytes := if path ≠ [] ∧ path.head? ≠ some 47 ∧ u.Host ≠ [] then [47] else []
      let buf := scheme ++ authority ++ slash
      let dot : Bytes :=
        if buf.length = 0 ∧ (cut 47 path).1.contains 58 then str "./" else []
      buf ++ dot ++ path
  body ++ (if u.ForceQuery ∨ u.RawQuery ≠ [] then 63 :: u.RawQuery else [])
    ++ (if u.Fragment ≠ [] then 35 :: u.EscapedFragment else [])

/-- State of the loop of `resolvePath`: the text built (after the leading `/` that is
written first) and the flag `first`. -/
structure ResolveState where
  dst : Bytes
  first : Bool
  deriving DecidableEq, Repr

/-- One round of the loop of `resolvePath`, on the path element `elem`. -/
def resolveStep (st : ResolveState) (elem : Bytes) : ResolveState :=
  if elem = str "." then { st with first := false }
  else if elem = str ".." then
    match lastIndex 47 st.dst with
    | none => { dst := [], first := true }
    | some i => { st with dst := st.dst.take i }
  else
    { dst := st.dst ++ (if st.first then [] else [47]) ++ elem, first := false }

/-- `strings.Split(s, "/")`: the elements the loop of `resolvePath` cuts off one by one. -/
def splitSlash : Bytes → List Bytes
  | [] => [[]]
  | c :: rest =>
    match splitSlash rest with
    | [] => [[c]]
    | e :: es => if c = 47 then [] :: e :: es else (c :: e) :: es

/-- `resolvePath(base, ref)` of package url. -/
def resolvePath (base ref : Bytes) : Bytes :=
  let full : Bytes :=
    match ref with
    | [] => base
    | c :: _ =>
      if c ≠ 47 then
        (match lastIndex 47 base with
          | none => []
          | some i => base.take (i + 1)) ++ ref
      else ref
  if full = [] then []
  else
    let elems := splitSlash full
    let st := elems.foldl resolveStep { dst := [], first := true }
    let last := elems.getLast?.getD []
    let r := [47] ++ st.dst ++ (if last = str "." ∨ last = str ".." then [47] else [])
    if r.length > 1 ∧ r.get? 1 = some 47 then r.drop 1 else r

/-- `URL.ResolveReference(ref)`. -/
def URL.ResolveReference (u ref : URL) : URL :=
  let url := if ref.Scheme = [] then { ref with Scheme := u.Scheme } else ref
  if ref.Scheme ≠ [] ∨ ref.Host ≠ [] ∨ ref.User.isSome then
    (url.setPath (resolvePath ref.EscapedPath [])).getD url
  else if ref.Opaque ≠ [] then { url with User := none, Host := [], Path := [] }
  else
    let url1 :=
      if ref.Path = [] ∧ !ref.ForceQuery ∧ ref.RawQuery = [] then
        if ref.Fragment = [] then
          { url with RawQuery := u.RawQuery, Fragment := u.Fragment,
                     RawFragment := u.RawFragment }
        else { url with RawQuery := u.RawQuery }
      else url
    if ref.Path = [] ∧ u.Opaque ≠ [] then
      { url1 with Opaque := u.Opaque, User := none, Host := [], Path := [] }
    else
      let url2 := { url1 with Host := u.Host, User := u.User }
      (url2.setPath (resolvePath u.EscapedPath ref.EscapedPath)).getD url2

/-- `getScheme(rawURL)` of package url, reading from the byte with index `i`: the scheme
and the text after its colon; `none` for the error "missing protocol scheme". -/
def getSchemeAux (rawURL : Bytes) (i : Nat) : Bytes → Option (Bytes × Bytes)
  | [] => some ([], rawURL)
  | c :: rest =>
    if (97 ≤ c.toNat ∧ c.toNat ≤ 122) ∨ (65 ≤ c.toNat ∧ c.toNat ≤ 90) then
      getSchemeAux rawURL (i + 1) rest
    else if (48 ≤ c.toNat ∧ c.toNat ≤ 57) ∨ c = 43 ∨ c = 45 ∨ c = 46 then
      if i = 0 then some ([], rawURL) else getSchemeAux rawURL (i + 1) rest
    else if c = 58 then
      if i = 0 then none else some (rawURL.take i, rest)
    else some ([], rawURL)

/-- `getScheme(rawURL)` of package url. -/
def getScheme (rawURL : Bytes) : Option (Bytes × Bytes) := getSchemeAux rawURL 0 rawURL

/-- `strings.ToLower` on ASCII letters. -/
def toLower (s : Bytes) : Bytes :=
  s.map fun c => if 65 ≤ c.toNat ∧ c.toNat ≤ 90 then UInt8.ofNat (c.toNat + 32) else c

/-- `validOptionalPort(port)` of package url. -/
def validOptionalPort (port : Bytes) : Bool :=
  match port with
  | [] => true
  | c :: rest => c = 58 && rest.all isDigitByte

/-- `validUserinfo(s)` of package url. -/
def validUserinfo (s : Bytes) : Bool :=
  s.all fun c => isAlnum c || (str "-._:~!$&'()*+,;=%@").contains c

/-- `parseHost(host)` of package url; `none` for its errors. -/
def parseHost (host : Bytes) : Option Bytes :=
  if host.head? = some 91 then
    match lastIndex 93 host with
    | none => none
    | some i =>
      if !validOptionalPort (host.drop (i + 1)) then none
      else
        match indexOfSub (str "%25") (host.take i) with
        | some zone =>
          match unescape (host.take zone) .encodeHost,
              unescape ((host.take i).drop zone) .encodeZone,
              unescape (host.drop i) .encodeHost with
          | some h1, some h2, some h3 => some (h1 ++ h2 ++ h3)
          | _, _, _ => none
        | none => unescape host .encodeHost
  else
    match lastIndex 58 host with
    | some i =>
      if !validOptionalPort (host.drop i) then none else unescape host .encodeHost
    | none => unescape host .encodeHost

/-- `parseAuthority(authority)` of package url; `none` for its errors. -/
def parseAuthority (authority : Bytes) : Option (Option Userinfo × Bytes) :=
  match lastIndex 64 authority with
  | none => (parseHost authority).map fun h => (none, h)
  | some i =>
    match parseHost (authority.drop (i + 1)) with
    | none => none
    | some host =>
      let userinfo := authority.take i
      if !validUserinfo userinfo then none
      else if !userinfo.contains 58 then
        match unescape userinfo .encodeUserPassword with
        | none => none
        | some name => some (some ⟨name, [], false⟩, host)
      else
        match unescape (cut 58 userinfo).1 .encodeUserPassword,
            unescape (cut 58 userinfo).2.1 .encodeUserPassword with
        | some name, some pw => some (some ⟨name, pw, true⟩, host)
        | _, _ => none

/-- `stringContainsCTLByte(s)` of package url. -/
def stringContainsCTLByte (s : Bytes) : Bool := s.any fun b => b.toNat < 32 || b = 0x7f

/-- `parse(rawURL, viaRequest)` of package url with `viaRequest` false. -/
def urlParseNoFrag (rawURL : Bytes) : Except GoError URL :=
  if stringContainsCTLByte rawURL then .error (.url "invalid control character in URL")
  else if rawURL = str "*" then .ok { URL.zero with Path := str "*" }
  else
    match getScheme rawURL with
    | none => .error (.url "missing protocol scheme")
    | some (scheme0, rest0) =>
      let scheme := toLower scheme0
      let forceQuery : Bool := rest0.getLast? = some 63 && rest0.count 63 = 1
      let rest1 := if forceQuery then rest0.dropLast else (cut 63 rest0).1
      let rawQuery := if forceQuery then [] else (cut 63 rest0).2.1
      let url0 : URL :=
        { URL.zero with Scheme := scheme, ForceQuery := forceQuery, RawQuery := rawQuery }
      if rest1.head? ≠ some 47 ∧ scheme ≠ [] then .ok { url0 with Opaque := rest1 }
      else if rest1.head? ≠ some 47 ∧ (cut 47 rest1).1.contains 58 then
        .error (.url "first path segment in URL cannot contain colon")
      else if (scheme ≠ [] ∨ !(str "///").isPrefixOf rest1) ∧ (str "//").isPrefixOf rest1 then
        let authority0 := rest1.drop 2
        let authority := (cut 47 authority0).1
        let rest2 := if (cut 47 authority0).2.2 then 47 :: (cut 47 authority0).2.1 else []
        match parseAuthority authority with
        | none => .error (.url "invalid authority")
        | some (user, host) =>
          match { url0 with User := user, Host := host }.setPath rest2 with
          | none => .error (.url "invalid URL escape")
          | some u => .ok u
      else
        let url1 :=
          if scheme ≠ [] ∧ rest1.head? = some 47 then { url0 with OmitHost := true } else url0
        match url1.setPath rest1 with
        | none => .error (.url "invalid URL escape")
        | some u => .ok u

/-- `url.Parse(rawURL)`. -/
def urlParse (rawURL : Bytes) : Except GoError URL :=
  match urlParseNoFrag (cut 35 rawURL).1 with
  | .error e => .error e
  | .ok url =>
    if (cut 35 rawURL).2.1 = [] then .ok url
    else
      match url.setFragment (cut 35 rawURL).2.1 with
      | none => .error (.url "invalid URL escape")
      | some u => .ok u

/-! ## `net/http` -/

/-- Go `http.Header`, a map from header names to their values, by its entries. -/
abbrev Header := List (Bytes × List Bytes)

/-- `Header.Add(key, value)` for a key in canonical form (`Accept`, `User-Agent`): the
value is appended to the values of the key. -/
def Header.Add (h : Header) (key value : Bytes) : Header :=
  if h.any (fun e => e.1 = key) then
    h.map fun e => if e.1 = key then (e.1, e.2 ++ [value]) else e
  else h ++ [(key, [value])]

/-- The values of a header, the slice `h[key]`. -/
def Header.Values (h : Header) (key : Bytes) : List Bytes :=
  match h.find? (fun e => e.1 = key) with
  | some e => e.2
  | none => []

/-- The state of a response body (an `io.ReadCloser`): the bytes the stream delivers, how
many of them have been read, and whether `Close` has been called. -/
structure Body where
  data : Bytes
  pos : Nat
  closed : Bool
  deriving DecidableEq, Repr

/-- Go `http.Request`, by the fields `http.NewRequest` sets from its arguments. -/
structure HttpRequest where
  Method : Bytes
  URL : URL
  Header : Header
  /-- The request body; `none` is the nil body. -/
  Body : Option Bytes
  Host : Bytes
  deriving DecidableEq, Repr

/-- Go `http.Response`, by its status code, its header and its body. -/
structure HttpResponse where
  StatusCode : Int
  Header : Header
  Body : Body
  deriving DecidableEq, Repr

/-- Go `http.StatusOK`. -/
def StatusOK : Int := 200

/-- Go `*http.Client`, not nil, by what `Do` returns for a request: a response and a nil
error, or an error. -/
structure HttpClient where
  Do : HttpRequest → Except GoError HttpResponse

/-- `removeEmptyPort(host)` of package http. -/
def removeEmptyPort (host : Bytes) : Bytes :=
  let hasPort : Bool :=
    match lastIndex 58 host, lastIndex 93 host with
    | some i, some j => decide (i > j)
    | some _, none => true
    | none, _ => false
  if hasPort ∧ host.getLast? = some 58 then host.dropLast else host

/-- The test of `validMethod` of package http on one byte (`httpguts.IsTokenRune`). -/
def isTokenByte (c : UInt8) : Bool :=
  isAlnum c || (str "!#$%&'*+-.^_`|~").contains c

/-- `http.NewRequest(method, url, nil)`. -/
def NewRequest (method urlStr : Bytes) : Except GoError HttpRequest :=
  let method := if method = [] then str "GET" else method
  if !method.all isTokenByte then .error (.url "net/http: invalid method")
  else
    match urlParse urlStr with
    | .error e => .error e
    | .ok u =>
      let host := removeEmptyPort u.Host
      .ok { Method := method, URL := { u with Host := host }, Header := [], Body := none,
            Host := host }

/-! ## The client (`hitbox.go`) -/

/-- Go `librayVersion`. -/
def librayVersion : Bytes := str "0.1"

/-- Go `defaultBaseUrl`. -/
def defaultBaseUrl : Bytes := str "http://api.hitbox.tv/"

/-- Go `userAgent`. -/
def userAgent : Bytes := str "hitbox/" ++ librayVersion

/-- Go `type Client struct`; a pointer field is `none` when nil. -/
structure Client where
  client : Option HttpClient
  BaseURL : Option URL
  UserAgent : Bytes

/-- The panic of a nil pointer dereference. -/
def nilPanic : String := "runtime error: invalid memory address or nil pointer dereference"

/-- `func NewClient(httpClient *http.Client) *Client`, given the value of the variable
`http.DefaultClient`. -/
def NewClient (DefaultClient : HttpClient) (httpClient : Option HttpClient) : Client :=
  let httpClient := match httpClient with
    | none => DefaultClient
    | some h => h
  let baseUrl := match urlParse defaultBaseUrl with
    | .ok u => some u
    | .error _ => none
  { client := some httpClient, BaseURL := baseUrl, UserAgent := userAgent }

/-- `func (c *Client) newRequest(method, urlStr string) (*http.Request, error)`. -/
def Client.newRequest (c : Client) (method urlStr : Bytes) : Exec (Except GoError HttpRequest) :=
  match urlParse urlStr with
  | .error err => .ok (.error err)
  | .ok rel =>
    match c.BaseURL with
    | none => .panic nilPanic
    | some base =>
      let u := base.ResolveReference rel
      match NewRequest method u.String with
      | .error err => .ok (.error err)
      | .ok req =>
        let h1 := Header.Add req.Header (str "Accept") (str "application/json")
        let h2 := Header.Add h1 (str "User-Agent") c.UserAgent
        .ok (.ok { req with Header := h2 })

/-- `json.NewDecoder(body).Decode(v)` for `v` a `*GamesResponse`: the body after the
reads, the struct after the call and the error returned. The decoder takes the next
JSON value off the stream and only then decodes it. Of the reads the position keeps the
bytes the scanner has gone through: the value, or the text up to the byte of a syntax
error, or the whole stream when it ends too early. -/
def decode (body : Body) (v : GamesResponse) : Exec (Body × GamesResponse × Option GoError) :=
  if body.closed then
    .ok (body, v, some (.transport "http: read on closed response body"))
  else
    let rest := body.data.drop body.pos
    match readValue rest with
    | .syntaxError i msg => .ok ({ body with pos := body.pos + i + 1 }, v, some (.jsonSyntax msg))
    | .eof unexpected =>
      .ok ({ body with pos := body.pos + rest.length }, v,
        some (.jsonSyntax (if unexpected then "unexpected EOF" else "EOF")))
    | .value n =>
      match unmarshal v (rest.take n) with
      | .panic m => .panic m
      | .ok (g, err) => .ok ({ body with pos := body.pos + n }, g, err)

/-- `Body.Close()`. -/
def Body.Close (b : Body) : Body := { b with closed := true }

/-- `func (c *Client) do(req *http.Request, v interface{}) (*http.Response, error)`, with
`v` nil or a `*GamesResponse`: the response (its body as the call leaves it), the error,
and what `v` points to after the call. The deferred `resp.Body.Close()` has run when the
call returns. -/
def Client.do (c : Client) (req : HttpRequest) (v : Option GamesResponse) :
    Exec (Option HttpResponse × Option GoError × Option GamesResponse) :=
  match c.client with
  | none => .panic nilPanic
  | some client =>
    match client.Do req with
    | .error err => .ok (none, some err, v)
    | .ok resp =>
      if resp.StatusCode ≠ StatusOK then
        .ok (some { resp with Body := resp.Body.Close },
          some (.status (str "hitbox.tv api responded with http " ++ stringOfInt resp.StatusCode)),
          v)
      else
        match v with
        | none => .ok (some { resp with Body := resp.Body.Close }, none, none)
        | some g =>
          match decode resp.Body g with
          | .panic m => .panic m
          | .ok (body, g1, err) => .ok (some { resp with Body := body.Close }, err, some g1)

/-- `func (c *Client) Games() (*GamesResponse, *http.Response, error)`. -/
def Client.Games (c : Client) :
    Exec (Option GamesResponse × Option HttpResponse × Option GoError) :=
  match c.newRequest (str "GET") (str "games") with
  | .panic m => .panic m
  | .ok (.error err) => .ok (none, none, some err)
  | .ok (.ok req) =>
    match c.do req (some GamesResponse.zero) with
    | .panic m => .panic m
    | .ok (resp, some err, _) => .ok (none, resp, some err)
    | .ok (resp, none, gResp) => .ok (gResp, resp, none)

/-- The request `Games` hands to the transport, when it gets that far. -/
def Client.gamesRequest (c : Client) : Option HttpRequest :=
  match c.newRequest (str "GET") (str "games") with
  | .ok (.ok req) => some req
  | _ => none

/-- A transport that answers every request with the given status code and body. -/
def stubClient (status : Int) (body : Bytes) : HttpClient :=
  { Do := fun _ => .ok { StatusCode := status, Header := [], Body := ⟨body, 0, false⟩ } }

/-! ## Notions the properties are stated with -/

/-- The exact wire form of a timestamp value: a double quote, the text
`yyyy-mm-dd hh:mm:ss` of a valid date and time, and a closing double quote. -/
def QuotedWire (data : Bytes) : Prop :=
  ∃ y mo d h mi s, validDateTime y mo d h mi s ∧ data = 34 :: (wireText y mo d h mi s ++ [34])

/-- The error `Timestamp.UnmarshalJSON` returned, if the call returned. -/
def unmarshalError (r : Exec (Timestamp × Option GoError)) : Option GoError :=
  match r with
  | .ok (_, e) => e
  | .panic _ => none

/-- Whether the body has been read to its end. -/
def Body.atEnd (b : Body) : Prop := b.data.length ≤ b.pos

instance (b : Body) : Decidable b.atEnd := by unfold Body.atEnd; infer_instance

/-- The decimal digits of a natural number, most significant first; `fuel` bounds their
number. -/
def decimalDigits : Nat → Nat → Bytes
  | 0, _ => []
  | fuel + 1, n => if n < 10 then [digitByte n] else decimalDigits fuel (n / 10) ++ [digitByte n]

/-- The decimal text of an integer, as `strconv.Itoa` writes it. -/
def decimal (i : Int) : Bytes :=
  if i < 0 then 45 :: decimalDigits (i.natAbs + 1) i.natAbs else decimalDigits (i.natAbs + 1) i.natAbs

/-- The URL `http://api.hitbox.tv/`, parsed. -/
def defaultBase : URL :=
  { URL.zero with Scheme := str "http", Host := str "api.hitbox.tv", Path := str "/" }

/-- The URL `http://api.hitbox.tv/games`, parsed. -/
def gamesURL : URL :=
  { URL.zero with Scheme := str "http", Host := str "api.hitbox.tv", Path := str "/games" }

/-- The request of a client with the default base URL and user agent. -/
def defaultGamesRequest : HttpRequest :=
  { Method := str "GET", URL := gamesURL,
    Header := [(str "Accept", [str "application/json"]), (str "User-Agent", [str "hitbox/0.1"])],
    Body := none, Host := str "api.hitbox.tv" }

/-- The category of the example of the specification. -/
def exampleCategory : Category :=
  { Category.zero with
    CategoryID := 1, CategoryName := str "Foo", CategoryViewers := 42,
    CategoryUpdated := { Time := { year := 2015, month := 3, day := 1, hour := 12, minute := 0,
                                   second := 0, nsec := 0, loc := .UTC } } }

/-- The `GamesResponse` of the example of the specification. -/
def exampleResponse : GamesResponse :=
  { Request := Request.zero,
    Categories := { isNil := false, elems := [exampleCategory], spare := [] } }

/-- The body of the example of the specification. -/
def exampleBody : Bytes :=
  str ("\x7b\"categories\":[\x7b\"category_id\":\"1\",\"category_name\":\"Foo\"," ++
    "\"category_viewers\":\"42\",\"category_updated\":\"2015-03-01 12:00:00\"\x7d]\x7d")

/-- What one member of a well-formed category object says: the value of one of the
eight fields, or nothing the struct has a field for. -/
inductive CategoryMember where
  | id (n : Int)
  | name (s : Bytes)
  | nameShort (s : Bytes)
  | seoKey (s : Bytes)
  | viewers (n : Int)
  | logoSmall (s : Bytes)
  | logoLarge (s : Bytes)
  | updated (y mo d h mi s : Nat)
  | other
  deriving DecidableEq, Repr

/-- Whether an integer fits an `int64`. -/
def isInt64 (n : Int) : Prop := -(2 ^ 63) ≤ n ∧ n < 2 ^ 63

instance (n : Int) : Decidable (isInt64 n) := by unfold isInt64; infer_instance

/-- The member `key: v` of a JSON object is well formed and says `m`: an integer field
is a string with the decimal text of an `int64`, a text field is a string, the field
`category_updated` is a quoted `yyyy-mm-dd hh:mm:ss` text of a valid date and time, and
the key of any other member matches no field of `Category`. -/
def CategoryMember.describes (m : CategoryMember) (key : Bytes) (v : JValue) : Prop :=
  match m with
  | .id n => key = str "category_id" ∧ isInt64 n ∧ ∃ raw, v = .string raw (decimal n)
  | .name s => key = str "category_name" ∧ ∃ raw, v = .string raw s
  | .nameShort s => key = str "category_name_short" ∧ ∃ raw, v = .string raw s
  | .seoKey s => key = str "category_seo_key" ∧ ∃ raw, v = .string raw s
  | .viewers n => key = str "category_viewers" ∧ isInt64 n ∧ ∃ raw, v = .string raw (decimal n)
  | .logoSmall s => key = str "category_logo_small" ∧ ∃ raw, v = .string raw s
  | .logoLarge s => key = str "category_logo_large" ∧ ∃ raw, v = .string raw s
  | .updated y mo d h mi s =>
    key = str "category_updated" ∧ validDateTime y mo d h mi s ∧
      v.raw = 34 :: (wireText y mo d h mi s ++ [34])
  | .other => findField categoryFields key = none

/-- The record `c` with the value a member says in its field. -/
def CategoryMember.set (c : Category) : CategoryMember → Category
  | .id n => { c with CategoryID := n }
  | .name s => { c with CategoryName := s }
  | .nameShort s => { c with CategoryNameShort := s }
  | .seoKey s => { c with CategorySeoKey := s }
  | .viewers n => { c with CategoryViewers := n }
  | .logoSmall s => { c with CategoryLogoSmall := s }
  | .logoLarge s => { c with CategoryLogolarge := s }
  | .updated y mo d h mi s =>
    { c with
      CategoryUpdated :=
        { Time := { year := y, month := mo, day := d, hour := h, minute := mi, second := s,
                    nsec := 0, loc := .UTC } } }
  | .other => c

/-- The record a well-formed category object stands for: each field has the value of the
last member that names it, and the zero value if none does. -/
def categoryOf (ms : List CategoryMember) : Category := ms.foldl CategoryMember.set Category.zero

/-- A JSON value is a well-formed category object whose members say `ms`, in order. -/
def WellFormedCategory (v : JValue) (ms : List CategoryMember) : Prop :=
  ∃ raw members, v = .obj raw members ∧
    List.Forall₂ (fun (kv : Bytes × JValue) m => m.describes kv.1 kv.2) members ms

/-- What one member of a well-formed `request` object says: the text of `this`, or
nothing the struct has a field for. -/
inductive RequestMember where
  | this (s : Bytes)
  | other
  deriving DecidableEq, Repr

/-- The member `key: v` of a `request` object is well formed and says `m`. -/
def RequestMember.describes (m : RequestMember) (key : Bytes) (v : JValue) : Prop :=
  match m with
  | .this s => key = str "this" ∧ ∃ raw, v = .string raw s
  | .other => findField requestFields key = none

/-- The record `r` with the value a member says in its field. -/
def RequestMember.set (r : Request) : RequestMember → Request
  | .this s => { r with This := s }
  | .other => r

/-- What a member of the top-level object beside `categories` says: the members of a
`request` object, or nothing the struct has a field for. -/
inductive TopMember where
  | request (ms : List RequestMember)
  | other
  deriving DecidableEq, Repr

/-- The member `key: v` of the top-level object is well formed and says `m`. -/
def TopMember.describes (m : TopMember) (key : Bytes) (v : JValue) : Prop :=
  match m with
  | .request rs =>
    key = str "request" ∧ ∃ raw members, v = .obj raw members ∧
      List.Forall₂ (fun (kv : Bytes × JValue) r => r.describes kv.1 kv.2) members rs
  | .other => findField gamesResponseFields key = none

/-- The request record after a top-level member. -/
def TopMember.set (r : Request) : TopMember → Request
  | .request rs => rs.foldl RequestMember.set r
  | .other => r

/-- Whether a decoding function ended with an error of the decoder, the one it returned
or the one saved. -/
def Decoded.failed {α : Type} : Decoded α → Bool
  | .abort _ e => e.isDecodeError
  | .done _ (some e) => e.isDecodeError
  | .done _ none => false

/-- The members of a value that is an object. -/
def objectMembers (e : JValue) : List (Bytes × JValue) :=
  match e with
  | .obj _ cms => cms
  | _ => []

/-- The members of the objects among the elements of a value that is an array. -/
def arrayMembers (v : JValue) : List (Bytes × JValue) :=
  match v with
  | .arr _ es => es.flatMap objectMembers
  | _ => []

/-- The members of the category objects under one member of the top-level object: there
are some if its key stands for the field `Categories` and its value is an array. -/
def memberCategoryMembers (kv : Bytes × JValue) : List (Bytes × JValue) :=
  if findField gamesResponseFields kv.1 = some (str "categories") then arrayMembers kv.2 else []

/-- The members of all category objects of a top-level object: of every object that is
an element of an array under a key for the field `Categories`. -/
def categoryMembers (members : List (Bytes × JValue)) : List (Bytes × JValue) :=
  members.flatMap memberCategoryMembers

/-- The key stands for one of the fields `CategoryID` and `CategoryViewers`. -/
def isIntKey (key : Bytes) : Prop :=
  findField categoryFields key = some (str "category_id") ∨
    findField categoryFields key = some (str "category_viewers")

/-- The key stands for the field `CategoryUpdated`. -/
def isTimeKey (key : Bytes) : Prop :=
  findField categoryFields key = some (str "category_updated")

instance (key : Bytes) : Decidable (isIntKey key) := by unfold isIntKey; infer_instance

instance (key : Bytes) : Decidable (isTimeKey key) := by unfold isTimeKey; infer_instance

/-- A value that does not fit an integer field: a string other than `null` that
`strconv.ParseInt` rejects, or a value that is neither a string nor `null`. -/
def BadInt (v : JValue) : Prop :=
  match v with
  | .string _ val => val ≠ str "null" ∧ parseInt val = none
  | .null _ => False
  | _ => True

/-- A member of a category object that does not decode: an integer field with a value
that does not fit, or a `category_updated` whose text between its first and last byte is
not one `time.Parse` reads. -/
def BadMember (key : Bytes) (v : JValue) : Prop :=
  (isIntKey key ∧ BadInt v) ∨ (isTimeKey key ∧ ¬ AcceptedText ((v.raw.drop 1).dropLast))

/-- No value of a `category_updated` in the category objects is shorter than two
bytes. -/
def NoShortTimestamp (members : List (Bytes × JValue)) : Prop :=
  ∀ kv ∈ categoryMembers members, isTimeKey kv.1 → 2 ≤ kv.2.raw.length

/-- The error saved so far, if there is one, is an error of the decoder. -/
def SavedOk (saved : Option GoError) : Prop := ∀ e, saved = some e → e.isDecodeError = true

/-- A decoding function started with the saved error `saved` has kept to the rules: an
error it returned is one of the decoder, and so is the error saved at its end, which is
there if one was saved at the start. -/
def Decoded.carries {α : Type} (saved : Option GoError) : Decoded α → Prop
  | .abort _ e => e.isDecodeError = true
  | .done _ sv => SavedOk sv ∧ (saved.isSome = true → sv.isSome = true)

/-- A body with a category whose `category_id` is the string `null`. -/
def nullIdBody : Bytes := str "\x7b\"categories\":[\x7b\"category_id\":\"null\"\x7d]\x7d"

/-- A body with a category whose `category_updated` is the string `not-a-date`. -/
def notADateBody : Bytes :=
  str "\x7b\"categories\":[\x7b\"category_updated\":\"not-a-date\"\x7d]\x7d"

/-- A body with a category whose `category_id` is the string `abc`. -/
def badIdBody : Bytes := str "\x7b\"categories\":[\x7b\"category_id\":\"abc\"\x7d]\x7d"

/-- A base URL to whose path a relative path is simply appended: a hierarchical URL
(no opaque part, host not omitted) whose path, as `EscapedPath` gives it, either is empty,
the URL having a host, or starts and ends with a slash and has no segment `.` or `..`. -/
def PlainBase (base : URL) : Prop :=
  base.Opaque = [] ∧ base.OmitHost = false ∧
  ((base.EscapedPath = [] ∧ base.Host ≠ []) ∨
   (base.EscapedPath.head? = some 47 ∧ base.EscapedPath.getLast? = some 47 ∧
    ∀ e ∈ splitSlash base.EscapedPath, e ≠ str "." ∧ e ≠ str ".."))

/-- What the reference `games` adds to the text of a plain base URL: `games`, after a
slash if the path of the base URL is empty. -/
def gamesSuffix (base : URL) : Bytes :=
  if base.EscapedPath = [] then str "/games" else str "games"

/-- A URL without its query and its fragment. -/
def URL.withoutQuery (u : URL) : URL :=
  { u with ForceQuery := false, RawQuery := [], Fragment := [], RawFragment := [] }

/-- The headers `newRequest` adds for a client with the given user agent. -/
def gamesHeader (ua : Bytes) : Header :=
  [(str "Accept", [str "application/json"]), (str "User-Agent", [ua])]

/-- The request `http.NewRequest` makes of the method `GET` and a parsed URL, with the
headers of `newRequest`. -/
def requestTo (u : URL) (ua : Bytes) : HttpRequest :=
  { Method := str "GET", URL := { u with Host := removeEmptyPort u.Host },
    Header := gamesHeader ua, Body := none, Host := removeEmptyPort u.Host }

/-- The reference `games`, parsed. -/
def gamesRef : URL := { URL.zero with Path := str "games" }

/-- The elements of a path put together again with slashes between them. -/
def joinSlash : List Bytes → Bytes
  | [] => []
  | e :: rest => e ++ rest.flatMap (47 :: ·)

instance (base : URL) : Decidable (PlainBase base) := by
  unfold PlainBase; infer_instance

/-- The URL `http://x/api/`, parsed. -/
def apiSlashBase : URL :=
  { URL.zero with Scheme := str "http", Host := str "x", Path := str "/api/" }

/-- The URL `http://x/api`, parsed. -/
def apiBase : URL :=
  { URL.zero with Scheme := str "http", Host := str "x", Path := str "/api" }

/-- The URL `http://x/api/games`, parsed. -/
def apiGamesURL : URL :=
  { URL.zero with Scheme := str "http", Host := str "x", Path := str "/api/games" }

/-- The URL `http://x`, parsed. -/
def hostBase : URL := { URL.zero with Scheme := str "http", Host := str "x" }

/-- The URL `http://x/games`, parsed. -/
def hostGamesURL : URL :=
  { URL.zero with Scheme := str "http", Host := str "x", Path := str "/games" }

/-- The URL `http://x/a%2Fb/?q=1`, parsed: the path segment `a/b` is percent-encoded. -/
def encodedBase : URL :=
  { URL.zero with Scheme := str "http", Host := str "x", Path := str "/a/b/",
                  RawPath := str "/a%2Fb/", RawQuery := str "q=1" }

/-- The URL `http://x/a%2Fb/games`, parsed. -/
def encodedGamesURL : URL :=
  { URL.zero with Scheme := str "http", Host := str "x", Path := str "/a/b/games",
                  RawPath := str "/a%2Fb/games" }

/-- A transport that fails on every request. -/
def refusingClient : HttpClient := { Do := fun _ => .error (.transport "connection refused") }

/-- A client with the given base URL and user agent that uses the given transport. -/
def clientOf (h : HttpClient) (base : URL) (ua : Bytes) : Client :=
  { client := some h, BaseURL := some base, UserAgent := ua }

/-! # Theorems -/

/-! ## Reading the wire format back -/

theorem digitByte_toNat (n : Nat) : (digitByte n).toNat = 48 + n % 10 := by
  simp [digitByte, UInt8.toNat, UInt8.ofNat, Fin.ofNat]; omega

theorem isDigit_zero_digitByte (n : Nat) (r : Bytes) : isDigit (digitByte n :: r) 0 = true := by
  simp [isDigit, digitByte_toNat]; omega

theorem isDigit_one_digitByte (c : UInt8) (n : Nat) (r : Bytes) :
    isDigit (c :: digitByte n :: r) 1 = true := by
  simp [isDigit, digitByte_toNat]; omega

theorem getnum_pad2 (n : Nat) (h : n < 100) (fixed : Bool) (r : Bytes) :
    getnum (pad2 n ++ r) fixed = some (n, r) := by
  simp [getnum, pad2, isDigit_zero_digitByte, isDigit_one_digitByte, digitByte_toNat]
  omega

theorem digitByte_ne (k : Nat) (b : UInt8) (hb : b.toNat < 48 ∨ 57 < b.toNat) : digitByte k ≠ b := by
  intro hk; have := digitByte_toNat k; rw [hk] at this; omega

theorem leadingInt_digit (x k : Nat) (r : Bytes) (hx : x ≤ 99999) :
    leadingInt x (digitByte k :: r) = leadingInt (x * 10 + k % 10) r := by
  have e := digitByte_toNat k
  rw [leadingInt]
  have h1 : ¬ ((digitByte k).toNat < 48 ∨ (digitByte k).toNat > 57) := by omega
  have h2 : ¬ (x > 2 ^ 63 / 10) := by norm_num; omega
  have h3 : x * 10 + (digitByte k).toNat - 48 = x * 10 + k % 10 := by omega
  have h4 : ¬ (x * 10 + k % 10 > 2 ^ 63) := by norm_num; omega
  simp only [h1, h2, h3, h4, if_false]

theorem atoi_pad4 (n : Nat) (h : n ≤ 9999) : atoi (pad4 n) = some (n : Int) := by
  have ne1 : ∀ k, digitByte k ≠ 45 := fun k => digitByte_ne k 45 (by decide)
  have ne2 : ∀ k, digitByte k ≠ 43 := fun k => digitByte_ne k 43 (by decide)
  have hl : leadingInt 0 (pad4 n) = some (n, []) := by
    unfold pad4
    rw [leadingInt_digit _ _ _ (by omega), leadingInt_digit _ _ _ (by omega),
      leadingInt_digit _ _ _ (by omega), leadingInt_digit _ _ _ (by omega), leadingInt]
    congr 2; omega
  have : atoi (pad4 n) = atoiDigits false (pad4 n) := by
    simp [atoi, pad4, ne1, ne2]
  rw [this, atoiDigits, hl]
  simp

theorem sliceExpr_quoted (x : Bytes) (a b : UInt8) :
    sliceExpr (a :: (x ++ [b])) 1 (((a :: (x ++ [b])).length : Int) - 1) = .ok x := by
  simp [sliceExpr]

theorem timeParse_wireText (y mo d h mi s : Nat) (hv : validDateTime y mo d h mi s) :
    timeParse (wireText y mo d h mi s) = .ok ⟨y, mo, d, h, mi, s, 0, .UTC⟩ := by
  obtain ⟨hy, hmo1, hmo2, hd1, hd2, hh, hmi, hs⟩ := hv
  have hlen : ¬ ((wireText y mo d h mi s).length < 4 ∨ (!isDigit (wireText y mo d h mi s) 0) = true) := by
    simp [wireText, pad4, pad2, isDigit_zero_digitByte]
  have htake : (wireText y mo d h mi s).take 4 = pad4 y := by
    simp [wireText, pad4, pad2]
  have hdrop : (wireText y mo d h mi s).drop 4 = [45] ++ (pad2 mo ++ ([45] ++ (pad2 d ++ ([32] ++ (pad2 h ++ ([58] ++ (pad2 mi ++ ([58] ++ (pad2 s ++ []))))))))) := by
    simp [wireText, pad4, pad2]
  unfold timeParse
  rw [if_neg hlen, htake, atoi_pad4 y hy, hdrop]
  have sk45 : ∀ r : Bytes, skip ([45] ++ r) [45] = some r := by intro r; simp [skip]
  have sk58 : ∀ r : Bytes, skip ([58] ++ r) [58] = some r := by intro r; simp [skip]
  have sk32 : ∀ (k : Nat) (r : Bytes), skip ([32] ++ (pad2 k ++ r)) [32] = some (pad2 k ++ r) := by
    intro k r
    have : digitByte (k / 10) ≠ 32 := digitByte_ne _ 32 (by decide)
    simp [skip, skip.skipSp, cutspace, pad2, this]
  have hfrac : fracSecond [] = some (0, []) := rfl
  simp only [sk45, sk58, sk32, getnum_pad2 mo (by omega), getnum_pad2 d (by
    have : daysIn mo y ≤ 31 := by unfold daysIn; split <;> [split; skip] <;> omega
    omega), getnum_pad2 h (by omega), getnum_pad2 mi (by omega), getnum_pad2 s (by omega), hfrac]
  have c1 : ¬ (mo ≤ 0 ∨ 12 < mo) := by omega
  have c2 : ¬ (24 ≤ h) := by omega
  have c3 : ¬ (60 ≤ mi) := by omega
  have c4 : ¬ (60 ≤ s) := by omega
  have c5 : ¬ (d < 1 ∨ d > daysIn mo y) := by omega
  simp only [if_neg c1, if_neg c2, if_neg c3, if_neg c4, if_neg c5, List.length_nil, ne_eq,
    not_true_eq_false, if_false]

theorem digitByte_of_isDigitByte (a : UInt8) (h : isDigitByte a = true) :
    digitByte (a.toNat - 48) = a := by
  apply UInt8.ext
  simp [isDigitByte] at h
  rw [digitByte_toNat]; omega

theorem getnum_inv (s : Bytes) (fixed : Bool) (n : Nat) (r : Bytes)
    (h : getnum s fixed = some (n, r)) :
    (∃ a b, s = a :: b :: r ∧ isDigitByte a = true ∧ isDigitByte b = true ∧
        n = (a.toNat - 48) * 10 + (b.toNat - 48)) ∨
    (fixed = false ∧ ∃ a, s = a :: r ∧ isDigitByte a = true ∧ n = a.toNat - 48 ∧
        isDigit r 0 = false) := by
  unfold getnum at h
  match s, h with
  | [], h => simp [isDigit] at h
  | [a], h =>
    right
    simp [isDigit] at h
    cases fixed <;> simp at h
    obtain ⟨h1, h2, h3⟩ := h
    subst h3
    exact ⟨rfl, a, rfl, by simp [isDigitByte]; exact h1, h2.symm, by simp [isDigit]⟩
  | a :: b :: t, h =>
    simp [isDigit] at h
    by_cases hb : 48 ≤ b.toNat ∧ b.toNat ≤ 57
    · left
      obtain ⟨ha, h⟩ := h
      rw [if_neg (by omega)] at h
      simp only [Option.some.injEq, Prod.mk.injEq] at h
      obtain ⟨h1, h2⟩ := h
      subst h2
      exact ⟨a, b, rfl, by simp [isDigitByte]; exact ha, by simp [isDigitByte]; exact hb, h1.symm⟩
    · right
      obtain ⟨ha, h⟩ := h
      rw [if_pos (by omega)] at h
      cases fixed
      · simp only [Bool.false_eq_true, if_false, Option.some.injEq, Prod.mk.injEq] at h
        obtain ⟨h1, h2⟩ := h
        subst h2
        refine ⟨rfl, a, rfl, by simp [isDigitByte]; exact ha, h1.symm, ?_⟩
        simp [isDigit]; omega
      · simp at h


theorem skip_byte_inv (v r : Bytes) (p : UInt8) (hp : p ≠ 32) (h : skip v [p] = some r) :
    v = p :: r := by
  cases v with
  | nil => simp [skip, hp] at h
  | cons a t =>
    simp [skip, hp] at h
    obtain ⟨h1, h2⟩ := h
    rw [h1, h2]

theorem cutspace_spec (v : Bytes) :
    ∃ k, v = List.replicate k 32 ++ cutspace v ∧
      ∀ c t, cutspace v = c :: t → c ≠ 32 := by
  induction v with
  | nil => exact ⟨0, by simp [cutspace], by simp [cutspace]⟩
  | cons a t ih =>
    obtain ⟨k, hk, hne⟩ := ih
    by_cases ha : a = 32
    · subst ha
      refine ⟨k + 1, ?_, ?_⟩
      · simp [cutspace, List.replicate_succ]; exact hk
      · simpa [cutspace] using hne
    · refine ⟨0, by simp [cutspace, ha], ?_⟩
      intro c t' h
      simp [cutspace, ha] at h
      rw [← h.1]; exact ha

theorem skip_space_inv (v r : Bytes) (h : skip v [32] = some r) :
    v = [] ∧ r = [] ∨ ∃ k, v = List.replicate (k + 1) 32 ++ r ∧ ∀ c t, r = c :: t → c ≠ 32 := by
  cases v with
  | nil => left; simp [skip, skip.skipSp] at h; exact ⟨rfl, h⟩
  | cons a t =>
    right
    simp [skip, skip.skipSp] at h
    obtain ⟨h1, h2⟩ := h
    subst h1
    obtain ⟨k, hk, hne⟩ := cutspace_spec t
    simp [cutspace] at h2
    rw [h2] at hk hne
    exact ⟨k, by rw [List.replicate_succ, List.cons_append, ← hk], hne⟩

theorem leadingInt_nil_inv (x q : Nat) (c : UInt8) (rest : Bytes)
    (h : leadingInt x (c :: rest) = some (q, [])) :
    isDigitByte c = true ∧ leadingInt (x * 10 + c.toNat - 48) rest = some (q, []) := by
  rw [leadingInt] at h
  split at h
  · simp at h
  · rename_i hc
    split at h
    · simp at h
    · simp only at h
      split at h
      · simp at h
      · exact ⟨by simp [isDigitByte]; omega, h⟩

theorem year_inv (v : Bytes) (year : Int) (h0 : ¬ (v.length < 4 ∨ (!isDigit v 0) = true))
    (h : atoi (v.take 4) = some year) :
    ∃ a b c d rest, v = a :: b :: c :: d :: rest ∧ isDigitByte a = true ∧ isDigitByte b = true ∧
      isDigitByte c = true ∧ isDigitByte d = true ∧
      year = (((a.toNat - 48) * 1000 + (b.toNat - 48) * 100 + (c.toNat - 48) * 10
        + (d.toNat - 48) : Nat) : Int) := by
  match v, h0, h with
  | [], h0, _ => simp at h0
  | [_], h0, _ => simp at h0
  | [_, _], h0, _ => simp at h0
  | [_, _, _], h0, _ => simp at h0
  | a :: b :: c :: d :: rest, h0, h =>
    have ha : isDigitByte a = true := by
      simp [isDigit] at h0; simp [isDigitByte]; exact h0
    have ha' : 48 ≤ a.toNat ∧ a.toNat ≤ 57 := by simpa [isDigitByte] using ha
    have n1 : a ≠ 45 := by intro e; rw [e] at ha'; revert ha'; decide
    have n2 : a ≠ 43 := by intro e; rw [e] at ha'; revert ha'; decide
    simp only [List.take_succ_cons, List.take_zero, atoi, n1, n2, or_self, if_false,
      atoiDigits] at h
    split at h
    · rename_i q hq
      obtain ⟨_, hq⟩ := leadingInt_nil_inv _ _ _ _ hq
      obtain ⟨hb, hq⟩ := leadingInt_nil_inv _ _ _ _ hq
      obtain ⟨hc, hq⟩ := leadingInt_nil_inv _ _ _ _ hq
      obtain ⟨hd, hq⟩ := leadingInt_nil_inv _ _ _ _ hq
      simp only [leadingInt, Option.some.injEq, Prod.mk.injEq, and_true] at hq
      refine ⟨a, b, c, d, rest, rfl, ha, hb, hc, hd, ?_⟩
      simp only [Bool.false_eq_true, if_false, Option.some.injEq] at h
      rw [← h, ← hq]
      simp [isDigitByte] at hb hc hd
      congr 1
      omega
    · simp at h


theorem takeWhile_length_all (p : UInt8 → Bool) (l : Bytes)
    (h : l.length ≤ (l.takeWhile p).length) : ∀ x ∈ l, p x = true := by
  induction l with
  | nil => simp
  | cons a t ih =>
    by_cases ha : p a = true
    · simp [List.takeWhile_cons, ha] at h
      intro x hx
      rcases List.mem_cons.mp hx with rfl | hx
      · exact ha
      · exact ih h x hx
    · simp [List.takeWhile_cons, ha] at h

theorem fracSecond_inv (v : Bytes) (ns : Nat) (h : fracSecond v = some (ns, [])) :
    v = [] ∨ ∃ c ds, (c = 46 ∨ c = 44) ∧ ds ≠ [] ∧ (∀ x ∈ ds, isDigitByte x = true) ∧
      v = c :: ds := by
  match v, h with
  | [], _ => left; rfl
  | [c], h => simp [fracSecond] at h
  | c :: d :: t, h =>
    right
    simp only [fracSecond] at h
    split at h
    · rename_i hc
      split at h
      · simp at h
      · simp only [Option.some.injEq, Prod.mk.injEq] at h
        obtain ⟨_, h2⟩ := h
        simp only [Bool.and_eq_true] at hc
        obtain ⟨hc1, hc2⟩ := hc
        have hd : isDigitByte d = true := by simpa [isDigit, isDigitByte] using hc2
        have hlen := List.drop_eq_nil_iff.mp h2
        simp only [digitRun, List.drop_succ_cons, List.drop_zero, List.length_cons] at hlen
        have hall := takeWhile_length_all isDigitByte t (by omega)
        refine ⟨c, d :: t, by simpa [commaOrPeriod] using hc1, by simp, ?_, rfl⟩
        intro x hx
        rcases List.mem_cons.mp hx with rfl | hx
        · exact hd
        · exact hall x hx
    · simp at h

theorem pad2_of_digits (a b : UInt8) (ha : isDigitByte a = true) (hb : isDigitByte b = true) :
    pad2 ((a.toNat - 48) * 10 + (b.toNat - 48)) = [a, b] := by
  have ha' : 48 ≤ a.toNat ∧ a.toNat ≤ 57 := by simpa [isDigitByte] using ha
  have hb' : 48 ≤ b.toNat ∧ b.toNat ≤ 57 := by simpa [isDigitByte] using hb
  unfold pad2
  congr 1
  · apply UInt8.ext; rw [digitByte_toNat]; omega
  · congr 1
    apply UInt8.ext; rw [digitByte_toNat]; omega

theorem pad4_of_digits (a b c d : UInt8) (ha : isDigitByte a = true) (hb : isDigitByte b = true)
    (hc : isDigitByte c = true) (hd : isDigitByte d = true) :
    pad4 ((a.toNat - 48) * 1000 + (b.toNat - 48) * 100 + (c.toNat - 48) * 10 + (d.toNat - 48))
      = [a, b, c, d] := by
  have ha' : 48 ≤ a.toNat ∧ a.toNat ≤ 57 := by simpa [isDigitByte] using ha
  have hb' : 48 ≤ b.toNat ∧ b.toNat ≤ 57 := by simpa [isDigitByte] using hb
  have hc' : 48 ≤ c.toNat ∧ c.toNat ≤ 57 := by simpa [isDigitByte] using hc
  have hd' : 48 ≤ d.toNat ∧ d.toNat ≤ 57 := by simpa [isDigitByte] using hd
  unfold pad4
  congr 1
  · apply UInt8.ext; rw [digitByte_toNat]; omega
  · congr 1
    · apply UInt8.ext; rw [digitByte_toNat]; omega
    · congr 1
      · apply UInt8.ext; rw [digitByte_toNat]; omega
      · congr 1
        apply UInt8.ext; rw [digitByte_toNat]; omega

theorem getnum_fixed_inv (s : Bytes) (n : Nat) (r : Bytes) (h : getnum s true = some (n, r)) :
    s = pad2 n ++ r := by
  rcases getnum_inv s true n r h with ⟨a, b, hs, ha, hb, hn⟩ | ⟨hf, _⟩
  · rw [hn, pad2_of_digits a b ha hb, hs]; rfl
  · cases hf

theorem getnum_free_inv (s : Bytes) (n : Nat) (r : Bytes) (h : getnum s false = some (n, r)) :
    ∃ hour, s = hour ++ r ∧ (hour = pad2 n ∨ (n ≤ 9 ∧ hour = [digitByte n])) := by
  rcases getnum_inv s false n r h with ⟨a, b, hs, ha, hb, hn⟩ | ⟨_, a, hs, ha, hn, _⟩
  · exact ⟨[a, b], by rw [hs]; rfl, Or.inl (by rw [hn, pad2_of_digits a b ha hb])⟩
  · have ha' : 48 ≤ a.toNat ∧ a.toNat ≤ 57 := by simpa [isDigitByte] using ha
    exact ⟨[a], by rw [hs]; rfl, Or.inr ⟨by omega, by rw [hn, digitByte_of_isDigitByte a ha]⟩⟩

theorem timeParse_ok_inv (v : Bytes) (tm : Time) (h : timeParse v = .ok tm) :
    AcceptedText v := by
  unfold timeParse at h
  split at h
  · cases h
  rename_i h0
  split at h
  · cases h
  rename_i year hyear
  obtain ⟨ya, yb, yc, yd, r0, hv, hya, hyb, hyc, hyd, hy⟩ := year_inv v year h0 hyear
  subst hv
  simp only [List.drop_succ_cons, List.drop_zero] at h
  split at h
  · cases h
  rename_i v1 hs1
  have e1 := skip_byte_inv _ _ 45 (by decide) hs1
  split at h
  · cases h
  rename_i month v2 hmo
  split at h
  · cases h
  rename_i hmr
  split at h
  · cases h
  rename_i v3 hs2
  have e2 := skip_byte_inv _ _ 45 (by decide) hs2
  split at h
  · cases h
  rename_i day v4 hday
  split at h
  · cases h
  rename_i v5 hs3
  split at h
  · cases h
  rename_i hour v6 hhour
  split at h
  · cases h
  rename_i hhr
  split at h
  · cases h
  rename_i v7 hs4
  have e4 := skip_byte_inv _ _ 58 (by decide) hs4
  split at h
  · cases h
  rename_i minute v8 hmin
  split at h
  · cases h
  rename_i hmir
  split at h
  · cases h
  rename_i v9 hs5
  have e5 := skip_byte_inv _ _ 58 (by decide) hs5
  split at h
  · cases h
  rename_i sec v10 hsec
  split at h
  · cases h
  rename_i hsr
  split at h
  · cases h
  rename_i nsec v11 hfrac
  split at h
  · cases h
  rename_i hv11
  split at h
  · cases h
  rename_i hdr
  have hv11' : v11 = [] := by
    cases v11 with
    | nil => rfl
    | cons _ _ => simp at hv11
  subst hv11'
  have e6 := getnum_fixed_inv _ _ _ hmo
  have e7 := getnum_fixed_inv _ _ _ hday
  have e8 := getnum_fixed_inv _ _ _ hmin
  have e9 := getnum_fixed_inv _ _ _ hsec
  obtain ⟨hourText, e10, hhourText⟩ := getnum_free_inv _ _ _ hhour
  have e3 : ∃ k, v4 = List.replicate (k + 1) 32 ++ v5 := by
    rcases skip_space_inv _ _ hs3 with ⟨_, h5⟩ | ⟨k, hk, _⟩
    · rw [h5] at hhour; simp [getnum, isDigit] at hhour
    · exact ⟨k, hk⟩
  obtain ⟨k, e3⟩ := e3
  have hfr := fracSecond_inv _ _ hfrac
  have hyr : pad4 ((ya.toNat - 48) * 1000 + (yb.toNat - 48) * 100 + (yc.toNat - 48) * 10
      + (yd.toNat - 48)) = [ya, yb, yc, yd] := pad4_of_digits ya yb yc yd hya hyb hyc hyd
  have hyb' : 48 ≤ ya.toNat ∧ ya.toNat ≤ 57 := by simpa [isDigitByte] using hya
  have hyb'' : 48 ≤ yb.toNat ∧ yb.toNat ≤ 57 := by simpa [isDigitByte] using hyb
  have hyc' : 48 ≤ yc.toNat ∧ yc.toNat ≤ 57 := by simpa [isDigitByte] using hyc
  have hyd' : 48 ≤ yd.toNat ∧ yd.toNat ≤ 57 := by simpa [isDigitByte] using hyd
  refine ⟨(ya.toNat - 48) * 1000 + (yb.toNat - 48) * 100 + (yc.toNat - 48) * 10
      + (yd.toNat - 48), month, day, hour, minute, sec, k, hourText, v10, ?_, hhourText, ?_, ?_⟩
  · rw [hy] at hdr
    exact ⟨by omega, by omega, by omega, by omega, by omega, by omega, by omega, by omega⟩
  · rcases hfr with h | h
    · exact Or.inl h
    · exact Or.inr h
  · rw [hyr, e1, e6, e2, e7, e3, e10, e4, e8, e5, e9]
    simp

/-! ## Timestamp.UnmarshalJSON -/

/-- C4: for every valid calendar date with a four-digit year and every valid time of
day, `Timestamp.UnmarshalJSON` applied to a double quote, the text `yyyy-mm-dd hh:mm:ss`
of that date and time, and a closing double quote returns a nil error and sets the
timestamp to exactly that year, month, day, hour, minute and second, with zero
nanoseconds, in UTC. -/
theorem unmarshalJSON_reads_wire_format (t : Timestamp) (y mo d h mi s : Nat)
    (hv : validDateTime y mo d h mi s) :
    Timestamp.UnmarshalJSON t (34 :: (wireText y mo d h mi s ++ [34]))
      = .ok ({ Time := { year := y, month := mo, day := d, hour := h, minute := mi,
                         second := s, nsec := 0, loc := .UTC } }, none) := by
  unfold Timestamp.UnmarshalJSON
  rw [sliceExpr_quoted]
  simp only [timeParse_wireText y mo d h mi s hv]

/-- Witness of C4: the timestamp of the example of the specification. -/
theorem unmarshalJSON_reads_wire_format_witness :
    validDateTime 2015 3 1 12 0 0 ∧
    34 :: (wireText 2015 3 1 12 0 0 ++ [34]) = str "\"2015-03-01 12:00:00\"" ∧
    Timestamp.UnmarshalJSON { Time := Time.zero } (34 :: (wireText 2015 3 1 12 0 0 ++ [34]))
      = .ok ({ Time := { year := 2015, month := 3, day := 1, hour := 12, minute := 0,
                         second := 0, nsec := 0, loc := .UTC } }, none) :=
  ⟨by decide, by decide,
    unmarshalJSON_reads_wire_format { Time := Time.zero } 2015 3 1 12 0 0 (by decide)⟩

theorem wireText_length (y mo d h mi s : Nat) : (wireText y mo d h mi s).length = 19 := by
  simp [wireText, pad4, pad2]

theorem quotedWire_shape (data : Bytes) (h : QuotedWire data) :
    data.length = 21 ∧ data.head? = some 34 := by
  obtain ⟨y, mo, d, hh, mi, s, _, rfl⟩ := h
  simp [wireText_length]

/-- Counterexample to C5: inputs of at least two bytes that are not a quoted text of the
exact form `yyyy-mm-dd hh:mm:ss`, and for which `Timestamp.UnmarshalJSON` returns a nil
error all the same: two spaces between date and time, an hour of one digit, a fractional
second after the seconds, and first and last bytes that are no quotes. -/
theorem unmarshalJSON_accepts_more_than_wire_format :
    (2 ≤ (str "\"2015-03-01  12:00:00\"").length ∧
      ¬ QuotedWire (str "\"2015-03-01  12:00:00\"") ∧
      unmarshalError (Timestamp.UnmarshalJSON { Time := Time.zero }
        (str "\"2015-03-01  12:00:00\"")) = none ∧
      (Timestamp.UnmarshalJSON { Time := Time.zero } (str "\"2015-03-01  12:00:00\"")).returns
        = true) ∧
    (2 ≤ (str "\"2015-03-01 1:00:00\"").length ∧
      ¬ QuotedWire (str "\"2015-03-01 1:00:00\"") ∧
      unmarshalError (Timestamp.UnmarshalJSON { Time := Time.zero }
        (str "\"2015-03-01 1:00:00\"")) = none ∧
      (Timestamp.UnmarshalJSON { Time := Time.zero } (str "\"2015-03-01 1:00:00\"")).returns
        = true) ∧
    (2 ≤ (str "\"2015-03-01 12:00:00.5\"").length ∧
      ¬ QuotedWire (str "\"2015-03-01 12:00:00.5\"") ∧
      unmarshalError (Timestamp.UnmarshalJSON { Time := Time.zero }
        (str "\"2015-03-01 12:00:00.5\"")) = none ∧
      (Timestamp.UnmarshalJSON { Time := Time.zero } (str "\"2015-03-01 12:00:00.5\"")).returns
        = true) ∧
    (2 ≤ (str "x2015-03-01 12:00:00y").length ∧
      ¬ QuotedWire (str "x2015-03-01 12:00:00y") ∧
      unmarshalError (Timestamp.UnmarshalJSON { Time := Time.zero }
        (str "x2015-03-01 12:00:00y")) = none ∧
      (Timestamp.UnmarshalJSON { Time := Time.zero } (str "x2015-03-01 12:00:00y")).returns
        = true) := by
  refine ⟨⟨by decide, ?_, by decide, by decide⟩, ⟨by decide, ?_, by decide, by decide⟩,
    ⟨by decide, ?_, by decide, by decide⟩, ⟨by decide, ?_, by decide, by decide⟩⟩
  · intro h; have := (quotedWire_shape _ h).1; revert this; decide
  · intro h; have := (quotedWire_shape _ h).1; revert this; decide
  · intro h; have := (quotedWire_shape _ h).1; revert this; decide
  · intro h; have := (quotedWire_shape _ h).2; revert this; decide

theorem sliceExpr_inner (data : Bytes) (h : 2 ≤ data.length) :
    sliceExpr data 1 ((data.length : Int) - 1) = .ok ((data.drop 1).dropLast) := by
  unfold sliceExpr
  rw [if_pos (by omega)]
  congr 1
  rw [List.dropLast_eq_take]
  congr 1
  simp

/-- C5, amended: for every raw input of at least two bytes, if the text between its
first and its last byte is not of the form `time.Parse` reads with the layout (four-digit
year, `-`, two-digit month, `-`, two-digit day, one or more spaces, hour of one or two
digits, `:`, two-digit minute, `:`, two-digit second, then nothing or a period or comma
followed by digits, naming a valid date and time), `Timestamp.UnmarshalJSON` returns a
parse error and leaves the zero time. -/
theorem unmarshalJSON_rejects_unaccepted_text (t : Timestamp) (data : Bytes)
    (hlen : 2 ≤ data.length) (hbad : ¬ AcceptedText ((data.drop 1).dropLast)) :
    ∃ detail, Timestamp.UnmarshalJSON t data
      = .ok ({ Time := Time.zero }, some (.timeParse detail)) := by
  unfold Timestamp.UnmarshalJSON
  rw [sliceExpr_inner data hlen]
  cases hp : timeParse ((data.drop 1).dropLast) with
  | ok tm => exact absurd (timeParse_ok_inv _ tm hp) hbad
  | error e =>
    have : ∃ detail, e = .timeParse detail := by
      unfold timeParse at hp
      repeat' split at hp
      all_goals first
        | (cases hp; exact ⟨_, rfl⟩)
        | cases hp
    obtain ⟨detail, rfl⟩ := this
    refine ⟨detail, ?_⟩
    simp only [hp]

theorem acceptedText_head (text : Bytes) (h : AcceptedText text) :
    ∃ c r, text = c :: r ∧ isDigitByte c = true := by
  obtain ⟨y, mo, d, hh, mi, s, k, hour, frac, _, _, _, rfl⟩ := h
  refine ⟨digitByte (y / 1000), _, by simp [pad4]; rfl, ?_⟩
  simp [isDigitByte, digitByte_toNat]
  omega

/-- Witness of the amended C5: the text `not-a-date` between quotes. -/
theorem unmarshalJSON_rejects_unaccepted_text_witness :
    ∃ detail, Timestamp.UnmarshalJSON { Time := Time.zero } (str "\"not-a-date\"")
      = .ok ({ Time := Time.zero }, some (.timeParse detail)) :=
  unmarshalJSON_rejects_unaccepted_text { Time := Time.zero } (str "\"not-a-date\"")
    (by decide) (by
      intro h
      obtain ⟨c, r, hc, hd⟩ := acceptedText_head _ h
      have e : ((str "\"not-a-date\"").drop 1).dropLast = str "not-a-date" := by decide
      rw [e] at hc
      have : c = 110 := by
        have e2 : (str "not-a-date").head? = some 110 := by decide
        rw [hc] at e2
        simpa using e2
      subst this
      revert hd; decide)

/-- C9, as the code has it: on every input of fewer than two bytes (the empty input and
inputs of one byte, such as the JSON number `5`) the slice expression
`data[1 : len(data)-1]` is out of bounds and the call ends in a run-time panic. -/
theorem unmarshalJSON_panics_on_short_input (t : Timestamp) (data : Bytes)
    (h : data.length < 2) :
    Timestamp.UnmarshalJSON t data = .panic "runtime error: slice bounds out of range" := by
  unfold Timestamp.UnmarshalJSON sliceExpr
  rw [if_neg (by omega)]

/-- Witness of the behaviour under C9: the one-byte input `5`. -/
theorem unmarshalJSON_panics_on_short_input_witness :
    (str "5").length < 2 ∧
    Timestamp.UnmarshalJSON { Time := Time.zero } (str "5")
      = .panic "runtime error: slice bounds out of range" :=
  ⟨by decide, unmarshalJSON_panics_on_short_input { Time := Time.zero } (str "5") (by decide)⟩

/-! ## Games on a response that is not 200 -/

theorem urlParse_defaultBaseUrl : urlParse defaultBaseUrl = .ok defaultBase := by decide

theorem newClient_baseURL (dc : HttpClient) (h : Option HttpClient) :
    (NewClient dc h).BaseURL = some defaultBase := by
  simp only [NewClient, urlParse_defaultBaseUrl]

theorem newClient_userAgent (dc : HttpClient) (h : Option HttpClient) :
    (NewClient dc h).UserAgent = str "hitbox/0.1" := by
  show userAgent = _
  decide

theorem newRequest_defaultBase (c : Client) (hb : c.BaseURL = some defaultBase)
    (hu : c.UserAgent = str "hitbox/0.1") :
    c.newRequest (str "GET") (str "games") = .ok (.ok defaultGamesRequest) := by
  have h1 : urlParse (str "games") = .ok { URL.zero with Path := str "games" } := by decide
  have h2 : NewRequest (str "GET")
      (defaultBase.ResolveReference { URL.zero with Path := str "games" }).String
      = .ok { Method := str "GET", URL := gamesURL, Header := [], Body := none,
              Host := str "api.hitbox.tv" } := by decide
  unfold Client.newRequest
  simp only [h1, hb, h2, hu]
  decide

theorem newClient_newRequest (dc : HttpClient) (h : Option HttpClient) :
    (NewClient dc h).newRequest (str "GET") (str "games") = .ok (.ok defaultGamesRequest) :=
  newRequest_defaultBase _ (newClient_baseURL dc h) (newClient_userAgent dc h)

theorem games_of_non200 (c : Client) (req : HttpRequest) (h : HttpClient)
    (resp : HttpResponse)
    (hreq : c.newRequest (str "GET") (str "games") = .ok (.ok req))
    (hc : c.client = some h) (hdo : h.Do req = .ok resp)
    (hs : resp.StatusCode ≠ 200) :
    c.Games = .ok (none,
      some { StatusCode := resp.StatusCode, Header := resp.Header,
             Body := { data := resp.Body.data, pos := resp.Body.pos, closed := true } },
      some (.status (str "hitbox.tv api responded with http " ++ stringOfInt resp.StatusCode)))
    := by
  unfold Client.Games
  rw [hreq]
  simp only [Client.do, hc, hdo, StatusOK]
  rw [if_pos hs]
  rfl

/-- C2: for every response the transport returns whose status code is not 200, whatever
its body, `Games` returns a nil `GamesResponse`, the response of the transport (same
status code, its body not read and closed) and a non-nil error, the status error. -/
theorem games_non200_is_error (c : Client) (req : HttpRequest) (h : HttpClient)
    (resp : HttpResponse)
    (hreq : c.newRequest (str "GET") (str "games") = .ok (.ok req))
    (hc : c.client = some h) (hdo : h.Do req = .ok resp)
    (hs : resp.StatusCode ≠ 200) :
    c.Games = .ok (none,
      some { StatusCode := resp.StatusCode, Header := resp.Header,
             Body := { data := resp.Body.data, pos := resp.Body.pos, closed := true } },
      some (.status (str "hitbox.tv api responded with http " ++ stringOfInt resp.StatusCode)))
    := by
  exact games_of_non200 c req h resp hreq hc hdo hs

/-- Witness of C2: the statuses 503, 201 and 204, with a body. -/
theorem games_non200_is_error_witness :
    (NewClient (stubClient 503 exampleBody) none).Games = .ok (none,
      some { StatusCode := 503, Header := [],
             Body := { data := exampleBody, pos := 0, closed := true } },
      some (.status (str "hitbox.tv api responded with http " ++ stringOfInt 503))) ∧
    (NewClient (stubClient 201 exampleBody) none).Games = .ok (none,
      some { StatusCode := 201, Header := [],
             Body := { data := exampleBody, pos := 0, closed := true } },
      some (.status (str "hitbox.tv api responded with http " ++ stringOfInt 201))) ∧
    (NewClient (stubClient 204 []) none).Games = .ok (none,
      some { StatusCode := 204, Header := [],
             Body := { data := [], pos := 0, closed := true } },
      some (.status (str "hitbox.tv api responded with http " ++ stringOfInt 204))) :=
  ⟨games_non200_is_error (NewClient (stubClient 503 exampleBody) none) defaultGamesRequest
      (stubClient 503 exampleBody) _ (newClient_newRequest _ _) rfl rfl (by decide),
    games_non200_is_error (NewClient (stubClient 201 exampleBody) none) defaultGamesRequest
      (stubClient 201 exampleBody) _ (newClient_newRequest _ _) rfl rfl (by decide),
    games_non200_is_error (NewClient (stubClient 204 []) none) defaultGamesRequest
      (stubClient 204 []) _ (newClient_newRequest _ _) rfl rfl (by decide)⟩

set_option maxRecDepth 100000 in
theorem stringOfInt_ne_decimal_fin : ∀ n : Fin 500,
    stringOfInt ((100 + n.val : Nat) : Int) ≠ decimal ((100 + n.val : Nat) : Int) := by
  decide

theorem stringOfInt_ne_decimal (s : Int) (hlo : 100 ≤ s) (hhi : s ≤ 599) :
    stringOfInt s ≠ decimal s := by
  have h := stringOfInt_ne_decimal_fin ⟨(s - 100).toNat, by omega⟩
  have e : ((100 + (s - 100).toNat : Nat) : Int) = s := by omega
  simp only [e] at h
  exact h

/-- C10, as the code has it: for every status code `s` in 100..599 other than 200 the
text of the error `Games` returns is `hitbox.tv api responded with http ` followed by the
UTF-8 encoding of the code point `s`, which is what the conversion
`string(resp.StatusCode)` gives, and that text is not the one that ends in the decimal
digits of `s`. -/
theorem games_status_error_text (c : Client) (req : HttpRequest) (h : HttpClient)
    (resp : HttpResponse)
    (hreq : c.newRequest (str "GET") (str "games") = .ok (.ok req))
    (hc : c.client = some h) (hdo : h.Do req = .ok resp)
    (hs : resp.StatusCode ≠ 200) (hlo : 100 ≤ resp.StatusCode) (hhi : resp.StatusCode ≤ 599) :
    c.Games = .ok (none,
      some { StatusCode := resp.StatusCode, Header := resp.Header,
             Body := { data := resp.Body.data, pos := resp.Body.pos, closed := true } },
      some (.status (str "hitbox.tv api responded with http " ++ stringOfInt resp.StatusCode)))
    ∧ str "hitbox.tv api responded with http " ++ stringOfInt resp.StatusCode
      ≠ str "hitbox.tv api responded with http " ++ decimal resp.StatusCode := by
  refine ⟨games_of_non200 c req h resp hreq hc hdo hs, fun he => ?_⟩
  exact stringOfInt_ne_decimal _ hlo hhi (List.append_cancel_left he)

/-- Witness of the behaviour under C10: for the status 503 the text ends in the bytes
C7 B7, the UTF-8 encoding of U+01F7, and not in the digits `503`. -/
theorem games_status_error_text_witness :
    (NewClient (stubClient 503 []) none).Games = .ok (none,
      some { StatusCode := 503, Header := [],
             Body := { data := [], pos := 0, closed := true } },
      some (.status (str "hitbox.tv api responded with http " ++ [0xC7, 0xB7]))) ∧
    str "hitbox.tv api responded with http " ++ [0xC7, 0xB7]
      ≠ str "hitbox.tv api responded with http " ++ str "503" ∧
    stringOfInt 503 = [0xC7, 0xB7] ∧ decimal 503 = str "503" :=
  ⟨(games_status_error_text (NewClient (stubClient 503 []) none) defaultGamesRequest
      (stubClient 503 []) _ (newClient_newRequest _ _) rfl rfl
      (by decide) (by decide) (by decide)).1,
    (games_status_error_text (NewClient (stubClient 503 []) none) defaultGamesRequest
      (stubClient 503 []) _ (newClient_newRequest _ _) rfl rfl
      (by decide) (by decide) (by decide)).2,
    by decide, by decide⟩

/-! ## NewClient -/

/-- C7: `NewClient` is total. Called with no transport it returns a client whose base
URL is `http://api.hitbox.tv/`, whose user agent is `hitbox/0.1` and whose transport is
`http.DefaultClient`; called with a transport it returns a client with the same base URL
and user agent and with that transport. -/
theorem newClient_defaults (dc : HttpClient) :
    (NewClient dc none).BaseURL
        = some { URL.zero with Scheme := str "http", Host := str "api.hitbox.tv",
                               Path := str "/" } ∧
    (NewClient dc none).BaseURL.map URL.String = some (str "http://api.hitbox.tv/") ∧
    (NewClient dc none).UserAgent = str "hitbox/0.1" ∧
    (NewClient dc none).client = some dc ∧
    ∀ h : HttpClient,
      (NewClient dc (some h)).BaseURL = (NewClient dc none).BaseURL ∧
      (NewClient dc (some h)).UserAgent = str "hitbox/0.1" ∧
      (NewClient dc (some h)).client = some h := by
  refine ⟨newClient_baseURL dc none, ?_, newClient_userAgent dc none, rfl,
    fun h => ⟨by rw [newClient_baseURL, newClient_baseURL], newClient_userAgent dc (some h), rfl⟩⟩
  rw [newClient_baseURL]
  decide

/-! ## The response body -/

theorem games_of_200 (c : Client) (req : HttpRequest) (h : HttpClient) (resp : HttpResponse)
    (hreq : c.newRequest (str "GET") (str "games") = .ok (.ok req))
    (hc : c.client = some h) (hdo : h.Do req = .ok resp)
    (hs : resp.StatusCode = 200) :
    c.Games =
      match decode resp.Body GamesResponse.zero with
      | .panic m => .panic m
      | .ok (body, _, some err) => .ok (none, some { resp with Body := body.Close }, some err)
      | .ok (body, g, none) => .ok (some g, some { resp with Body := body.Close }, none) := by
  unfold Client.Games
  rw [hreq]
  simp only [Client.do, hc, hdo, StatusOK]
  rw [if_neg (by simp [hs])]
  cases hd : decode resp.Body GamesResponse.zero with
  | panic m => rfl
  | ok r =>
    obtain ⟨body, g, err⟩ := r
    cases err <;> rfl

theorem decode_body (body : Body) (v : GamesResponse) (b : Body) (g : GamesResponse)
    (e : Option GoError) (h : decode body v = .ok (b, g, e)) :
    b.data = body.data ∧ b.closed = body.closed ∧
    (body.closed = false → ∀ n, readValue (body.data.drop body.pos) = .value n →
      b.pos = body.pos + n) := by
  unfold decode at h
  split at h
  · rename_i hcl
    simp only [Exec.ok.injEq, Prod.mk.injEq] at h
    obtain ⟨rfl, _, _⟩ := h
    exact ⟨rfl, rfl, fun hf => by simp [hf] at hcl⟩
  · simp only at h
    split at h
    · rename_i i msg hr
      simp only [Exec.ok.injEq, Prod.mk.injEq] at h
      obtain ⟨rfl, _, _⟩ := h
      exact ⟨rfl, rfl, fun _ n hn => by rw [hn] at hr; cases hr⟩
    · rename_i u hr
      simp only [Exec.ok.injEq, Prod.mk.injEq] at h
      obtain ⟨rfl, _, _⟩ := h
      exact ⟨rfl, rfl, fun _ n hn => by rw [hn] at hr; cases hr⟩
    · rename_i n hr
      split at h
      · cases h
      · simp only [Exec.ok.injEq, Prod.mk.injEq] at h
        obtain ⟨rfl, _, _⟩ := h
        exact ⟨rfl, rfl, fun _ m hm => by rw [hm] at hr; cases hr; rfl⟩

theorem isDigitByte_digitByte (n : Nat) : isDigitByte (digitByte n) = true := by
  simp [isDigitByte, digitByte_toNat]; omega

theorem parseDigits_append_digit (acc : Nat) (xs : Bytes) (d : Nat) :
    parseDigits acc (xs ++ [digitByte d]) = (parseDigits acc xs).map (fun v => v * 10 + d % 10) := by
  induction xs generalizing acc with
  | nil =>
    simp [parseDigits, isDigitByte_digitByte, digitByte_toNat]
  | cons a t ih =>
    simp only [List.cons_append, parseDigits]
    split
    · exact ih _
    · rfl

theorem parseDigits_decimalDigits (fuel n : Nat) (hf : 1 ≤ fuel) (hn : n < 10 ^ fuel) :
    parseDigits 0 (decimalDigits fuel n) = some n := by
  induction fuel generalizing n with
  | zero => omega
  | succ k ih =>
    unfold decimalDigits
    split
    · rename_i h10
      simp [parseDigits, isDigitByte_digitByte, digitByte_toNat]
      omega
    · rename_i h10
      rw [parseDigits_append_digit]
      have hk : 1 ≤ k := by
        rcases k with _ | k
        · simp at hn; omega
        · omega
      have : n / 10 < 10 ^ k := by
        rw [pow_succ] at hn
        omega
      rw [ih (n / 10) hk this]
      simp
      omega

theorem decimalDigits_head (fuel n : Nat) (hf : 1 ≤ fuel) :
    ∃ c r, decimalDigits fuel n = c :: r ∧ isDigitByte c = true := by
  induction fuel generalizing n with
  | zero => omega
  | succ k ih =>
    unfold decimalDigits
    split
    · exact ⟨_, [], rfl, isDigitByte_digitByte n⟩
    · rcases k with _ | k
      · exact ⟨digitByte n, [], by simp [decimalDigits], isDigitByte_digitByte n⟩
      · obtain ⟨c, r, hc, hd⟩ := ih (n / 10) (by omega)
        exact ⟨c, r ++ [digitByte n], by rw [hc]; rfl, hd⟩

theorem isDigitByte_ne (c b : UInt8) (hc : isDigitByte c = true)
    (hb : b.toNat < 48 ∨ 57 < b.toNat) : c ≠ b := by
  intro h
  subst h
  simp [isDigitByte] at hc
  omega

theorem lt_ten_pow_succ (n : Nat) : n < 10 ^ (n + 1) := by
  have h1 : n < 10 ^ n := Nat.lt_pow_self (by norm_num) n
  have h2 : 10 ^ n ≤ 10 ^ (n + 1) := Nat.pow_le_pow_right (by norm_num) (by omega)
  omega

theorem literalStoreQuotedInt_decimal (cur n : Int) (saved : Option GoError) (hn : isInt64 n) :
    literalStoreQuotedInt cur (decimal n) saved = .done n saved := by
  obtain ⟨hlo, hhi⟩ := hn
  obtain ⟨c, r, hc, hd⟩ := decimalDigits_head (n.natAbs + 1) n.natAbs (by omega)
  have hp := parseDigits_decimalDigits (n.natAbs + 1) n.natAbs (by omega) (lt_ten_pow_succ _)
  have n110 := isDigitByte_ne c 110 hd (by decide)
  have n116 := isDigitByte_ne c 116 hd (by decide)
  have n102 := isDigitByte_ne c 102 hd (by decide)
  have n34 := isDigitByte_ne c 34 hd (by decide)
  have n43 := isDigitByte_ne c 43 hd (by decide)
  have n45 := isDigitByte_ne c 45 hd (by decide)
  unfold decimal
  split
  · rename_i hneg
    have hpi : parseInt (45 :: decimalDigits (n.natAbs + 1) n.natAbs) = some n := by
      unfold parseInt
      simp only [true_or, or_true, if_true, decide_True]
      rw [hc] at hp ⊢
      simp only [hp]
      have hab : (n.natAbs : Int) = -n := by omega
      have hab2 : n.natAbs ≤ 2 ^ 63 := by omega
      simp
      refine ⟨by omega, ?_⟩
      rw [abs_of_neg hneg]
      omega
    unfold literalStoreQuotedInt
    simp [hpi]
  · rename_i hpos
    have hpi : parseInt (decimalDigits (n.natAbs + 1) n.natAbs) = some n := by
      unfold parseInt
      rw [hc] at hp ⊢
      simp only [n43, n45, or_self, if_false, hp]
      simp
      omega
    unfold literalStoreQuotedInt
    rw [hc] at hpi ⊢
    simp [n110, n116, n102, n34, n45, hd, hpi]


theorem unmarshalJSON_wire (t : Timestamp) (y mo d h mi s : Nat)
    (hv : validDateTime y mo d h mi s) :
    Timestamp.UnmarshalJSON t (34 :: (wireText y mo d h mi s ++ [34]))
      = .ok ({ Time := { year := y, month := mo, day := d, hour := h, minute := mi,
                         second := s, nsec := 0, loc := .UTC } }, none) := by
  unfold Timestamp.UnmarshalJSON
  rw [sliceExpr_quoted]
  simp only [timeParse_wireText y mo d h mi s hv]

theorem decodeCategoryMember_describes (cur : Category) (key : Bytes) (v : JValue)
    (saved : Option GoError) (m : CategoryMember) (hm : m.describes key v) :
    decodeCategoryMember cur key v saved = .ok (.done (m.set cur) saved) := by
  cases m with
  | id n =>
    obtain ⟨rfl, hn, raw, rfl⟩ := hm
    have hf : findField categoryFields (str "category_id") = some (str "category_id") := by
      decide
    unfold decodeCategoryMember
    rw [hf]
    simp only []
    rw [if_pos (by decide)]
    simp only [decodeQuotedInt, literalStoreQuotedInt_decimal _ n saved hn, CategoryMember.set,
      Decoded.map]
  | viewers n =>
    obtain ⟨rfl, hn, raw, rfl⟩ := hm
    have hf : findField categoryFields (str "category_viewers")
        = some (str "category_viewers") := by decide
    unfold decodeCategoryMember
    rw [hf]
    simp only []
    rw [if_neg (by decide), if_neg (by decide), if_neg (by decide), if_neg (by decide),
      if_pos (by decide)]
    simp only [decodeQuotedInt, literalStoreQuotedInt_decimal _ n saved hn, CategoryMember.set,
      Decoded.map]
  | name s =>
    obtain ⟨rfl, raw, rfl⟩ := hm
    have hf : findField categoryFields (str "category_name") = some (str "category_name") := by
      decide
    unfold decodeCategoryMember
    rw [hf]
    simp only []
    rw [if_neg (by decide), if_pos (by decide)]
    simp only [decodeString, CategoryMember.set, Decoded.map]
  | nameShort s =>
    obtain ⟨rfl, raw, rfl⟩ := hm
    have hf : findField categoryFields (str "category_name_short")
        = some (str "category_name_short") := by decide
    unfold decodeCategoryMember
    rw [hf]
    simp only []
    rw [if_neg (by decide), if_neg (by decide), if_pos (by decide)]
    simp only [decodeString, CategoryMember.set, Decoded.map]
  | seoKey s =>
    obtain ⟨rfl, raw, rfl⟩ := hm
    have hf : findField categoryFields (str "category_seo_key")
        = some (str "category_seo_key") := by decide
    unfold decodeCategoryMember
    rw [hf]
    simp only []
    rw [if_neg (by decide), if_neg (by decide), if_neg (by decide), if_pos (by decide)]
    simp only [decodeString, CategoryMember.set, Decoded.map]
  | logoSmall s =>
    obtain ⟨rfl, raw, rfl⟩ := hm
    have hf : findField categoryFields (str "category_logo_small")
        = some (str "category_logo_small") := by decide
    unfold decodeCategoryMember
    rw [hf]
    simp only []
    rw [if_neg (by decide), if_neg (by decide), if_neg (by decide), if_neg (by decide),
      if_neg (by decide), if_pos (by decide)]
    simp only [decodeString, CategoryMember.set, Decoded.map]
  | logoLarge s =>
    obtain ⟨rfl, raw, rfl⟩ := hm
    have hf : findField categoryFields (str "category_logo_large")
        = some (str "category_logo_large") := by decide
    unfold decodeCategoryMember
    rw [hf]
    simp only []
    rw [if_neg (by decide), if_neg (by decide), if_neg (by decide), if_neg (by decide),
      if_neg (by decide), if_neg (by decide), if_pos (by decide)]
    simp only [decodeString, CategoryMember.set, Decoded.map]
  | updated y mo d h mi s =>
    obtain ⟨rfl, hv, hraw⟩ := hm
    have hf : findField categoryFields (str "category_updated")
        = some (str "category_updated") := by decide
    unfold decodeCategoryMember
    rw [hf]
    simp only []
    rw [if_neg (by decide), if_neg (by decide), if_neg (by decide), if_neg (by decide),
      if_neg (by decide), if_neg (by decide), if_neg (by decide)]
    simp only [decodeTimestamp, hraw, unmarshalJSON_wire _ y mo d h mi s hv, CategoryMember.set,
      Decoded.map, Exec.map]
  | other =>
    have hf : findField categoryFields key = none := hm
    unfold decodeCategoryMember
    rw [hf]
    rfl

theorem decodeCategoryMembers_describes (members : List (Bytes × JValue))
    (ms : List CategoryMember)
    (h : List.Forall₂ (fun (kv : Bytes × JValue) m => m.describes kv.1 kv.2) members ms)
    (cur : Category) (saved : Option GoError) :
    decodeCategoryMembers cur saved members
      = .ok (.done (ms.foldl CategoryMember.set cur) saved) := by
  induction h generalizing cur with
  | nil => rfl
  | @cons kv m members ms hm _ ih =>
    obtain ⟨key, v⟩ := kv
    simp only [decodeCategoryMembers, decodeCategoryMember_describes cur key v saved m hm,
      List.foldl_cons]
    exact ih _

theorem decodeElems_wellFormed (elems : List JValue) (cats : List (List CategoryMember))
    (h : List.Forall₂ WellFormedCategory elems cats) (saved : Option GoError) :
    decodeElems [] saved elems = .ok (.done (cats.map categoryOf) saved) := by
  induction h with
  | nil => rfl
  | @cons v ms elems cats hv _ ih =>
    obtain ⟨raw, members, rfl, hms⟩ := hv
    simp only [decodeElems, List.headD_nil, decodeCategory,
      decodeCategoryMembers_describes members ms hms, List.tail_nil, ih, List.map_cons,
      categoryOf]

theorem decodeRequestMembers_describes (members : List (Bytes × JValue))
    (rs : List RequestMember)
    (h : List.Forall₂ (fun (kv : Bytes × JValue) r => r.describes kv.1 kv.2) members rs)
    (cur : Request) (saved : Option GoError) :
    decodeRequestMembers cur saved members
      = .done (rs.foldl RequestMember.set cur) saved := by
  induction h generalizing cur with
  | nil => rfl
  | @cons kv r members rs hr _ ih =>
    obtain ⟨key, v⟩ := kv
    have : decodeRequestMember cur key v saved = .done (r.set cur) saved := by
      cases r with
      | this s =>
        obtain ⟨rfl, raw, rfl⟩ := hr
        have hf : findField requestFields (str "this") = some (str "this") := by decide
        simp only [decodeRequestMember, hf, decodeString, RequestMember.set, Decoded.map]
      | other =>
        have hf : findField requestFields key = none := hr
        simp only [decodeRequestMember, hf, RequestMember.set]
    simp only [decodeRequestMembers, this, List.foldl_cons]
    exact ih _

theorem decodeTopMembers_describes (members : List (Bytes × JValue)) (ts : List TopMember)
    (h : List.Forall₂ (fun (kv : Bytes × JValue) t => t.describes kv.1 kv.2) members ts)
    (cur : GamesResponse) (saved : Option GoError) :
    decodeGamesResponseMembers cur saved members
      = .ok (.done { cur with Request := ts.foldl TopMember.set cur.Request } saved) := by
  induction h generalizing cur with
  | nil => rfl
  | @cons kv t members ts ht _ ih =>
    obtain ⟨key, v⟩ := kv
    have : decodeGamesResponseMember cur key v saved
        = .ok (.done { cur with Request := t.set cur.Request } saved) := by
      cases t with
      | request rs =>
        obtain ⟨rfl, raw, rms, rfl, hrs⟩ := ht
        have hf : findField gamesResponseFields (str "request") = some (str "request") := by
          decide
        unfold decodeGamesResponseMember
        rw [hf]
        simp only []
        rw [if_pos (by decide)]
        simp only [decodeRequest, decodeRequestMembers_describes rms rs hrs, TopMember.set,
          Decoded.map]
      | other =>
        have hf : findField gamesResponseFields key = none := ht
        unfold decodeGamesResponseMember
        rw [hf]
        rfl
    simp only [decodeGamesResponseMembers, this, List.foldl_cons]
    rw [ih]


theorem decodeGamesResponseMembers_append (pre rest : List (Bytes × JValue))
    (cur cur1 : GamesResponse) (saved sv : Option GoError)
    (h : decodeGamesResponseMembers cur saved pre = .ok (.done cur1 sv)) :
    decodeGamesResponseMembers cur saved (pre ++ rest)
      = decodeGamesResponseMembers cur1 sv rest := by
  induction pre generalizing cur saved with
  | nil =>
    simp only [decodeGamesResponseMembers, Exec.ok.injEq, Decoded.done.injEq] at h
    obtain ⟨rfl, rfl⟩ := h
    rfl
  | cons kv pre ih =>
    obtain ⟨key, v⟩ := kv
    simp only [List.cons_append, decodeGamesResponseMembers] at h ⊢
    cases hm : decodeGamesResponseMember cur key v saved with
    | panic m => rw [hm] at h; cases h
    | ok r =>
      cases r with
      | abort c e => rw [hm] at h; cases h
      | done c s1 =>
        rw [hm] at h
        exact ih _ _ h

theorem decodeCategories_wellFormed (rawArr : Bytes) (elems : List JValue)
    (cats : List (List CategoryMember)) (h : List.Forall₂ WellFormedCategory elems cats)
    (saved : Option GoError) :
    decodeCategories { isNil := true, elems := [], spare := [] } (.arr rawArr elems) saved
      = .ok (.done { isNil := false, elems := cats.map categoryOf, spare := [] } saved) := by
  simp only [decodeCategories, List.append_nil, decodeElems_wellFormed elems cats h,
    List.drop_nil]
  split
  · rename_i h0
    have : elems = [] := List.length_eq_zero.mp h0
    subst this
    cases h
    rfl
  · rfl

/-- The `GamesResponse` of a well-formed body: the request of the `request` members and
the categories of the array, in its order. -/
theorem decodeGamesResponse_wellFormed (rawTop rawArr : Bytes)
    (pre post : List (Bytes × JValue)) (elems : List JValue)
    (preS postS : List TopMember) (cats : List (List CategoryMember))
    (hpre : List.Forall₂ (fun (kv : Bytes × JValue) t => t.describes kv.1 kv.2) pre preS)
    (hpost : List.Forall₂ (fun (kv : Bytes × JValue) t => t.describes kv.1 kv.2) post postS)
    (hel : List.Forall₂ WellFormedCategory elems cats) :
    decodeGamesResponse GamesResponse.zero
        (.obj rawTop (pre ++ (str "categories", .arr rawArr elems) :: post)) none
      = .ok (.done { Request := (preS ++ postS).foldl TopMember.set Request.zero,
                     Categories := { isNil := false, elems := cats.map categoryOf,
                                     spare := [] } } none) := by
  have hf : findField gamesResponseFields (str "categories") = some (str "categories") := by
    decide
  simp only [decodeGamesResponse]
  rw [decodeGamesResponseMembers_append pre _ _ _ _ _
    (decodeTopMembers_describes pre preS hpre GamesResponse.zero none)]
  simp only [decodeGamesResponseMembers]
  unfold decodeGamesResponseMember
  rw [hf]
  simp only []
  rw [if_neg (by decide)]
  simp only [GamesResponse.zero, decodeCategories_wellFormed rawArr elems cats hel, Exec.map,
    Decoded.map]
  rw [decodeTopMembers_describes post postS hpost]
  simp only [List.foldl_append]

theorem timeParse_error_kind (v : Bytes) (e : GoError) (h : timeParse v = .error e) :
    ∃ detail, e = .timeParse detail := by
  unfold timeParse at h
  repeat' split at h
  all_goals first
    | (cases h; exact ⟨_, rfl⟩)
    | cases h

theorem unmarshalJSON_panics_short (t : Timestamp) (data : Bytes) (h : data.length < 2) :
    Timestamp.UnmarshalJSON t data = .panic "runtime error: slice bounds out of range" := by
  unfold Timestamp.UnmarshalJSON sliceExpr
  rw [if_neg (by omega)]

theorem carries_done_same {α : Type} (val : α) (saved : Option GoError) (hs : SavedOk saved) :
    (Decoded.done val saved).carries saved := ⟨hs, id⟩

theorem carries_done_saveError {α : Type} (val : α) (saved : Option GoError) (e : GoError)
    (hs : SavedOk saved) (he : e.isDecodeError = true) :
    (Decoded.done val (saveError saved e)).carries saved := by
  cases saved with
  | none => exact ⟨fun e0 h0 => by cases h0; exact he, fun _ => rfl⟩
  | some e0 => exact ⟨hs, id⟩

theorem carries_failed {α : Type} (d : Decoded α) (saved : Option GoError)
    (hc : d.carries saved) (hs : saved.isSome = true) : d.failed = true := by
  cases d with
  | abort val e => exact hc
  | done val sv =>
    obtain ⟨h1, h2⟩ := hc
    cases sv with
    | none => have := h2 hs; cases this
    | some e => exact h1 e rfl

theorem carries_savedOk {α : Type} (val : α) (saved sv : Option GoError)
    (hc : (Decoded.done val sv).carries saved) : SavedOk sv := hc.1

theorem carries_trans {α β : Type} (saved sv : Option GoError) (val : α) (d : Decoded β)
    (h1 : (Decoded.done val sv).carries saved) (h2 : d.carries sv) : d.carries saved := by
  cases d with
  | abort v e => exact h2
  | done v sv2 => exact ⟨h2.1, fun hs => h2.2 (h1.2 hs)⟩

theorem saveError_failed {α : Type} (val : α) (saved : Option GoError) (e : GoError)
    (hs : SavedOk saved) (he : e.isDecodeError = true) :
    (Decoded.done val (saveError saved e)).failed = true := by
  cases saved with
  | none => exact he
  | some e0 => exact hs e0 rfl

theorem decodeString_carries (cur : Bytes) (v : JValue) (saved : Option GoError)
    (hs : SavedOk saved) : (decodeString cur v saved).carries saved := by
  cases v <;> first
    | exact carries_done_same _ _ hs
    | exact carries_done_saveError _ _ _ hs rfl

theorem literalStoreQuotedInt_carries (cur : Int) (item : Bytes) (saved : Option GoError)
    (hs : SavedOk saved) : (literalStoreQuotedInt cur item saved).carries saved := by
  unfold literalStoreQuotedInt
  repeat' split
  all_goals first
    | exact carries_done_same _ _ hs
    | exact carries_done_saveError _ _ _ hs rfl
    | exact (rfl : GoError.isDecodeError stringTagError = true)

theorem decodeQuotedInt_carries (cur : Int) (v : JValue) (saved : Option GoError)
    (hs : SavedOk saved) : (decodeQuotedInt cur v saved).carries saved := by
  cases v <;> first
    | exact literalStoreQuotedInt_carries _ _ _ hs
    | exact carries_done_same _ _ hs
    | exact carries_done_saveError _ _ _ hs rfl

theorem literalStoreQuotedInt_bad (cur : Int) (item : Bytes) (saved : Option GoError)
    (hs : SavedOk saved) (h1 : item ≠ str "null") (h2 : parseInt item = none) :
    (literalStoreQuotedInt cur item saved).failed = true := by
  unfold literalStoreQuotedInt
  repeat' split
  all_goals first
    | exact saveError_failed _ _ _ hs rfl
    | exact (rfl : GoError.isDecodeError stringTagError = true)
    | (exfalso; simp_all)

theorem decodeQuotedInt_bad (cur : Int) (v : JValue) (saved : Option GoError)
    (hs : SavedOk saved) (hb : BadInt v) : (decodeQuotedInt cur v saved).failed = true := by
  cases v with
  | string raw val => exact literalStoreQuotedInt_bad _ _ _ hs hb.1 hb.2
  | null raw => exact absurd hb (by simp [BadInt])
  | bool raw => exact saveError_failed _ _ _ hs rfl
  | number raw => exact saveError_failed _ _ _ hs rfl
  | arr raw es => exact saveError_failed _ _ _ hs rfl
  | obj raw ms => exact saveError_failed _ _ _ hs rfl

theorem unmarshalJSON_of_len (t : Timestamp) (data : Bytes) (hlen : 2 ≤ data.length) :
    Timestamp.UnmarshalJSON t data =
      match timeParse ((data.drop 1).dropLast) with
      | .ok tm => .ok ({ Time := tm }, none)
      | .error e => .ok ({ Time := Time.zero }, some e) := by
  unfold Timestamp.UnmarshalJSON
  simp only [sliceExpr_inner _ hlen]

theorem decodeTimestamp_returns (cur : Timestamp) (v : JValue) (saved : Option GoError)
    (hlen : 2 ≤ v.raw.length) : ∃ d, decodeTimestamp cur v saved = .ok d := by
  unfold decodeTimestamp
  rw [unmarshalJSON_of_len _ _ hlen]
  cases timeParse ((v.raw.drop 1).dropLast) with
  | ok tm => exact ⟨_, rfl⟩
  | error e => exact ⟨_, rfl⟩

theorem decodeTimestamp_carries (cur : Timestamp) (v : JValue) (saved : Option GoError)
    (hs : SavedOk saved) (d : Decoded Timestamp) (h : decodeTimestamp cur v saved = .ok d) :
    d.carries saved := by
  unfold decodeTimestamp at h
  by_cases hlen : 2 ≤ v.raw.length
  · rw [unmarshalJSON_of_len _ _ hlen] at h
    cases hp : timeParse ((v.raw.drop 1).dropLast) with
    | ok tm =>
      rw [hp] at h
      simp only [Exec.ok.injEq] at h
      subst h
      exact carries_done_same _ _ hs
    | error e =>
      rw [hp] at h
      simp only [Exec.ok.injEq] at h
      subst h
      obtain ⟨detail, rfl⟩ := timeParse_error_kind _ _ hp
      rfl
  · rw [unmarshalJSON_panics_short _ _ (by omega)] at h
    cases h

theorem decodeTimestamp_bad (cur : Timestamp) (v : JValue) (saved : Option GoError)
    (hlen : 2 ≤ v.raw.length) (hbad : ¬ AcceptedText ((v.raw.drop 1).dropLast)) :
    ∃ t e, decodeTimestamp cur v saved = .ok (.abort t e) ∧ e.isDecodeError = true := by
  unfold decodeTimestamp
  rw [unmarshalJSON_of_len _ _ hlen]
  cases hp : timeParse ((v.raw.drop 1).dropLast) with
  | ok tm => exact absurd (timeParse_ok_inv _ tm hp) hbad
  | error e =>
    obtain ⟨detail, rfl⟩ := timeParse_error_kind _ _ hp
    exact ⟨_, _, rfl, rfl⟩


theorem carries_map {α β : Type} (f : α → β) (d : Decoded α) (saved : Option GoError)
    (h : d.carries saved) : (d.map f).carries saved := by
  cases d <;> exact h

theorem failed_map {α β : Type} (f : α → β) (d : Decoded α) :
    (d.map f).failed = d.failed := by
  cases d with
  | abort v e => rfl
  | done v sv => cases sv <;> rfl

theorem findField_mem (names : List Bytes) (key name : Bytes)
    (h : findField names key = some name) : name ∈ names := by
  unfold findField at h
  split at h
  · rename_i hc
    simp only [Option.some.injEq] at h
    subst h
    simpa using hc
  · exact List.mem_of_find?_eq_some h

theorem categoryField_cases (key name : Bytes) (h : findField categoryFields key = some name) :
    name = str "category_id" ∨ name = str "category_name" ∨ name = str "category_name_short" ∨
    name = str "category_seo_key" ∨ name = str "category_viewers" ∨
    name = str "category_logo_small" ∨ name = str "category_logo_large" ∨
    name = str "category_updated" := by
  have := findField_mem _ _ _ h
  simpa [categoryFields] using this

theorem decodeCategoryMember_returns (cur : Category) (key : Bytes) (v : JValue)
    (saved : Option GoError) (hlen : isTimeKey key → 2 ≤ v.raw.length) :
    ∃ d, decodeCategoryMember cur key v saved = .ok d := by
  unfold decodeCategoryMember
  cases hf : findField categoryFields key with
  | none => exact ⟨_, rfl⟩
  | some name =>
    simp only []
    rcases categoryField_cases key name hf with h | h | h | h | h | h | h | h <;> subst h
    · exact ⟨_, rfl⟩
    · exact ⟨_, rfl⟩
    · exact ⟨_, rfl⟩
    · exact ⟨_, rfl⟩
    · exact ⟨_, rfl⟩
    · exact ⟨_, rfl⟩
    · exact ⟨_, rfl⟩
    · obtain ⟨d, hd⟩ := decodeTimestamp_returns cur.CategoryUpdated v saved (hlen hf)
      rw [if_neg (by decide), if_neg (by decide), if_neg (by decide), if_neg (by decide),
        if_neg (by decide), if_neg (by decide), if_neg (by decide), hd]
      exact ⟨_, rfl⟩

theorem decodeCategoryMember_carries (cur : Category) (key : Bytes) (v : JValue)
    (saved : Option GoError) (hs : SavedOk saved) (d : Decoded Category)
    (h : decodeCategoryMember cur key v saved = .ok d) : d.carries saved := by
  unfold decodeCategoryMember at h
  cases hf : findField categoryFields key with
  | none =>
    rw [hf] at h
    simp only [Exec.ok.injEq] at h
    subst h
    exact carries_done_same _ _ hs
  | some name =>
    rw [hf] at h
    simp only [] at h
    repeat' split at h
    all_goals first
      | (simp only [Exec.ok.injEq] at h
         subst h
         first
          | exact carries_map _ _ _ (decodeQuotedInt_carries _ _ _ hs)
          | exact carries_map _ _ _ (decodeString_carries _ _ _ hs))
      | skip
    cases hd : decodeTimestamp cur.CategoryUpdated v saved with
    | panic m => rw [hd] at h; cases h
    | ok d0 =>
      rw [hd] at h
      simp only [Exec.map, Exec.ok.injEq] at h
      subst h
      exact carries_map _ _ _ (decodeTimestamp_carries _ _ _ hs _ hd)

theorem decodeCategoryMember_bad (cur : Category) (key : Bytes) (v : JValue)
    (saved : Option GoError) (hs : SavedOk saved) (hbad : BadMember key v)
    (d : Decoded Category)
    (h : decodeCategoryMember cur key v saved = .ok d) : d.failed = true := by
  unfold decodeCategoryMember at h
  rcases hbad with ⟨hk, hb⟩ | ⟨hk, hb⟩
  · rcases hk with hk | hk
    · rw [hk] at h
      simp only [] at h
      rw [if_pos (by decide)] at h
      simp only [Exec.ok.injEq] at h
      subst h
      rw [failed_map]
      exact decodeQuotedInt_bad _ _ _ hs hb
    · rw [hk] at h
      simp only [] at h
      rw [if_neg (by decide), if_neg (by decide), if_neg (by decide), if_neg (by decide),
        if_pos (by decide)] at h
      simp only [Exec.ok.injEq] at h
      subst h
      rw [failed_map]
      exact decodeQuotedInt_bad _ _ _ hs hb
  · have hk' : findField categoryFields key = some (str "category_updated") := hk
    rw [hk'] at h
    simp only [] at h
    rw [if_neg (by decide), if_neg (by decide), if_neg (by decide), if_neg (by decide),
      if_neg (by decide), if_neg (by decide), if_neg (by decide)] at h
    by_cases hlen : 2 ≤ v.raw.length
    · obtain ⟨t, e, hd, he⟩ := decodeTimestamp_bad cur.CategoryUpdated v saved hlen hb
      rw [hd] at h
      simp only [Exec.map, Exec.ok.injEq] at h
      subst h
      exact he
    · simp only [decodeTimestamp, unmarshalJSON_panics_short _ _ (not_le.mp hlen), Exec.map] at h
      cases h


theorem decodeCategoryMembers_returns (cms : List (Bytes × JValue)) (cur : Category)
    (saved : Option GoError) (hlen : ∀ kv ∈ cms, isTimeKey kv.1 → 2 ≤ kv.2.raw.length) :
    ∃ d, decodeCategoryMembers cur saved cms = .ok d := by
  induction cms generalizing cur saved with
  | nil => exact ⟨_, rfl⟩
  | cons kv rest ih =>
    obtain ⟨key, v⟩ := kv
    obtain ⟨d, hd⟩ := decodeCategoryMember_returns cur key v saved
      (hlen (key, v) (List.mem_cons_self _ _))
    simp only [decodeCategoryMembers, hd]
    cases d with
    | abort c e => exact ⟨_, rfl⟩
    | done c sv => exact ih c sv (fun kv hkv => hlen kv (List.mem_cons_of_mem _ hkv))

theorem decodeCategoryMembers_carries (cms : List (Bytes × JValue)) (cur : Category)
    (saved : Option GoError) (hs : SavedOk saved) (d : Decoded Category)
    (h : decodeCategoryMembers cur saved cms = .ok d) : d.carries saved := by
  induction cms generalizing cur saved with
  | nil =>
    simp only [decodeCategoryMembers, Exec.ok.injEq] at h
    subst h
    exact carries_done_same _ _ hs
  | cons kv rest ih =>
    obtain ⟨key, v⟩ := kv
    simp only [decodeCategoryMembers] at h
    cases hm : decodeCategoryMember cur key v saved with
    | panic m => rw [hm] at h; cases h
    | ok d0 =>
      have hc := decodeCategoryMember_carries cur key v saved hs d0 hm
      rw [hm] at h
      cases d0 with
      | abort c e =>
        simp only [Exec.ok.injEq] at h
        subst h
        exact hc
      | done c sv =>
        simp only [] at h
        exact carries_trans saved sv c d hc (ih c sv hc.1 h)

theorem decodeCategoryMembers_bad (cms : List (Bytes × JValue)) (cur : Category)
    (saved : Option GoError) (hs : SavedOk saved)
    (hbad : ∃ kv ∈ cms, BadMember kv.1 kv.2) (d : Decoded Category)
    (h : decodeCategoryMembers cur saved cms = .ok d) : d.failed = true := by
  induction cms generalizing cur saved with
  | nil => obtain ⟨kv, hkv, _⟩ := hbad; cases hkv
  | cons kv rest ih =>
    obtain ⟨key, v⟩ := kv
    simp only [decodeCategoryMembers] at h
    cases hm : decodeCategoryMember cur key v saved with
    | panic m => rw [hm] at h; cases h
    | ok d0 =>
      have hc := decodeCategoryMember_carries cur key v saved hs d0 hm
      rw [hm] at h
      cases d0 with
      | abort c e =>
        simp only [Exec.ok.injEq] at h
        subst h
        exact hc
      | done c sv =>
        simp only [] at h
        obtain ⟨kv, hkv, hb⟩ := hbad
        rcases List.mem_cons.mp hkv with rfl | hrest
        · have hf := decodeCategoryMember_bad cur key v saved hs hb _ hm
          have hsv : sv.isSome = true := by
            cases sv with
            | none => cases hf
            | some e => rfl
          exact carries_failed d sv (decodeCategoryMembers_carries rest c sv hc.1 d h) hsv
        · exact ih c sv hc.1 ⟨kv, hrest, hb⟩ h


theorem decodeCategory_returns (cur : Category) (v : JValue) (saved : Option GoError)
    (hlen : ∀ kv ∈ objectMembers v, isTimeKey kv.1 → 2 ≤ kv.2.raw.length) :
    ∃ d, decodeCategory cur v saved = .ok d := by
  cases v with
  | obj raw ms => exact decodeCategoryMembers_returns ms cur saved hlen
  | null raw => exact ⟨_, rfl⟩
  | bool raw => exact ⟨_, rfl⟩
  | number raw => exact ⟨_, rfl⟩
  | string raw val => exact ⟨_, rfl⟩
  | arr raw es => exact ⟨_, rfl⟩

theorem decodeCategory_carries (cur : Category) (v : JValue) (saved : Option GoError)
    (hs : SavedOk saved) (d : Decoded Category) (h : decodeCategory cur v saved = .ok d) :
    d.carries saved := by
  cases v with
  | obj raw ms => exact decodeCategoryMembers_carries ms cur saved hs d h
  | null raw =>
    simp only [decodeCategory, Exec.ok.injEq] at h; subst h; exact carries_done_same _ _ hs
  | bool raw =>
    simp only [decodeCategory, Exec.ok.injEq] at h; subst h
    exact carries_done_saveError _ _ _ hs rfl
  | number raw =>
    simp only [decodeCategory, Exec.ok.injEq] at h; subst h
    exact carries_done_saveError _ _ _ hs rfl
  | string raw val =>
    simp only [decodeCategory, Exec.ok.injEq] at h; subst h
    exact carries_done_saveError _ _ _ hs rfl
  | arr raw es =>
    simp only [decodeCategory, Exec.ok.injEq] at h; subst h
    exact carries_done_saveError _ _ _ hs rfl

theorem decodeCategory_bad (cur : Category) (v : JValue) (saved : Option GoError)
    (hs : SavedOk saved) (hbad : ∃ kv ∈ objectMembers v, BadMember kv.1 kv.2)
    (d : Decoded Category) (h : decodeCategory cur v saved = .ok d) : d.failed = true := by
  cases v with
  | obj raw ms => exact decodeCategoryMembers_bad ms cur saved hs hbad d h
  | null raw => obtain ⟨kv, hkv, _⟩ := hbad; cases hkv
  | bool raw => obtain ⟨kv, hkv, _⟩ := hbad; cases hkv
  | number raw => obtain ⟨kv, hkv, _⟩ := hbad; cases hkv
  | string raw val => obtain ⟨kv, hkv, _⟩ := hbad; cases hkv
  | arr raw es => obtain ⟨kv, hkv, _⟩ := hbad; cases hkv

theorem decodeElems_returns (es : List JValue) (backing : List Category)
    (saved : Option GoError)
    (hlen : ∀ kv ∈ es.flatMap objectMembers, isTimeKey kv.1 → 2 ≤ kv.2.raw.length) :
    ∃ d, decodeElems backing saved es = .ok d := by
  induction es generalizing backing saved with
  | nil => exact ⟨_, rfl⟩
  | cons v rest ih =>
    simp only [List.flatMap_cons, List.mem_append] at hlen
    obtain ⟨d, hd⟩ := decodeCategory_returns (backing.headD Category.zero) v saved
      (fun kv hkv => hlen kv (Or.inl hkv))
    simp only [decodeElems, hd]
    cases d with
    | abort c e => exact ⟨_, rfl⟩
    | done c sv =>
      obtain ⟨d1, hd1⟩ := ih backing.tail sv (fun kv hkv => hlen kv (Or.inr hkv))
      simp only [hd1]
      cases d1 with
      | abort cs e => exact ⟨_, rfl⟩
      | done cs sv1 => exact ⟨_, rfl⟩

theorem decodeElems_carries (es : List JValue) (backing : List Category)
    (saved : Option GoError) (hs : SavedOk saved) (d : Decoded (List Category))
    (h : decodeElems backing saved es = .ok d) : d.carries saved := by
  induction es generalizing backing saved d with
  | nil =>
    simp only [decodeElems, Exec.ok.injEq] at h
    subst h
    exact carries_done_same _ _ hs
  | cons v rest ih =>
    simp only [decodeElems] at h
    cases hm : decodeCategory (backing.headD Category.zero) v saved with
    | panic m => rw [hm] at h; cases h
    | ok d0 =>
      have hc := decodeCategory_carries _ v saved hs d0 hm
      rw [hm] at h
      cases d0 with
      | abort c e =>
        simp only [Exec.ok.injEq] at h
        subst h
        exact hc
      | done c sv =>
        simp only [] at h
        cases hr : decodeElems backing.tail sv rest with
        | panic m => rw [hr] at h; cases h
        | ok d1 =>
          have hc1 := ih backing.tail sv hc.1 d1 hr
          rw [hr] at h
          cases d1 with
          | abort cs e =>
            simp only [Exec.ok.injEq] at h
            subst h
            exact hc1
          | done cs sv1 =>
            simp only [Exec.ok.injEq] at h
            subst h
            exact ⟨hc1.1, fun hsome => hc1.2 (hc.2 hsome)⟩

theorem decodeElems_bad (es : List JValue) (backing : List Category)
    (saved : Option GoError) (hs : SavedOk saved)
    (hbad : ∃ kv ∈ es.flatMap objectMembers, BadMember kv.1 kv.2)
    (d : Decoded (List Category))
    (h : decodeElems backing saved es = .ok d) : d.failed = true := by
  induction es generalizing backing saved d with
  | nil => obtain ⟨kv, hkv, _⟩ := hbad; cases hkv
  | cons v rest ih =>
    simp only [decodeElems] at h
    cases hm : decodeCategory (backing.headD Category.zero) v saved with
    | panic m => rw [hm] at h; cases h
    | ok d0 =>
      have hc := decodeCategory_carries _ v saved hs d0 hm
      rw [hm] at h
      cases d0 with
      | abort c e =>
        simp only [Exec.ok.injEq] at h
        subst h
        exact hc
      | done c sv =>
        simp only [] at h
        cases hr : decodeElems backing.tail sv rest with
        | panic m => rw [hr] at h; cases h
        | ok d1 =>
          have hc1 := decodeElems_carries rest backing.tail sv hc.1 d1 hr
          have hd1 : d1.failed = true := by
            obtain ⟨kv, hkv, hb⟩ := hbad
            simp only [List.flatMap_cons, List.mem_append] at hkv
            rcases hkv with hhead | hrest
            · have hf := decodeCategory_bad _ v saved hs ⟨kv, hhead, hb⟩ _ hm
              have hsv : sv.isSome = true := by
                cases sv with
                | none => cases hf
                | some e => rfl
              exact carries_failed d1 sv hc1 hsv
            · exact ih backing.tail sv hc.1 ⟨kv, hrest, hb⟩ d1 hr
          rw [hr] at h
          cases d1 with
          | abort cs e =>
            simp only [Exec.ok.injEq] at h
            subst h
            exact hd1
          | done cs sv1 =>
            simp only [Exec.ok.injEq] at h
            subst h
            cases sv1 <;> exact hd1


theorem decodeCategories_returns (cur : CategorySlice) (v : JValue) (saved : Option GoError)
    (hlen : ∀ kv ∈ arrayMembers v, isTimeKey kv.1 → 2 ≤ kv.2.raw.length) :
    ∃ d, decodeCategories cur v saved = .ok d := by
  cases v with
  | arr raw es =>
    obtain ⟨d, hd⟩ := decodeElems_returns es (cur.elems ++ cur.spare) saved hlen
    simp only [decodeCategories, hd]
    cases d with
    | abort cs e => exact ⟨_, rfl⟩
    | done cs sv =>
      simp only []
      split <;> exact ⟨_, rfl⟩
  | null raw => exact ⟨_, rfl⟩
  | bool raw => exact ⟨_, rfl⟩
  | number raw => exact ⟨_, rfl⟩
  | string raw val => exact ⟨_, rfl⟩
  | obj raw ms => exact ⟨_, rfl⟩

theorem decodeCategories_carries (cur : CategorySlice) (v : JValue) (saved : Option GoError)
    (hs : SavedOk saved) (d : Decoded CategorySlice)
    (h : decodeCategories cur v saved = .ok d) : d.carries saved := by
  cases v with
  | arr raw es =>
    simp only [decodeCategories] at h
    cases hr : decodeElems (cur.elems ++ cur.spare) saved es with
    | panic m => rw [hr] at h; cases h
    | ok d1 =>
      have hc1 := decodeElems_carries es _ saved hs d1 hr
      rw [hr] at h
      cases d1 with
      | abort cs e =>
        simp only [Exec.ok.injEq] at h
        subst h
        exact hc1
      | done cs sv =>
        simp only [] at h
        split at h <;>
          (simp only [Exec.ok.injEq] at h
           subst h
           exact hc1)
  | null raw =>
    simp only [decodeCategories, Exec.ok.injEq] at h; subst h; exact carries_done_same _ _ hs
  | bool raw =>
    simp only [decodeCategories, Exec.ok.injEq] at h; subst h
    exact carries_done_saveError _ _ _ hs rfl
  | number raw =>
    simp only [decodeCategories, Exec.ok.injEq] at h; subst h
    exact carries_done_saveError _ _ _ hs rfl
  | string raw val =>
    simp only [decodeCategories, Exec.ok.injEq] at h; subst h
    exact carries_done_saveError _ _ _ hs rfl
  | obj raw ms =>
    simp only [decodeCategories, Exec.ok.injEq] at h; subst h
    exact carries_done_saveError _ _ _ hs rfl

theorem decodeCategories_bad (cur : CategorySlice) (v : JValue) (saved : Option GoError)
    (hs : SavedOk saved) (hbad : ∃ kv ∈ arrayMembers v, BadMember kv.1 kv.2)
    (d : Decoded CategorySlice)
    (h : decodeCategories cur v saved = .ok d) : d.failed = true := by
  cases v with
  | arr raw es =>
    simp only [decodeCategories] at h
    cases hr : decodeElems (cur.elems ++ cur.spare) saved es with
    | panic m => rw [hr] at h; cases h
    | ok d1 =>
      have hf1 := decodeElems_bad es _ saved hs hbad d1 hr
      rw [hr] at h
      cases d1 with
      | abort cs e =>
        simp only [Exec.ok.injEq] at h
        subst h
        exact hf1
      | done cs sv =>
        simp only [] at h
        split at h <;>
          (simp only [Exec.ok.injEq] at h
           subst h
           cases sv <;> exact hf1)
  | null raw => obtain ⟨kv, hkv, _⟩ := hbad; cases hkv
  | bool raw => obtain ⟨kv, hkv, _⟩ := hbad; cases hkv
  | number raw => obtain ⟨kv, hkv, _⟩ := hbad; cases hkv
  | string raw val => obtain ⟨kv, hkv, _⟩ := hbad; cases hkv
  | obj raw ms => obtain ⟨kv, hkv, _⟩ := hbad; cases hkv

theorem decodeRequestMembers_carries (ms : List (Bytes × JValue)) (cur : Request)
    (saved : Option GoError) (hs : SavedOk saved) :
    (decodeRequestMembers cur saved ms).carries saved := by
  induction ms generalizing cur saved with
  | nil => exact carries_done_same _ _ hs
  | cons kv rest ih =>
    obtain ⟨key, v⟩ := kv
    have hm : (decodeRequestMember cur key v saved).carries saved := by
      unfold decodeRequestMember
      split
      · exact carries_done_same _ _ hs
      · exact carries_map _ _ _ (decodeString_carries _ _ _ hs)
    simp only [decodeRequestMembers]
    cases hd : decodeRequestMember cur key v saved with
    | abort c e => rw [hd] at hm; exact hm
    | done c sv =>
      rw [hd] at hm
      exact carries_trans saved sv c _ hm (ih c sv hm.1)

theorem decodeRequest_carries (cur : Request) (v : JValue) (saved : Option GoError)
    (hs : SavedOk saved) : (decodeRequest cur v saved).carries saved := by
  cases v with
  | obj raw ms => exact decodeRequestMembers_carries ms cur saved hs
  | null raw => exact carries_done_same _ _ hs
  | bool raw => exact carries_done_saveError _ _ _ hs rfl
  | number raw => exact carries_done_saveError _ _ _ hs rfl
  | string raw val => exact carries_done_saveError _ _ _ hs rfl
  | arr raw es => exact carries_done_saveError _ _ _ hs rfl

theorem topField_cases (key name : Bytes) (h : findField gamesResponseFields key = some name) :
    name = str "request" ∨ name = str "categories" := by
  have := findField_mem _ _ _ h
  simpa [gamesResponseFields] using this

theorem decodeGamesResponseMember_returns (cur : GamesResponse) (key : Bytes) (v : JValue)
    (saved : Option GoError)
    (hlen : ∀ kv ∈ memberCategoryMembers (key, v), isTimeKey kv.1 → 2 ≤ kv.2.raw.length) :
    ∃ d, decodeGamesResponseMember cur key v saved = .ok d := by
  unfold decodeGamesResponseMember
  cases hf : findField gamesResponseFields key with
  | none => exact ⟨_, rfl⟩
  | some name =>
    simp only []
    rcases topField_cases key name hf with h | h <;> subst h
    · exact ⟨_, rfl⟩
    · rw [if_neg (by decide)]
      simp only [memberCategoryMembers, hf, if_true] at hlen
      obtain ⟨d, hd⟩ := decodeCategories_returns cur.Categories v saved hlen
      rw [hd]
      exact ⟨_, rfl⟩

theorem decodeGamesResponseMember_carries (cur : GamesResponse) (key : Bytes) (v : JValue)
    (saved : Option GoError) (hs : SavedOk saved) (d : Decoded GamesResponse)
    (h : decodeGamesResponseMember cur key v saved = .ok d) : d.carries saved := by
  unfold decodeGamesResponseMember at h
  cases hf : findField gamesResponseFields key with
  | none =>
    rw [hf] at h
    simp only [Exec.ok.injEq] at h
    subst h
    exact carries_done_same _ _ hs
  | some name =>
    rw [hf] at h
    simp only [] at h
    split at h
    · simp only [Exec.ok.injEq] at h
      subst h
      exact carries_map _ _ _ (decodeRequest_carries _ _ _ hs)
    · cases hd : decodeCategories cur.Categories v saved with
      | panic m => rw [hd] at h; cases h
      | ok d0 =>
        rw [hd] at h
        simp only [Exec.map, Exec.ok.injEq] at h
        subst h
        exact carries_map _ _ _ (decodeCategories_carries _ _ _ hs _ hd)

theorem decodeGamesResponseMember_bad (cur : GamesResponse) (key : Bytes) (v : JValue)
    (saved : Option GoError) (hs : SavedOk saved)
    (hbad : ∃ kv ∈ memberCategoryMembers (key, v), BadMember kv.1 kv.2)
    (d : Decoded GamesResponse)
    (h : decodeGamesResponseMember cur key v saved = .ok d) : d.failed = true := by
  unfold decodeGamesResponseMember at h
  obtain ⟨kv, hkv, hb⟩ := hbad
  unfold memberCategoryMembers at hkv
  split at hkv
  · rename_i hf
    simp only [] at hf
    rw [hf] at h
    simp only [] at h
    rw [if_neg (by decide)] at h
    cases hd : decodeCategories cur.Categories v saved with
    | panic m => rw [hd] at h; cases h
    | ok d0 =>
      rw [hd] at h
      simp only [Exec.map, Exec.ok.injEq] at h
      subst h
      rw [failed_map]
      exact decodeCategories_bad _ _ _ hs ⟨kv, hkv, hb⟩ _ hd
  · cases hkv


theorem decodeGamesResponseMembers_returns (ms : List (Bytes × JValue)) (cur : GamesResponse)
    (saved : Option GoError) (hlen : NoShortTimestamp ms) :
    ∃ d, decodeGamesResponseMembers cur saved ms = .ok d := by
  induction ms generalizing cur saved with
  | nil => exact ⟨_, rfl⟩
  | cons kv rest ih =>
    obtain ⟨key, v⟩ := kv
    simp only [NoShortTimestamp, categoryMembers, List.flatMap_cons, List.mem_append] at hlen
    obtain ⟨d, hd⟩ := decodeGamesResponseMember_returns cur key v saved
      (fun kv hkv => hlen kv (Or.inl hkv))
    simp only [decodeGamesResponseMembers, hd]
    cases d with
    | abort c e => exact ⟨_, rfl⟩
    | done c sv => exact ih c sv (fun kv hkv => hlen kv (Or.inr hkv))

theorem decodeGamesResponseMembers_carries (ms : List (Bytes × JValue)) (cur : GamesResponse)
    (saved : Option GoError) (hs : SavedOk saved) (d : Decoded GamesResponse)
    (h : decodeGamesResponseMembers cur saved ms = .ok d) : d.carries saved := by
  induction ms generalizing cur saved with
  | nil =>
    simp only [decodeGamesResponseMembers, Exec.ok.injEq] at h
    subst h
    exact carries_done_same _ _ hs
  | cons kv rest ih =>
    obtain ⟨key, v⟩ := kv
    simp only [decodeGamesResponseMembers] at h
    cases hm : decodeGamesResponseMember cur key v saved with
    | panic m => rw [hm] at h; cases h
    | ok d0 =>
      have hc := decodeGamesResponseMember_carries cur key v saved hs d0 hm
      rw [hm] at h
      cases d0 with
      | abort c e =>
        simp only [Exec.ok.injEq] at h
        subst h
        exact hc
      | done c sv =>
        simp only [] at h
        exact carries_trans saved sv c d hc (ih c sv hc.1 h)

theorem decodeGamesResponseMembers_bad (ms : List (Bytes × JValue)) (cur : GamesResponse)
    (saved : Option GoError) (hs : SavedOk saved)
    (hbad : ∃ kv ∈ categoryMembers ms, BadMember kv.1 kv.2) (d : Decoded GamesResponse)
    (h : decodeGamesResponseMembers cur saved ms = .ok d) : d.failed = true := by
  induction ms generalizing cur saved with
  | nil => obtain ⟨kv, hkv, _⟩ := hbad; cases hkv
  | cons kv rest ih =>
    obtain ⟨key, v⟩ := kv
    simp only [decodeGamesResponseMembers] at h
    cases hm : decodeGamesResponseMember cur key v saved with
    | panic m => rw [hm] at h; cases h
    | ok d0 =>
      have hc := decodeGamesResponseMember_carries cur key v saved hs d0 hm
      rw [hm] at h
      cases d0 with
      | abort c e =>
        simp only [Exec.ok.injEq] at h
        subst h
        exact hc
      | done c sv =>
        simp only [] at h
        obtain ⟨kv, hkv, hb⟩ := hbad
        simp only [categoryMembers, List.flatMap_cons, List.mem_append] at hkv
        rcases hkv with hhead | hrest
        · have hf := decodeGamesResponseMember_bad cur key v saved hs ⟨kv, hhead, hb⟩ _ hm
          have hsv : sv.isSome = true := by
            cases sv with
            | none => cases hf
            | some e => rfl
          exact carries_failed d sv (decodeGamesResponseMembers_carries rest c sv hc.1 d h) hsv
        · exact ih c sv hc.1 ⟨kv, hrest, hb⟩ h

theorem savedOk_none : SavedOk none := fun _ h => by cases h

theorem unmarshal_bad (cur : GamesResponse) (data rawTop : Bytes)
    (members : List (Bytes × JValue))
    (htree : parseTree data = some (.obj rawTop members))
    (hlen : NoShortTimestamp members)
    (hbad : ∃ kv ∈ categoryMembers members, BadMember kv.1 kv.2) :
    ∃ g e, unmarshal cur data = .ok (g, some e) ∧ e.isDecodeError = true := by
  obtain ⟨d, hd⟩ := decodeGamesResponseMembers_returns members cur none hlen
  have hf := decodeGamesResponseMembers_bad members cur none savedOk_none hbad d hd
  simp only [unmarshal, htree, decodeGamesResponse, hd]
  cases d with
  | abort g e => exact ⟨g, e, rfl, hf⟩
  | done g sv =>
    cases sv with
    | none => cases hf
    | some e => exact ⟨g, e, rfl, hf⟩

theorem notADate_not_accepted : ¬ AcceptedText (str "not-a-date") := by
  intro h
  obtain ⟨c, r, hc, hd⟩ := acceptedText_head _ h
  have e2 : (str "not-a-date").head? = some 110 := by decide
  rw [hc] at e2
  have : c = 110 := by simpa using e2
  subst this
  revert hd; decide

theorem splitSlash_ne_nil (s : Bytes) : splitSlash s ≠ [] := by
  induction s with
  | nil => simp [splitSlash]
  | cons c rest ih =>
    unfold splitSlash
    split
    · simp
    · split <;> simp

theorem joinSlash_splitSlash (s : Bytes) : joinSlash (splitSlash s) = s := by
  induction s with
  | nil => rfl
  | cons c rest ih =>
    unfold splitSlash
    split
    · rename_i h; exact absurd h (splitSlash_ne_nil rest)
    · rename_i e es h
      rw [h] at ih
      split
      · rename_i hc
        subst hc
        simp only [joinSlash, List.flatMap_cons, List.nil_append] at ih ⊢
        rw [← ih]
        simp
      · simp only [joinSlash, List.cons_append] at ih ⊢
        rw [ih]

theorem splitSlash_append_slash (a b : Bytes) :
    splitSlash (a ++ 47 :: b) = splitSlash a ++ splitSlash b := by
  induction a with
  | nil =>
    simp only [List.nil_append]
    obtain ⟨e, es, h⟩ := List.exists_cons_of_ne_nil (splitSlash_ne_nil b)
    have h2 : splitSlash (47 :: b) = [] :: e :: es := by
      rw [splitSlash]
      simp only [h, if_true]
    rw [h2, h]
    rfl
  | cons c rest ih =>
    simp only [List.cons_append]
    obtain ⟨e, es, h⟩ := List.exists_cons_of_ne_nil (splitSlash_ne_nil rest)
    have h1 : splitSlash (c :: rest) = if c = 47 then [] :: e :: es else (c :: e) :: es := by
      rw [splitSlash]
      simp only [h]
    have h2 : splitSlash (c :: (rest ++ 47 :: b))
        = if c = 47 then [] :: (e :: es ++ splitSlash b) else (c :: e) :: (es ++ splitSlash b) := by
      rw [splitSlash]
      simp only [ih, h, List.cons_append]
    rw [h1, h2]
    split <;> rfl

theorem resolve_fold_plain (rest : List Bytes) (dst : Bytes)
    (h : ∀ e ∈ rest, e ≠ str "." ∧ e ≠ str "..") :
    rest.foldl resolveStep { dst := dst, first := false }
      = { dst := dst ++ rest.flatMap (47 :: ·), first := false } := by
  induction rest generalizing dst with
  | nil => simp
  | cons e es ih =>
    have he := h e (List.mem_cons_self _ _)
    simp only [List.foldl_cons, resolveStep, if_neg he.1, if_neg he.2]
    rw [ih _ (fun x hx => h x (List.mem_cons_of_mem _ hx))]
    simp


theorem lastIndex_of_getLast (s : Bytes) (h : s.getLast? = some 47) :
    lastIndex 47 s = some (s.length - 1) := by
  unfold lastIndex
  have hr : s.reverse.head? = some 47 := by rw [List.head?_reverse]; exact h
  cases hs : s.reverse with
  | nil => rw [hs] at hr; cases hr
  | cons a t =>
    rw [hs] at hr
    simp only [List.head?_cons, Option.some.injEq] at hr
    subst hr
    simp [List.indexOf?, List.findIdx?]


theorem splitSlash_slash (b : Bytes) : splitSlash (47 :: b) = [] :: splitSlash b := by
  have := splitSlash_append_slash [] b
  simpa [splitSlash] using this

theorem resolvePath_plain (p : Bytes) (hh : p.head? = some 47) (hl : p.getLast? = some 47)
    (hd : ∀ e ∈ splitSlash p, e ≠ str "." ∧ e ≠ str "..") :
    resolvePath p (str "games") = p ++ str "games" := by
  obtain ⟨q, rfl⟩ : ∃ q, p = q ++ [47] := by
    rcases List.eq_nil_or_concat p with h | ⟨q, b, h⟩
    · subst h; cases hl
    · subst h
      simp at hl
      subst hl
      exact ⟨q, by simp⟩
  have hfull : (q ++ [47]) ++ str "games" = q ++ 47 :: str "games" := by simp
  have hsp : splitSlash (q ++ 47 :: str "games") = splitSlash q ++ [str "games"] := by
    rw [splitSlash_append_slash]; rfl
  have hsq : splitSlash (q ++ [47]) = splitSlash q ++ [[]] := by
    rw [splitSlash_append_slash]; rfl
  have hdq : ∀ e ∈ splitSlash q, e ≠ str "." ∧ e ≠ str ".." := by
    intro e he
    apply hd
    rw [hsq]
    exact List.mem_append_left _ he
  have hlast : lastIndex 47 (q ++ [47]) = some q.length := by
    rw [lastIndex_of_getLast _ hl]; simp
  obtain ⟨t, ht⟩ : ∃ t, q ++ 47 :: str "games" = 47 :: t := by
    cases q with
    | nil => exact ⟨_, rfl⟩
    | cons a q1 =>
      simp at hh
      subst hh
      exact ⟨_, rfl⟩
  have hdt : ∀ e ∈ splitSlash t, e ≠ str "." ∧ e ≠ str ".." := by
    intro e he
    have hmem : e ∈ splitSlash (q ++ 47 :: str "games") := by
      rw [ht, splitSlash_slash]; exact List.mem_cons_of_mem _ he
    rw [hsp] at hmem
    rcases List.mem_append.1 hmem with h1 | h1
    · exact hdq e h1
    · simp only [List.mem_singleton] at h1
      subst h1
      decide
  have hjoin : (splitSlash t).flatMap (47 :: ·) = 47 :: t := by
    have := joinSlash_splitSlash (47 :: t)
    rw [splitSlash_slash] at this
    simpa [joinSlash] using this
  have hgl : (splitSlash (47 :: t)).getLast?.getD [] = str "games" := by
    rw [← ht, hsp]; simp
  have hg : str "games" = 103 :: str "ames" := by decide
  have htake : List.take (q.length + 1) (q ++ [47]) ++ 103 :: str "ames" = 47 :: t := by
    rw [← ht, hg, List.take_of_length_le (by simp)]
    simp
  have h103 : ((103 : UInt8) ≠ 47) = True := by decide
  unfold resolvePath
  rw [hg]
  simp only [hlast, h103, if_true, htake]
  have hstep : resolveStep { dst := [], first := true } [] = { dst := [], first := false } := by
    decide
  have hfold : (List.foldl resolveStep { dst := [], first := true } (splitSlash (47 :: t))).dst
      = 47 :: t := by
    rw [splitSlash_slash, List.foldl_cons, hstep, resolve_fold_plain _ _ hdt]
    simpa using hjoin
  have hnd : ¬ (str "games" = str "." ∨ str "games" = str "..") := by decide
  rw [hfold, hgl, if_neg hnd]
  simp only [List.append_nil, List.singleton_append, List.length_cons, List.get?_cons_succ,
    List.get?_cons_zero, List.drop_succ_cons, List.drop_zero, gt_iff_lt, Nat.lt_add_left_iff_pos,
    Nat.zero_lt_succ, and_self, if_true]
  rw [← ht, hg]
  simp

set_option maxRecDepth 100000 in
theorem hex_roundtrip_fin : ∀ n : Fin 256,
    ishex (upperhex ((UInt8.ofNat n.val).toNat / 16)) = true ∧
    ishex (upperhex ((UInt8.ofNat n.val).toNat % 16)) = true ∧
    UInt8.ofNat (unhex (upperhex ((UInt8.ofNat n.val).toNat / 16)) * 16
      + unhex (upperhex ((UInt8.ofNat n.val).toNat % 16))) = UInt8.ofNat n.val := by
  decide

theorem ofNat_toNat_byte (c : UInt8) : UInt8.ofNat c.toNat = c := by
  apply UInt8.ext
  simp [UInt8.toNat, UInt8.ofNat]

theorem hex_roundtrip (c : UInt8) :
    ishex (upperhex (c.toNat / 16)) = true ∧ ishex (upperhex (c.toNat % 16)) = true ∧
    UInt8.ofNat (unhex (upperhex (c.toNat / 16)) * 16 + unhex (upperhex (c.toNat % 16))) = c := by
  have h := hex_roundtrip_fin ⟨c.toNat, c.toNat_lt⟩
  simp only [ofNat_toNat_byte] at h
  exact h

theorem escape_cons_path (c : UInt8) (p : Bytes) :
    escape (c :: p) .encodePath
      = (if shouldEscape c .encodePath then [37, upperhex (c.toNat / 16), upperhex (c.toNat % 16)]
         else [c]) ++ escape p .encodePath := by
  simp [escape]

theorem unescape_escape_path (p : Bytes) :
    unescape (escape p .encodePath) .encodePath = some p := by
  induction p with
  | nil => rfl
  | cons c p ih =>
    rw [escape_cons_path]
    by_cases hc : shouldEscape c .encodePath = true
    · obtain ⟨h1, h2, h3⟩ := hex_roundtrip c
      simp only [hc, if_true, List.cons_append, List.nil_append]
      rw [unescape]
      simp [h1, h2, h3, ih]
    · have hc2 : shouldEscape c .encodePath = false := by simpa using hc
      have h37 : c ≠ 37 := by
        intro e; subst e; revert hc2; decide
      simp only [hc2, Bool.false_eq_true, if_false, List.cons_append, List.nil_append]
      unfold unescape
      split
      · rename_i heq; cases heq
      · rename_i heq
        simp only [List.cons.injEq] at heq
        exact absurd heq.1 h37
      · rename_i c1 rest1 hne heq
        simp only [List.cons.injEq] at heq
        obtain ⟨rfl, rfl⟩ := heq
        rw [ih]
        split
        · rename_i h43
          subst h43
          simp
        · simp

theorem map_eq_some_cons (o : Option Bytes) (v : UInt8) (a1 : Bytes)
    (h : o.map (v :: ·) = some a1) : ∃ a2, o = some a2 ∧ a1 = v :: a2 := by
  cases o with
  | none => cases h
  | some x =>
    simp only [Option.map_some', Option.some.injEq] at h
    exact ⟨x, rfl, h.symm⟩

theorem unescape_cons_ne (c : UInt8) (rest : Bytes) (h37 : c ≠ 37) :
    unescape (c :: rest) .encodePath
      = (unescape rest .encodePath).map ((if c = 43 then 43 else c) :: ·) := by
  conv => lhs; unfold unescape
  split
  · rename_i heq; cases heq
  · rename_i heq
    simp only [List.cons.injEq] at heq
    exact absurd heq.1 h37
  · rename_i c1 rest1 hne heq
    simp only [List.cons.injEq] at heq
    obtain ⟨rfl, rfl⟩ := heq
    split
    · simp
    · simp

theorem unescape_append_path : ∀ (n : Nat) (a a1 b : Bytes), a.length ≤ n →
    unescape a .encodePath = some a1 →
    unescape (a ++ b) .encodePath = (unescape b .encodePath).map (a1 ++ ·) := by
  intro n
  induction n with
  | zero =>
    intro a a1 b hn h
    have : a = [] := List.length_eq_zero.1 (Nat.le_zero.1 hn)
    subst this
    simp only [unescape, Option.some.injEq] at h
    subst h
    simp
  | succ n ih =>
    intro a a1 b hn h
    cases a with
    | nil =>
      simp only [unescape, Option.some.injEq] at h
      subst h
      simp
    | cons c rest =>
      by_cases h37 : c = 37
      · subst h37
        match rest, hn, h with
        | [], _, h => simp [unescape] at h
        | [x], _, h => simp [unescape] at h
        | x :: y :: rest, hn, h =>
          rw [unescape] at h
          simp only [List.cons_append]
          rw [unescape]
          by_cases hx : (!ishex x) = true ∨ (!ishex y) = true
          · rw [if_pos hx] at h; cases h
          · have hy : ¬ (Encoding.encodePath = Encoding.encodeHost ∧ unhex x < 8 ∧
                [37, x, y] ≠ str "%25") := fun hh => absurd hh.1 (by decide)
            have hz : ¬ (Encoding.encodePath = Encoding.encodeZone ∧
                [37, x, y] ≠ str "%25" ∧ unhex x * 16 + unhex y ≠ 32 ∧
                shouldEscape (UInt8.ofNat (unhex x * 16 + unhex y)) .encodeHost = true) :=
              fun hh => absurd hh.1 (by decide)
            rw [if_neg hx, if_neg hy, if_neg hz] at h ⊢
            obtain ⟨a2, h2, rfl⟩ := map_eq_some_cons _ _ _ h
            have hl : rest.length ≤ n := by simp at hn; omega
            rw [ih rest a2 b hl h2]
            cases unescape b .encodePath <;> simp
      · have hl : rest.length ≤ n := by simp at hn; omega
        rw [unescape_cons_ne c rest h37] at h
        obtain ⟨a2, h2, rfl⟩ := map_eq_some_cons _ _ _ h
        simp only [List.cons_append]
        rw [unescape_cons_ne c _ h37, ih rest a2 b hl h2]
        cases unescape b .encodePath <;> simp

theorem unescape_append (a a1 b : Bytes) (h : unescape a .encodePath = some a1) :
    unescape (a ++ b) .encodePath = (unescape b .encodePath).map (a1 ++ ·) :=
  unescape_append_path a.length a a1 b (Nat.le_refl _) h

theorem unescape_escapedPath (u : URL) :
    unescape u.EscapedPath .encodePath = some u.Path := by
  unfold URL.EscapedPath
  split
  · rename_i h; exact h.2.2
  · split
    · rename_i h; rw [h]; decide
    · exact unescape_escape_path _

theorem escapedPath_valid (u : URL) :
    u.EscapedPath = escape u.Path .encodePath ∨ validEncoded u.EscapedPath .encodePath = true := by
  unfold URL.EscapedPath
  split
  · rename_i h; exact Or.inr h.2.1
  · split
    · exact Or.inr (by decide)
    · exact Or.inl rfl

theorem escape_append (a b : Bytes) (m : Encoding) :
    escape (a ++ b) m = escape a m ++ escape b m := by
  simp [escape, List.flatMap_append]

theorem validEncoded_append (a b : Bytes) (m : Encoding) :
    validEncoded (a ++ b) m = (validEncoded a m && validEncoded b m) := by
  simp [validEncoded, List.all_append]

theorem gamesSuffix_cases (base : URL) :
    gamesSuffix base = str "/games" ∨ gamesSuffix base = str "games" := by
  unfold gamesSuffix
  split
  · exact Or.inl rfl
  · exact Or.inr rfl

theorem resolvePath_base (base : URL) (hp : PlainBase base) :
    resolvePath base.EscapedPath (str "games") = base.EscapedPath ++ gamesSuffix base := by
  obtain ⟨_, _, h | ⟨hh, hl, hd⟩⟩ := hp
  · rw [gamesSuffix, if_pos h.1, h.1]
    decide
  · have hne : base.EscapedPath ≠ [] := by
      intro h; rw [h] at hh; cases hh
    rw [gamesSuffix, if_neg hne]
    exact resolvePath_plain _ hh hl hd

theorem escapedPath_setPath (sch host : Bytes) (user : Option Userinfo) (path ep : Bytes)
    (hstar : path ≠ str "*") (hnn : ep ≠ [])
    (hun : unescape ep .encodePath = some path)
    (hv : ep = escape path .encodePath ∨ validEncoded ep .encodePath = true) :
    URL.EscapedPath
      { URL.zero with
          Scheme := sch, User := user, Host := host, Path := path,
          RawPath := if ep = escape path .encodePath then [] else ep } = ep := by
  unfold URL.EscapedPath
  by_cases heq : ep = escape path .encodePath
  · simp only [URL.zero, if_pos heq, ne_eq, not_true_eq_false, false_and, if_false,
      if_neg hstar]
    exact heq.symm
  · have hv2 : validEncoded ep .encodePath = true := hv.resolve_left heq
    simp only [URL.zero, if_neg heq]
    rw [if_pos ⟨hnn, hv2, hun⟩]

theorem resolveReference_plain (base : URL) (hp : PlainBase base) :
    ∃ rawp, base.ResolveReference gamesRef
        = { URL.zero with Scheme := base.Scheme, User := base.User, Host := base.Host,
                          Path := base.Path ++ gamesSuffix base, RawPath := rawp } ∧
      (base.ResolveReference gamesRef).EscapedPath = base.EscapedPath ++ gamesSuffix base := by
  have hs := gamesSuffix_cases base
  have hsu : unescape (gamesSuffix base) .encodePath = some (gamesSuffix base) := by
    rcases hs with h | h <;> rw [h] <;> decide
  have hse : escape (gamesSuffix base) .encodePath = gamesSuffix base := by
    rcases hs with h | h <;> rw [h] <;> decide
  have hsv : validEncoded (gamesSuffix base) .encodePath = true := by
    rcases hs with h | h <;> rw [h] <;> decide
  have hsl : 5 ≤ (gamesSuffix base).length := by
    rcases hs with h | h <;> rw [h] <;> decide
  have hun : unescape (base.EscapedPath ++ gamesSuffix base) .encodePath
      = some (base.Path ++ gamesSuffix base) := by
    rw [unescape_append _ _ _ (unescape_escapedPath base), hsu]
    rfl
  have hge : gamesRef.EscapedPath = str "games" := by decide
  have c0 : gamesRef.Scheme = [] := rfl
  have c1 : ¬ (gamesRef.Scheme ≠ [] ∨ gamesRef.Host ≠ [] ∨ gamesRef.User.isSome) := by decide
  have c2 : ¬ gamesRef.Opaque ≠ [] := by decide
  have c3 : ¬ (gamesRef.Path = [] ∧ !gamesRef.ForceQuery ∧ gamesRef.RawQuery = []) := by
    decide
  have c4 : ¬ (gamesRef.Path = [] ∧ base.Opaque ≠ []) := by
    intro h; exact absurd h.1 (by decide)
  have hR : base.ResolveReference gamesRef
      = { URL.zero with
            Scheme := base.Scheme, User := base.User, Host := base.Host,
            Path := base.Path ++ gamesSuffix base,
            RawPath := if base.EscapedPath ++ gamesSuffix base
                          = escape (base.Path ++ gamesSuffix base) .encodePath then []
                       else base.EscapedPath ++ gamesSuffix base } := by
    unfold URL.ResolveReference
    simp only [c0, if_true, if_neg c1, if_neg c2, if_neg c3, if_neg c4, hge,
      resolvePath_base base hp]
    unfold URL.setPath
    simp only [hun, Option.getD_some]
    rfl
  refine ⟨_, hR, ?_⟩
  rw [hR]
  have hstar : base.Path ++ gamesSuffix base ≠ str "*" := by
    intro h
    have := congrArg List.length h
    simp only [List.length_append] at this
    have h1 : (str "*").length = 1 := by decide
    omega
  have hnn : base.EscapedPath ++ gamesSuffix base ≠ [] := by
    intro h
    have := congrArg List.length h
    simp only [List.length_append, List.length_nil] at this
    omega
  have hv : base.EscapedPath ++ gamesSuffix base
        = escape (base.Path ++ gamesSuffix base) .encodePath ∨
      validEncoded (base.EscapedPath ++ gamesSuffix base) .encodePath = true := by
    rcases escapedPath_valid base with h | h
    · left
      rw [escape_append, hse, ← h]
    · right
      rw [validEncoded_append, hsv, h]
      rfl
  exact escapedPath_setPath _ _ _ _ _ hstar hnn hun hv

theorem string_plain (base : URL) (hp : PlainBase base) :
    (base.ResolveReference gamesRef).String = base.withoutQuery.String ++ gamesSuffix base := by
  obtain ⟨rawp, hR, hE⟩ := resolveReference_plain base hp
  rw [hR] at hE ⊢
  have e2 : base.withoutQuery.EscapedPath = base.EscapedPath := rfl
  have hu := unescape_escapedPath base
  obtain ⟨ho, hom, h | ⟨hh, hl, hd⟩⟩ := hp
  · have hs : gamesSuffix base = str "/games" := by rw [gamesSuffix, if_pos h.1]
    have hpath : base.Path = [] := by
      rw [h.1] at hu
      simp only [unescape, Option.some.injEq] at hu
      exact hu.symm
    have hg : str "/games" = 47 :: str "games" := by decide
    rw [hs, h.1] at hE
    unfold URL.String
    simp only [hE, e2, h.1, hs]
    rw [hg]
    simp [URL.withoutQuery, URL.zero, ho, hom, hpath, h.2, cut]
  · obtain ⟨t, ht⟩ : ∃ t, base.EscapedPath = 47 :: t := by
      cases hb : base.EscapedPath with
      | nil => rw [hb] at hh; cases hh
      | cons a t =>
        rw [hb] at hh
        simp at hh
        subst hh
        exact ⟨t, rfl⟩
    have hs : gamesSuffix base = str "games" := by
      rw [gamesSuffix, if_neg (by rw [ht]; simp)]
    obtain ⟨t1, ht1⟩ : ∃ t1, base.Path = 47 :: t1 := by
      rw [ht, unescape_cons_ne 47 t (by decide)] at hu
      obtain ⟨a2, _, h2⟩ := map_eq_some_cons _ _ _ hu
      exact ⟨a2, h2⟩
    rw [hs, ht] at hE
    unfold URL.String
    simp only [hE, e2, ht, hs]
    simp [URL.withoutQuery, URL.zero, ho, hom, ht1, cut]

theorem newRequest_plain (c : Client) (base u : URL) (hb : c.BaseURL = some base)
    (hp : PlainBase base)
    (hu : urlParse (base.withoutQuery.String ++ gamesSuffix base) = .ok u) :
    c.newRequest (str "GET") (str "games") = .ok (.ok (requestTo u c.UserAgent)) := by
  have hrel : urlParse (str "games") = .ok gamesRef := by decide
  have hm : (str "GET" = []) = False := by decide
  have ht : (str "GET").all isTokenByte = true := by decide
  unfold Client.newRequest
  simp only [hrel, hb, string_plain base hp, NewRequest, hu, hm, if_false, ht]
  rfl

/-- C6, amended: for every client whose base URL is hierarchical (no opaque part, host
not omitted) and has a path that, in its escaped form, either is empty, the URL having a
host, or starts and ends with a slash and has no segment `.` or `..`, and whatever its
user agent: if the text of the base URL without query and fragment, followed by `games`
(by `/games` if the path is empty), parses as a URL, then the request `Games` hands to
the transport is a `GET` without body to that URL (an empty port removed from its host),
with the header `Accept: application/json` and a `User-Agent` header equal to the user
agent of the client; and that request is the one the transport is called on, whose error
`Games` returns. -/
theorem games_request_on_plain_base (c : Client) (base u : URL)
    (hb : c.BaseURL = some base) (hp : PlainBase base)
    (hu : urlParse (base.withoutQuery.String ++ gamesSuffix base) = .ok u) :
    c.gamesRequest
      = some { Method := str "GET", URL := { u with Host := removeEmptyPort u.Host },
               Header := [(str "Accept", [str "application/json"]),
                          (str "User-Agent", [c.UserAgent])],
               Body := none, Host := removeEmptyPort u.Host } ∧
    ∀ h e, c.client = some h → h.Do (requestTo u c.UserAgent) = .error e →
      c.Games = .ok (none, none, some e) := by
  have hreq := newRequest_plain c base u hb hp hu
  constructor
  · unfold Client.gamesRequest
    rw [hreq]
    rfl
  · intro h e hc hdo
    unfold Client.Games
    rw [hreq]
    simp only [Client.do, hc, hdo]

/-- Witness of C6: the base `http://x/api/` gives a request to `http://x/api/games`, the
base `http://x` one to `http://x/games`, and the base `http://x/a%2Fb/?q=1` one to
`http://x/a%2Fb/games`. -/
theorem games_request_on_plain_base_witness :
    (urlParse (str "http://x/api/") = .ok apiSlashBase ∧ PlainBase apiSlashBase ∧
      urlParse (str "http://x/api/games") = .ok apiGamesURL ∧
      (clientOf refusingClient apiSlashBase (str "agent/1")).gamesRequest
        = some { Method := str "GET", URL := apiGamesURL,
                 Header := [(str "Accept", [str "application/json"]),
                            (str "User-Agent", [str "agent/1"])],
                 Body := none, Host := str "x" } ∧
      (clientOf refusingClient apiSlashBase (str "agent/1")).Games
        = .ok (none, none, some (.transport "connection refused"))) ∧
    (urlParse (str "http://x") = .ok hostBase ∧ PlainBase hostBase ∧
      urlParse (str "http://x/games") = .ok hostGamesURL ∧
      (clientOf refusingClient hostBase userAgent).gamesRequest
        = some { Method := str "GET", URL := hostGamesURL,
                 Header := [(str "Accept", [str "application/json"]),
                            (str "User-Agent", [userAgent])],
                 Body := none, Host := str "x" }) ∧
    (urlParse (str "http://x/a%2Fb/?q=1") = .ok encodedBase ∧ PlainBase encodedBase ∧
      urlParse (str "http://x/a%2Fb/games") = .ok encodedGamesURL ∧
      (clientOf refusingClient encodedBase userAgent).gamesRequest
        = some { Method := str "GET", URL := encodedGamesURL,
                 Header := [(str "Accept", [str "application/json"]),
                            (str "User-Agent", [userAgent])],
                 Body := none, Host := str "x" }) :=
  ⟨⟨by decide, by decide, by decide,
      (games_request_on_plain_base (clientOf refusingClient apiSlashBase (str "agent/1"))
        apiSlashBase apiGamesURL rfl (by decide) (by decide)).1,
      (games_request_on_plain_base (clientOf refusingClient apiSlashBase (str "agent/1"))
        apiSlashBase apiGamesURL rfl (by decide) (by decide)).2 refusingClient _ rfl rfl⟩,
    ⟨by decide, by decide, by decide,
      (games_request_on_plain_base (clientOf refusingClient hostBase userAgent)
        hostBase hostGamesURL rfl (by decide) (by decide)).1⟩,
    ⟨by decide, by decide, by decide,
      (games_request_on_plain_base (clientOf refusingClient encodedBase userAgent)
        encodedBase encodedGamesURL rfl (by decide) (by decide)).1⟩⟩

/-- C6, counterexample: with the absolute base URL `http://x/api`, whose path does not
end with a slash, the request `Games` hands to the transport goes to `http://x/games`:
the reference `games` replaces the last segment of the path of the base URL, so the
target is neither the text of the base URL followed by `games` nor `http://x/api/games`. -/
theorem games_request_replaces_last_segment :
    urlParse (str "http://x/api") = .ok apiBase ∧
    apiBase.String = str "http://x/api" ∧
    (clientOf refusingClient apiBase userAgent).gamesRequest.map (fun r => r.URL.String)
      = some (str "http://x/games") ∧
    str "http://x/games" ≠ apiBase.String ++ str "games" ∧
    str "http://x/games" ≠ str "http://x/api/games" := by
  decide

end Hitbox
